import Mathlib

/-!
LoongArch back end: constant synthesis and address classification.

A shallow embedding of parts of `gcc/config/loongarch/loongarch.cc`.

Conventions.
* A `HOST_WIDE_INT` on which the code does bitwise work is represented by its
  64-bit two's complement pattern, a `Nat` below `2 ^ 64`; `to_signed` reads
  such a pattern as the signed number it stands for.
* The `codes` array of `LARCH_MAX_INTEGER_OPS` entries is a function from the
  index to the entry; a store outside the array, a failed `gcc_assert` and
  `gcc_unreachable` make the embedded function return `none`.
-/

namespace LoongArch

/-! ## Constant synthesis -/

/-- The rtx codes that occur in a `loongarch_integer_op`. -/
inductive rtx_code where
  | UNKNOWN
  | IOR
  | AND
  | PLUS
  deriving DecidableEq, Repr

/-- Source: `enum loongarch_load_imm_method`. -/
inductive loongarch_load_imm_method where
  | METHOD_NORMAL
  | METHOD_LU32I
  | METHOD_LU52I
  deriving DecidableEq, Repr

/-- Source: `struct loongarch_integer_op`. -/
structure loongarch_integer_op where
  code : rtx_code
  value : Nat
  curr_value : Nat
  method : loongarch_load_imm_method
  deriving DecidableEq, Repr

/-- Source: `#define LARCH_MAX_INTEGER_OPS 4`. -/
def LARCH_MAX_INTEGER_OPS : Nat := 4

/-- Source: `#define LU32I_B (0xfffffULL << 32)`. -/
def LU32I_B : Nat := 0xfffff <<< 32

/-- Source: `#define LU52I_B (0xfffULL << 52)`. -/
def LU52I_B : Nat := 0xfff <<< 52

/-- The signed number a 64-bit pattern stands for. -/
def to_signed (x : Nat) : Int :=
  if x < 2 ^ 63 then (x : Int) else (x : Int) - 2 ^ 64

/-- The conversion `(unsigned HOST_WIDE_INT) x` of a signed number. -/
def to_unsigned (x : Int) : Nat := (x % 2 ^ 64).toNat

/-- The cast `(int32_t) value` widened back to `HOST_WIDE_INT`: the low 32
bits, sign-extended from bit 31. -/
def int32_cast (value : Nat) : Nat :=
  if value % 2 ^ 32 < 2 ^ 31 then value % 2 ^ 32
  else value % 2 ^ 32 + (2 ^ 64 - 2 ^ 32)

/-- The complement `~x` of a 64-bit pattern. -/
def hwi_not (x : Nat) : Nat := 2 ^ 64 - 1 - x % 2 ^ 64

/-- Modelled from the spec: `IMM_REACH` of loongarch.h, the reach of a 12-bit
immediate. -/
def IMM_REACH : Nat := 4096

/-- Modelled from the spec: `IMM12_OPERAND` of loongarch.h, "fits a
signed-12-bit immediate". -/
def IMM12_OPERAND (x : Int) : Bool := decide (-2048 ≤ x ∧ x < 2048)

/-- Modelled from the spec: `IMM12_OPERAND_UNSIGNED` of loongarch.h, "fits an
unsigned-12-bit immediate". -/
def IMM12_OPERAND_UNSIGNED (x : Int) : Bool := decide (0 ≤ x ∧ x < 4096)

/-- The array `codes[LARCH_MAX_INTEGER_OPS]`. -/
abbrev codes_array := Nat → loongarch_integer_op

/-- A store through `codes[i]`, which changes the fields `f` changes; `none`
when `i` is not an index of the array. -/
def codes_store (codes : codes_array) (i : Nat)
    (f : loongarch_integer_op → loongarch_integer_op) : Option codes_array :=
  if i < LARCH_MAX_INTEGER_OPS then some (Function.update codes i (f (codes i)))
  else none

/-- The checked `gcc_assert`. -/
def gcc_assert (c : Bool) : Option Unit := if c then some () else none

/-- Source: the part of `loongarch_build_integer` that loads the low 32 bits
(lines 1518-1548). -/
def build_integer_low (codes : codes_array) (low_part : Nat) :
    Option (codes_array × Nat) :=
  let cost := 0
  if IMM12_OPERAND (to_signed low_part)
      || IMM12_OPERAND_UNSIGNED (to_signed low_part) then do
    let codes ← codes_store codes cost (fun _ =>
      { code := .UNKNOWN, method := .METHOD_NORMAL, value := low_part,
        curr_value := low_part })
    pure (codes, cost + 1)
  else do
    let v0 := low_part &&& hwi_not (IMM_REACH - 1)
    let codes ← codes_store codes cost (fun _ =>
      { code := .UNKNOWN, method := .METHOD_NORMAL, value := v0,
        curr_value := v0 })
    let cost := cost + 1
    let iorv := low_part &&& (IMM_REACH - 1)
    if iorv ≠ 0 then do
      let codes ← codes_store codes cost (fun _ =>
        { code := .IOR, method := .METHOD_NORMAL, value := iorv,
          curr_value := low_part })
      pure (codes, cost + 1)
    else
      pure (codes, cost)

/-- Source: the `if (TARGET_64BIT)` block of `loongarch_build_integer` with
the statements that follow it (lines 1550-1591). -/
def build_integer_high (codes : codes_array) (cost : Nat) (value : Nat) :
    Option (codes_array × Nat) := do
  let lu32i : List Bool :=
    [decide (value &&& LU32I_B = 0), decide (value &&& LU32I_B = LU32I_B)]
  let lu52i : List Bool :=
    [decide (value &&& LU52I_B = 0), decide (value &&& LU52I_B = LU52I_B)]
  let sign31 := (value &&& (1 <<< 31)) >>> 31
  let sign51 := (value &&& (1 <<< 51)) >>> 51
  let lu32i_sign31 ← lu32i[sign31]?
  let lu52i_sign31 ← lu52i[sign31]?
  if lu32i_sign31 && lu52i_sign31 then
    pure (codes, cost)
  else if lu32i_sign31 then do
    let codes ← codes_store codes cost (fun op =>
      { op with method := .METHOD_LU52I, value := value &&& LU52I_B,
                curr_value := value })
    pure (codes, cost + 1)
  else do
    let codes ← codes_store codes cost (fun op =>
      { op with method := .METHOD_LU32I,
                value := (value &&& LU32I_B) ||| (if sign51 ≠ 0 then LU52I_B else 0),
                curr_value := (value &&& 0xfffffffffffff)
                  ||| (if sign51 ≠ 0 then LU52I_B else 0) })
    let cost := cost + 1
    let lu52i_sign51 ← lu52i[(value &&& (1 <<< 51)) >>> 51]?
    let (codes, cost) ←
      if !lu52i_sign51 then do
        let codes ← codes_store codes cost (fun op =>
          { op with method := .METHOD_LU52I, value := value &&& LU52I_B,
                    curr_value := value })
        pure (codes, cost + 1)
      else
        pure (codes, cost)
    gcc_assert (decide (cost ≤ LARCH_MAX_INTEGER_OPS))
    pure (codes, cost)

/-- Source: `loongarch_build_integer`.  The result is the filled array and the
returned number of operations. -/
def loongarch_build_integer (TARGET_64BIT : Bool) (codes : codes_array)
    (value : Nat) : Option (codes_array × Nat) := do
  let low_part := int32_cast value
  let (codes, cost) ← build_integer_low codes low_part
  if TARGET_64BIT then
    build_integer_high codes cost value
  else do
    gcc_assert (decide (cost ≤ LARCH_MAX_INTEGER_OPS))
    pure (codes, cost)

/-- Source: `loongarch_integer_cost`; `codes` is the local, uninitialised
array. -/
def loongarch_integer_cost (TARGET_64BIT : Bool) (codes : codes_array)
    (value : Nat) : Option Nat := do
  let (_, cost) ← loongarch_build_integer TARGET_64BIT codes value
  pure cost

/-- The value of the rtx `gen_rtx_fmt_ee (code, mode, x, GEN_INT (value))`
when `x` has value `x`; `none` for a code that is no binary operation. -/
def eval_fmt_ee (code : rtx_code) (x value : Nat) : Option Nat :=
  match code with
  | .IOR => some (x ||| value)
  | .AND => some (x &&& value)
  | .PLUS => some ((x + value) % 2 ^ 64)
  | .UNKNOWN => none

/-- Source: the `switch (codes[i].method)` of `loongarch_move_integer`, on the
value of `x`; `mode_is_DImode` is `mode == DImode`. -/
def move_integer_step (mode_is_DImode : Bool) (x : Nat)
    (op : loongarch_integer_op) : Option Nat :=
  match op.method with
  | .METHOD_NORMAL => eval_fmt_ee op.code x op.value
  | .METHOD_LU32I => do
      gcc_assert mode_is_DImode
      pure ((x % 2 ^ 32) ||| op.value)
  | .METHOD_LU52I => do
      gcc_assert mode_is_DImode
      pure ((x &&& 0xfffffffffffff) ||| op.value)

/-- Source: the loop `for (i = 1; i < num_ops; i++)` of
`loongarch_move_integer`, started at index `i` with `n` iterations left. -/
def move_integer_loop (mode_is_DImode : Bool) (codes : codes_array) :
    Nat → Nat → Nat → Option Nat
  | 0, _, x => some x
  | n + 1, i, x => do
      let x ← move_integer_step mode_is_DImode x (codes i)
      move_integer_loop mode_is_DImode codes n (i + 1) x

/-- Replays the first `num_ops` entries of `codes` the way
`loongarch_move_integer` does. -/
def replay_codes (mode_is_DImode : Bool) (codes : codes_array) (num_ops : Nat) :
    Option Nat :=
  move_integer_loop mode_is_DImode codes (num_ops - 1) 1 (codes 0).value

/-- Source: `loongarch_move_integer`.  The result is the value of the
expression that is finally set into `dest`. -/
def loongarch_move_integer (TARGET_64BIT mode_is_DImode : Bool)
    (codes : codes_array) (value : Nat) : Option Nat := do
  let (codes, num_ops) ← loongarch_build_integer TARGET_64BIT codes value
  replay_codes mode_is_DImode codes num_ops

/-! ### The step kinds of the minimality claim -/

/-- The values one initial load can set, in the words of the minimality claim:
a signed 12-bit immediate, an unsigned 12-bit immediate, or a 20-bit immediate
placed at bits 12-31 and sign-extended from bit 31. -/
def initial_load_ok (x : Nat) : Bool :=
  decide (x < 2 ^ 64)
    && (IMM12_OPERAND (to_signed x) || IMM12_OPERAND_UNSIGNED (to_signed x)
        || decide (x = int32_cast x ∧ x % 4096 = 0))

/-- The later steps, in the words of the minimality claim: OR with an unsigned
12-bit immediate; insert 20 bits at bit 32 with sign extension into bits 52-63;
insert 12 bits at bit 52. -/
def later_step_ok (op : loongarch_integer_op) : Bool :=
  match op.method with
  | .METHOD_NORMAL => decide (op.code = .IOR ∧ op.value < 4096)
  | .METHOD_LU32I =>
      decide (op.value < 2 ^ 64 ∧ op.value % 2 ^ 32 = 0
        ∧ op.value / 2 ^ 52 = (op.value / 2 ^ 51 % 2) * 4095)
  | .METHOD_LU52I => decide (op.value < 2 ^ 64 ∧ op.value % 2 ^ 52 = 0)

/-- The first `n` entries of `codes` are a sequence of the step kinds above. -/
def step_sequence_ok (codes : codes_array) (n : Nat) : Bool :=
  decide (1 ≤ n) && initial_load_ok (codes 0).value
    && (List.range n).all (fun i => i == 0 || later_step_ok (codes i))

/-- The count of `loongarch_build_integer` on a 64-bit target in closed form
(`build_integer_cost_64` below): the steps for the low 32 bits, plus one for
each of the fields 32-51 and 52-63 that is no sign-extension of the bit below
it.  It is the potential of the minimality proof. -/
def step_potential (v : Nat) : Nat :=
  (if (IMM12_OPERAND (to_signed (int32_cast v))
        || IMM12_OPERAND_UNSIGNED (to_signed (int32_cast v))) = true
      ∨ int32_cast v % 4096 = 0 then 1 else 2)
    + (if v / 4294967296 % 1048576 = v / 2147483648 % 2 * 1048575 then 0 else 1)
    + (if v / 4503599627370496 % 4096 = v / 2251799813685248 % 2 * 4095 then 0 else 1)

/-! ## Machine modes, target options and rtx -/

/-- The mode classes the code tests with `GET_MODE_CLASS`. -/
inductive mode_class where
  | MODE_RANDOM
  | MODE_CC
  | MODE_INT
  | MODE_FLOAT
  | MODE_COMPLEX_INT
  | MODE_COMPLEX_FLOAT
  | MODE_VECTOR_INT
  | MODE_VECTOR_FLOAT
  deriving DecidableEq, Repr

/-- Modelled from the spec: the machine-mode tables (insn-modes) are not in
src.  A `machine_mode` is given by what the code reads from those tables: its
name, its class, `GET_MODE_SIZE` and `GET_MODE_UNIT_SIZE` in bytes and
`GET_MODE_ALIGNMENT` in bits. -/
structure machine_mode where
  name : String
  mode_class : mode_class
  size : Nat
  unit_size : Nat
  alignment : Nat
  deriving DecidableEq, Repr

/-- The table lookup `GET_MODE_SIZE (mode)`. -/
def GET_MODE_SIZE (mode : machine_mode) : Nat := mode.size

/-- The table lookup `GET_MODE_UNIT_SIZE (mode)`. -/
def GET_MODE_UNIT_SIZE (mode : machine_mode) : Nat := mode.unit_size

/-- The table lookup `GET_MODE_CLASS (mode)`. -/
def GET_MODE_CLASS (mode : machine_mode) : mode_class := mode.mode_class

/-- The table lookup `GET_MODE_ALIGNMENT (mode)`. -/
def GET_MODE_ALIGNMENT (mode : machine_mode) : Nat := mode.alignment

/-- The macro `GET_MODE_BITSIZE (mode)`, with `BITS_PER_UNIT` 8. -/
def GET_MODE_BITSIZE (mode : machine_mode) : Nat := 8 * mode.size

/-- The mode `VOIDmode`, which a `CONST_INT` has. -/
def VOIDmode : machine_mode := ⟨"VOID", .MODE_RANDOM, 0, 0, 0⟩

/-- The mode `BLKmode`. -/
def BLKmode : machine_mode := ⟨"BLK", .MODE_RANDOM, 0, 0, 8⟩

/-- The 4-byte integer mode `SImode`. -/
def E_SImode : machine_mode := ⟨"SI", .MODE_INT, 4, 4, 32⟩

/-- The 8-byte integer mode `DImode`. -/
def E_DImode : machine_mode := ⟨"DI", .MODE_INT, 8, 8, 64⟩

/-- The 16-byte integer mode `TImode`. -/
def TImode : machine_mode := ⟨"TI", .MODE_INT, 16, 16, 128⟩

/-- The 4-byte float mode `SFmode`. -/
def SFmode : machine_mode := ⟨"SF", .MODE_FLOAT, 4, 4, 32⟩

/-- The 8-byte float mode `DFmode`. -/
def DFmode : machine_mode := ⟨"DF", .MODE_FLOAT, 8, 8, 64⟩

/-- The 128-bit vector mode of 16 bytes. -/
def V16QImode : machine_mode := ⟨"V16QI", .MODE_VECTOR_INT, 16, 1, 128⟩

/-- The 128-bit vector mode of four 4-byte integers. -/
def V4SImode : machine_mode := ⟨"V4SI", .MODE_VECTOR_INT, 16, 4, 128⟩

/-- The 128-bit vector mode of two 8-byte integers. -/
def V2DImode : machine_mode := ⟨"V2DI", .MODE_VECTOR_INT, 16, 8, 128⟩

/-- The 256-bit vector mode of four 8-byte integers. -/
def V4DImode : machine_mode := ⟨"V4DI", .MODE_VECTOR_INT, 32, 8, 256⟩

/-- The end marker `MAX_MACHINE_MODE` of `enum machine_mode`. -/
def MAX_MACHINE_MODE : machine_mode := ⟨"MAX_MACHINE_MODE", .MODE_RANDOM, 0, 0, 0⟩

/-- Source: the values of `la_opt_explicit_relocs` that
`loongarch_explicit_relocs_p` compares. -/
inductive explicit_relocs where
  | EXPLICIT_RELOCS_AUTO
  | EXPLICIT_RELOCS_NONE
  | EXPLICIT_RELOCS_ALWAYS
  deriving DecidableEq, Repr

/-- The target options and global tables of the compiler that the embedded
functions read.  None of them is set in src; each is a parameter. -/
structure target where
  TARGET_64BIT : Bool
  ISA_HAS_LSX : Bool
  ISA_HAS_LASX : Bool
  TARGET_STRICT_ALIGN : Bool
  TARGET_CMODEL_EXTREME : Bool
  TARGET_DIRECT_EXTERN_ACCESS : Bool
  la_opt_explicit_relocs : explicit_relocs
  in_lto_p : Bool
  flag_incremental_link : Bool
  HAVE_LTO_PLUGIN : Nat
  flag_use_linker_plugin_set : Bool
  flag_use_linker_plugin : Bool
  /-- The number `UNSPEC_ADDRESS_FIRST` of loongarch.md. -/
  UNSPEC_ADDRESS_FIRST : Int
  /-- The array `reg_renumber` of the register allocator. -/
  reg_renumber : Int → Int
  /-- The row `contains_reg_of_mode[GENERAL_REGS]`. -/
  contains_reg_of_mode_GENERAL_REGS : machine_mode → Bool

/-- Modelled from the spec: `UNITS_PER_WORD` of loongarch.h, the bytes of one
machine word. -/
def UNITS_PER_WORD (cfg : target) : Nat := if cfg.TARGET_64BIT then 8 else 4

/-- The macro `BITS_PER_WORD`. -/
def BITS_PER_WORD (cfg : target) : Nat := 8 * UNITS_PER_WORD cfg

/-- Modelled from the spec: `Pmode` of loongarch.h, the mode of an address. -/
def Pmode (cfg : target) : machine_mode :=
  if cfg.TARGET_64BIT then E_DImode else E_SImode

/-- Modelled from the spec: `LSX_SUPPORTED_MODE_P` of loongarch.h, "a 128-bit
vector mode" with the 128-bit vector extension enabled. -/
def LSX_SUPPORTED_MODE_P (cfg : target) (mode : machine_mode) : Bool :=
  cfg.ISA_HAS_LSX && decide (GET_MODE_SIZE mode = 16)
    && (decide (GET_MODE_CLASS mode = .MODE_VECTOR_INT)
        || decide (GET_MODE_CLASS mode = .MODE_VECTOR_FLOAT))

/-- Modelled from the spec: `LASX_SUPPORTED_MODE_P` of loongarch.h, "a 256-bit
vector mode" with the 256-bit vector extension enabled. -/
def LASX_SUPPORTED_MODE_P (cfg : target) (mode : machine_mode) : Bool :=
  cfg.ISA_HAS_LASX && decide (GET_MODE_SIZE mode = 32)
    && (decide (GET_MODE_CLASS mode = .MODE_VECTOR_INT)
        || decide (GET_MODE_CLASS mode = .MODE_VECTOR_FLOAT))

/-- Modelled from the spec: `enum loongarch_symbol_type` of
loongarch-protos.h, the eight relocation families (`RawTls` is
`SYMBOL_TLS`). -/
inductive loongarch_symbol_type where
  | SYMBOL_GOT_DISP
  | SYMBOL_TLS
  | SYMBOL_PCREL
  | SYMBOL_PCREL64
  | SYMBOL_TLS_IE
  | SYMBOL_TLS_LE
  | SYMBOL_TLSGD
  | SYMBOL_TLSLDM
  deriving DecidableEq, Repr

/-- The number `NUM_SYMBOL_TYPES` of symbol types. -/
def NUM_SYMBOL_TYPES : Int := 8

/-- The cast `(enum loongarch_symbol_type) n`. -/
def symbol_type_of_int (n : Int) : loongarch_symbol_type :=
  if n = 0 then .SYMBOL_GOT_DISP
  else if n = 1 then .SYMBOL_TLS
  else if n = 2 then .SYMBOL_PCREL
  else if n = 3 then .SYMBOL_PCREL64
  else if n = 4 then .SYMBOL_TLS_IE
  else if n = 5 then .SYMBOL_TLS_LE
  else if n = 6 then .SYMBOL_TLSGD
  else .SYMBOL_TLSLDM

/-- The value of the "model" attribute of a declaration:
`TREE_VALUE (TREE_VALUE (t))`, a `STRING_CST` or another tree. -/
inductive model_attribute where
  | STRING_CST (s : String)
  | other_tree
  deriving DecidableEq, Repr

/-- What the code reads from the declaration `SYMBOL_REF_DECL (x)`. -/
structure decl_info where
  /-- The answer of `targetm.binds_local_p`. -/
  binds_local_p : Bool
  /-- The result of `lookup_attribute ("model", DECL_ATTRIBUTES (t))`. -/
  model : Option model_attribute
  DECL_ALIGN : Nat
  /-- The tree `DECL_SIZE`, read with `tree_to_uhwi`. -/
  DECL_SIZE : Option Nat
  deriving DecidableEq, Repr

/-- What the code reads from a `SYMBOL_REF`. -/
structure symbol_ref_info where
  SYMBOL_REF_TLS_MODEL : Nat
  SYMBOL_REF_DECL : Option decl_info
  SYMBOL_REF_LOCAL_P : Bool
  deriving DecidableEq, Repr

/-- The rtx expressions the address classifier, the move splitter and the
argument classifier look at; `OTHER` stands for an rtx of any other code and
`NULL_RTX` for the null pointer.  A `CONST_VECTOR` is given by its mode and its
elements as `CONST_VECTOR_ELT` reads them, a `CONST_DOUBLE` by the bits of its
value, a `PARALLEL` by its vector. -/
inductive rtx where
  | REG (mode : machine_mode) (regno : Nat)
  | SUBREG (mode : machine_mode) (inner : rtx) (byte : Nat)
  | PLUS (mode : machine_mode) (op0 op1 : rtx)
  | LO_SUM (mode : machine_mode) (op0 op1 : rtx)
  | CONST_INT (value : Int)
  | CONST (mode : machine_mode) (op0 : rtx)
  | SYMBOL_REF (mode : machine_mode) (sym : symbol_ref_info)
  | LABEL_REF (mode : machine_mode) (label : Nat)
  | UNSPEC (mode : machine_mode) (vec : List rtx) (num : Int)
  | OTHER (mode : machine_mode)
  | MEM (mode : machine_mode) (addr : rtx)
  | CONST_VECTOR (mode : machine_mode) (elt : Nat → rtx)
  | CONST_DOUBLE (mode : machine_mode) (bits : Nat)
  | EXPR_LIST (mode : machine_mode) (op0 op1 : rtx)
  | PARALLEL (mode : machine_mode) (vec : List rtx)
  | NULL_RTX

/-- The constant `const0_rtx`. -/
def const0_rtx : rtx := .CONST_INT 0

/-- The macro `GET_MODE (x)`; a `CONST_INT` has `VOIDmode`.  The code never
reads the mode of a null pointer. -/
def GET_MODE : rtx → machine_mode
  | .REG m _ => m
  | .SUBREG m _ _ => m
  | .PLUS m _ _ => m
  | .LO_SUM m _ _ => m
  | .CONST_INT _ => VOIDmode
  | .CONST m _ => m
  | .SYMBOL_REF m _ => m
  | .LABEL_REF m _ => m
  | .UNSPEC m _ _ => m
  | .OTHER m => m
  | .MEM m _ => m
  | .CONST_VECTOR m _ => m
  | .CONST_DOUBLE m _ => m
  | .EXPR_LIST m _ _ => m
  | .PARALLEL m _ => m
  | .NULL_RTX => VOIDmode

/-- The macro `REG_P`. -/
def REG_P : rtx → Bool
  | .REG _ _ => true
  | _ => false

/-- The macro `SUBREG_P`. -/
def SUBREG_P : rtx → Bool
  | .SUBREG _ _ _ => true
  | _ => false

/-- The macro `INTVAL (x)`, defined on a `CONST_INT`. -/
def INTVAL : rtx → Option Int
  | .CONST_INT v => some v
  | _ => none

/-- Modelled from the spec: `split_const` of rtl.cc is not in src.  It splits
`(const (plus base offset))` with a constant integer offset into base and
offset, and any other rtx into itself and zero. -/
def split_const (x : rtx) : rtx × rtx :=
  match x with
  | .CONST _ (.PLUS _ base (.CONST_INT off)) => (base, .CONST_INT off)
  | .CONST _ inner => (inner, const0_rtx)
  | _ => (x, const0_rtx)

/-! ## Symbol and address classification -/

/-- Source: `enum loongarch_address_type`. -/
inductive loongarch_address_type where
  | ADDRESS_REG
  | ADDRESS_REG_REG
  | ADDRESS_LO_SUM
  | ADDRESS_CONST_INT
  | ADDRESS_SYMBOLIC
  deriving DecidableEq, Repr

/-- Source: `struct loongarch_address_info`. -/
structure loongarch_address_info where
  type : loongarch_address_type
  reg : rtx
  offset : rtx
  symbol_type : loongarch_symbol_type

/-- Source: the macro `UNSPEC_ADDRESS_P`. -/
def UNSPEC_ADDRESS_P (cfg : target) (x : rtx) : Bool :=
  match x with
  | .UNSPEC _ _ num =>
      decide (num ≥ cfg.UNSPEC_ADDRESS_FIRST)
        && decide (num < cfg.UNSPEC_ADDRESS_FIRST + NUM_SYMBOL_TYPES)
  | _ => false

/-- Source: the macro `UNSPEC_ADDRESS_TYPE`, defined on an `UNSPEC`. -/
def UNSPEC_ADDRESS_TYPE (cfg : target) (x : rtx) : Option loongarch_symbol_type :=
  match x with
  | .UNSPEC _ _ num => some (symbol_type_of_int (num - cfg.UNSPEC_ADDRESS_FIRST))
  | _ => none

/-- Source: `loongarch_symbol_binds_local_p`. -/
def loongarch_symbol_binds_local_p (cfg : target) (x : rtx) : Bool :=
  if cfg.TARGET_DIRECT_EXTERN_ACCESS then true
  else
    match x with
    | .SYMBOL_REF _ sym =>
        match sym.SYMBOL_REF_DECL with
        | some decl => decl.binds_local_p
        | none => sym.SYMBOL_REF_LOCAL_P
    | _ => false

/-- Source: `loongarch_classify_symbol`; `none` is a failed `gcc_assert` or
`gcc_unreachable`. -/
def loongarch_classify_symbol (cfg : target) (x : rtx) : Option loongarch_symbol_type :=
  let pcrel : loongarch_symbol_type :=
    if cfg.TARGET_CMODEL_EXTREME then .SYMBOL_PCREL64 else .SYMBOL_PCREL
  match x with
  | .SYMBOL_REF _ sym =>
      if sym.SYMBOL_REF_TLS_MODEL ≠ 0 then some .SYMBOL_TLS
      else if !loongarch_symbol_binds_local_p cfg x then some .SYMBOL_GOT_DISP
      else
        match sym.SYMBOL_REF_DECL with
        | none => some pcrel
        | some t =>
            match t.model with
            | none => some pcrel
            | some .other_tree => none
            | some (.STRING_CST model) =>
                if model = "normal" then some .SYMBOL_PCREL
                else if model = "extreme" then some .SYMBOL_PCREL64
                else none
  | _ => some pcrel

/-- Source: `loongarch_classify_symbolic_expression`. -/
def loongarch_classify_symbolic_expression (cfg : target) (x : rtx) :
    Option loongarch_symbol_type :=
  let (x, _) := split_const x
  if UNSPEC_ADDRESS_P cfg x then UNSPEC_ADDRESS_TYPE cfg x
  else loongarch_classify_symbol cfg x

/-- Source: `loongarch_explicit_relocs_p`. -/
def loongarch_explicit_relocs_p (cfg : target) (type : loongarch_symbol_type) : Bool :=
  if cfg.la_opt_explicit_relocs ≠ .EXPLICIT_RELOCS_AUTO then
    decide (cfg.la_opt_explicit_relocs = .EXPLICIT_RELOCS_ALWAYS)
  else
    match type with
    | .SYMBOL_TLS_IE | .SYMBOL_TLS_LE | .SYMBOL_TLSGD | .SYMBOL_TLSLDM => true
    | _ =>
        if !cfg.in_lto_p || cfg.flag_incremental_link || decide (cfg.HAVE_LTO_PLUGIN < 2)
            || (cfg.flag_use_linker_plugin_set && !cfg.flag_use_linker_plugin) then
          false
        else decide (type = .SYMBOL_GOT_DISP)

/-- Source: `loongarch_symbol_insns`. -/
def loongarch_symbol_insns (cfg : target) (type : loongarch_symbol_type)
    (mode : machine_mode) : Nat :=
  if LSX_SUPPORTED_MODE_P cfg mode || LASX_SUPPORTED_MODE_P cfg mode then 0
  else
    match type with
    | .SYMBOL_GOT_DISP =>
        if !loongarch_explicit_relocs_p cfg type && decide (mode ≠ MAX_MACHINE_MODE) then 0
        else 3
    | .SYMBOL_PCREL | .SYMBOL_TLS_IE | .SYMBOL_TLS_LE => 2
    | .SYMBOL_TLSGD | .SYMBOL_TLSLDM => 3
    | .SYMBOL_PCREL64 => 5
    | .SYMBOL_TLS => 0

/-- The number `FIRST_PSEUDO_REGISTER`: the length of
`loongarch_regno_to_class`. -/
def FIRST_PSEUDO_REGISTER : Int := 74

/-- The macro `HARD_REGISTER_NUM_P`. -/
def HARD_REGISTER_NUM_P (regno : Int) : Bool := decide (regno < FIRST_PSEUDO_REGISTER)

/-- Modelled from the spec: `ARG_POINTER_REGNUM` of loongarch.h, the first of
the "two ABI-reserved frame-related pseudo-registers" (class `FRAME_REGS` in
`loongarch_regno_to_class`). -/
def ARG_POINTER_REGNUM : Int := 72

/-- Modelled from the spec: `FRAME_POINTER_REGNUM` of loongarch.h, the second
of the two frame-related registers. -/
def FRAME_POINTER_REGNUM : Int := 73

/-- Modelled from the spec: `GP_REG_P` of loongarch.h, "general-purpose
register class": the first 32 entries of `loongarch_regno_to_class`. -/
def GP_REG_P (regno : Int) : Bool := decide (0 ≤ regno ∧ regno < 32)

/-- Source: `loongarch_regno_mode_ok_for_base_p`. -/
def loongarch_regno_mode_ok_for_base_p (cfg : target) (regno : Int)
    (_mode : machine_mode) (strict_p : Bool) : Bool :=
  if !HARD_REGISTER_NUM_P regno && !strict_p then true
  else
    let regno := if !HARD_REGISTER_NUM_P regno then cfg.reg_renumber regno else regno
    if regno = ARG_POINTER_REGNUM || regno = FRAME_POINTER_REGNUM then true
    else GP_REG_P regno

/-- Source: `loongarch_valid_base_register_p`. -/
def loongarch_valid_base_register_p (cfg : target) (x : rtx) (mode : machine_mode)
    (strict_p : Bool) : Bool :=
  let x := match x with
    | .SUBREG _ inner _ => if !strict_p then inner else x
    | _ => x
  match x with
  | .REG _ regno => loongarch_regno_mode_ok_for_base_p cfg regno mode strict_p
  | _ => false

/-- Source: `loongarch_unsigned_immediate_p`, on a 64-bit pattern `x`. -/
def loongarch_unsigned_immediate_p (x : Nat) (bits : Nat) (shift : Nat) : Bool :=
  decide (x &&& ((1 <<< shift) - 1) = 0) && decide (x < 1 <<< (shift + bits))

/-- Source: `loongarch_signed_immediate_p`, on a 64-bit pattern `x`; the
addition wraps at 64 bits. -/
def loongarch_signed_immediate_p (x : Nat) (bits : Nat) (shift : Nat) : Bool :=
  let x := (x + 1 <<< (bits + shift - 1)) % 2 ^ 64
  loongarch_unsigned_immediate_p x bits shift

/-- Modelled from the spec: `exact_log2` of hwint.h is not in src: the base-2
logarithm of a power of two below `2 ^ 64` (the scale of the "10-bit signed and
scaled" offset), and -1 for any other number. -/
def exact_log2 (x : Nat) : Int :=
  match (List.range 64).find? (fun k => decide (2 ^ k = x)) with
  | some k => (k : Int)
  | none => -1

/-- Source: `loongarch_ldst_scaled_shift`; `none` is `gcc_unreachable`. -/
def loongarch_ldst_scaled_shift (mode : machine_mode) : Option Nat :=
  let shift := exact_log2 (GET_MODE_UNIT_SIZE mode)
  if shift < 0 ∨ shift > 8 then none else some shift.toNat

/-- Modelled from the spec: predicate `const_arith_operand` of predicates.md,
a constant integer that is "a signed 12-bit number". -/
def const_arith_operand (x : rtx) (_mode : machine_mode) : Bool :=
  match x with
  | .CONST_INT v => IMM12_OPERAND v
  | _ => false

/-- Modelled from the spec: predicate `const_imm16_operand` of predicates.md,
a constant integer that is "a signed 16-bit number". -/
def const_imm16_operand (x : rtx) (_mode : machine_mode) : Bool :=
  match x with
  | .CONST_INT v => decide (-32768 ≤ v ∧ v < 32768)
  | _ => false

/-- Source: `loongarch_valid_offset_p`. -/
def loongarch_valid_offset_p (cfg : target) (x : rtx) (mode : machine_mode) :
    Option Bool := do
  let first ←
    if const_arith_operand x (Pmode cfg) then pure true
    else if (decide (mode = E_SImode) || decide (mode = E_DImode))
        && const_imm16_operand x (Pmode cfg) then do
      let v ← INTVAL x
      pure (loongarch_signed_immediate_p (to_unsigned v) 14 2)
    else pure false
  if !first then
    pure false
  else do
    let v ← INTVAL x
    if decide (GET_MODE_SIZE mode > UNITS_PER_WORD cfg)
        && !IMM12_OPERAND (v + GET_MODE_SIZE mode - UNITS_PER_WORD cfg) then
      pure false
    else do
      let lsx_bad ←
        if LSX_SUPPORTED_MODE_P cfg mode then do
          let shift ← loongarch_ldst_scaled_shift mode
          pure (!loongarch_signed_immediate_p (to_unsigned v) 10 shift)
        else pure false
      if lsx_bad then
        pure false
      else if LASX_SUPPORTED_MODE_P cfg mode
          && !loongarch_signed_immediate_p (to_unsigned v) 10 0 then
        pure false
      else
        pure true

/-- Source: `loongarch_split_symbol_type`. -/
def loongarch_split_symbol_type (symbol_type : loongarch_symbol_type) : Bool :=
  match symbol_type with
  | .SYMBOL_PCREL | .SYMBOL_PCREL64 | .SYMBOL_GOT_DISP | .SYMBOL_TLS_IE
  | .SYMBOL_TLS_LE | .SYMBOL_TLSGD | .SYMBOL_TLSLDM => true
  | .SYMBOL_TLS => false

/-- Source: `loongarch_valid_lo_sum_p`. -/
def loongarch_valid_lo_sum_p (cfg : target) (symbol_type : loongarch_symbol_type)
    (mode : machine_mode) (x : rtx) : Bool :=
  if loongarch_symbol_insns cfg symbol_type mode = 0 then false
  else if !loongarch_split_symbol_type symbol_type then false
  else
    let align_size : Option (Nat × Nat) :=
      if mode = BLKmode then
        match (split_const x).1 with
        | .SYMBOL_REF _ sym =>
            let align := match sym.SYMBOL_REF_DECL with
              | some decl => decl.DECL_ALIGN
              | none => 1
            let size := match sym.SYMBOL_REF_DECL with
              | some decl =>
                  match decl.DECL_SIZE with
                  | some s => s
                  | none => 2 * BITS_PER_WORD cfg
              | none => 2 * BITS_PER_WORD cfg
            some (align, size)
        | _ => none
      else some (GET_MODE_ALIGNMENT mode, GET_MODE_BITSIZE mode)
    match align_size with
    | none => false
    | some (align, size) =>
        if decide (size > BITS_PER_WORD cfg)
            && (!cfg.TARGET_STRICT_ALIGN || decide (size > align)) then false
        else true

/-- Source: `loongarch_valid_index_p`.  The result is the returned flag and
the updated `info`. -/
def loongarch_valid_index_p (cfg : target) (info : loongarch_address_info) (x : rtx)
    (mode : machine_mode) (strict_p : Bool) : Bool × loongarch_address_info :=
  if (REG_P x || SUBREG_P x) && decide (GET_MODE x = Pmode cfg) then
    let index := x
    let index :=
      match index with
      | .SUBREG _ inner _ =>
          if !strict_p && cfg.contains_reg_of_mode_GENERAL_REGS (GET_MODE inner) then inner
          else index
      | _ => index
    if loongarch_valid_base_register_p cfg index mode strict_p then
      (true, { info with type := .ADDRESS_REG_REG, offset := index })
    else (false, info)
  else (false, info)

/-- Source: `loongarch_classify_address`.  The result is the returned flag and
the contents of `*info` at the return. -/
def loongarch_classify_address (cfg : target) (info : loongarch_address_info) (x : rtx)
    (mode : machine_mode) (strict_p : Bool) : Option (Bool × loongarch_address_info) :=
  match x with
  | .REG _ _ | .SUBREG _ _ _ =>
      let info := { info with type := .ADDRESS_REG, reg := x, offset := const0_rtx }
      some (loongarch_valid_base_register_p cfg info.reg mode strict_p, info)
  | .PLUS _ op0 op1 =>
      let r1 :=
        if loongarch_valid_base_register_p cfg op0 mode strict_p then
          loongarch_valid_index_p cfg info op1 mode strict_p
        else (false, info)
      if r1.1 then
        some (true, { r1.2 with reg := op0 })
      else
        let info := r1.2
        let r2 :=
          if loongarch_valid_base_register_p cfg op1 mode strict_p then
            loongarch_valid_index_p cfg info op0 mode strict_p
          else (false, info)
        if r2.1 then
          some (true, { r2.2 with reg := op1 })
        else
          let info := { r2.2 with type := .ADDRESS_REG, reg := op0, offset := op1 }
          if loongarch_valid_base_register_p cfg info.reg mode strict_p then do
            let ok ← loongarch_valid_offset_p cfg info.offset mode
            pure (ok, info)
          else pure (false, info)
  | .LO_SUM _ op0 op1 => do
      let info := { info with type := .ADDRESS_LO_SUM, reg := op0, offset := op1 }
      let symbol_type ← loongarch_classify_symbolic_expression cfg info.offset
      let info := { info with symbol_type := symbol_type }
      pure (loongarch_valid_base_register_p cfg info.reg mode strict_p
              && loongarch_valid_lo_sum_p cfg info.symbol_type mode info.offset, info)
  | .CONST_INT v =>
      let info := { info with type := .ADDRESS_CONST_INT }
      some (IMM12_OPERAND v, info)
  | _ => some (false, info)

/-! ### Concrete inputs for the examples -/

/-- The target options used in the concrete examples: a 64-bit target with
both vector extensions, no register allocation done yet. -/
def example_target : target :=
  { TARGET_64BIT := true, ISA_HAS_LSX := true, ISA_HAS_LASX := true,
    TARGET_STRICT_ALIGN := false, TARGET_CMODEL_EXTREME := false,
    TARGET_DIRECT_EXTERN_ACCESS := false,
    la_opt_explicit_relocs := .EXPLICIT_RELOCS_AUTO, in_lto_p := false,
    flag_incremental_link := false, HAVE_LTO_PLUGIN := 2,
    flag_use_linker_plugin_set := false, flag_use_linker_plugin := false,
    UNSPEC_ADDRESS_FIRST := 0, reg_renumber := fun _ => -1,
    contains_reg_of_mode_GENERAL_REGS := fun _ => true }

/-- Some contents of an `info` that has not been written yet. -/
def example_info : loongarch_address_info :=
  ⟨.ADDRESS_SYMBOLIC, .OTHER VOIDmode, .OTHER VOIDmode, .SYMBOL_TLS⟩

/-- A local symbol that is not thread-local and has no declaration. -/
def example_local_symbol : rtx :=
  .SYMBOL_REF E_DImode ⟨0, none, true⟩

/-- A thread-local symbol. -/
def example_tls_symbol : rtx :=
  .SYMBOL_REF E_DImode ⟨1, none, true⟩

/-! ## Address costs -/

/-- Source: `loongarch_address_insns`.  `addr` is the content of the
uninitialised local `addr` before the first call of
`loongarch_classify_address`; `none` is an aborted call. -/
def loongarch_address_insns (cfg : target) (addr : loongarch_address_info) (x : rtx)
    (mode : machine_mode) (might_split_p : Bool) : Option Nat := do
  let lsx_p := !might_split_p
    && (LSX_SUPPORTED_MODE_P cfg mode || LASX_SUPPORTED_MODE_P cfg mode)
  let r1 ← loongarch_classify_address cfg addr x mode false
  if !r1.1 then
    pure 0
  else do
    let addr := r1.2
    let factor :=
      if decide (mode ≠ BLKmode) && might_split_p then
        (GET_MODE_SIZE mode + UNITS_PER_WORD cfg - 1) / UNITS_PER_WORD cfg
      else 1
    let r2 ← loongarch_classify_address cfg addr x mode false
    let addr := r2.2
    if r2.1 then
      match addr.type with
      | .ADDRESS_REG =>
          if lsx_p then do
            let v ← INTVAL addr.offset
            let shift ← loongarch_ldst_scaled_shift mode
            if loongarch_signed_immediate_p (to_unsigned v) 10 shift then pure 1 else pure 0
          else pure factor
      | .ADDRESS_REG_REG => pure factor
      | .ADDRESS_CONST_INT => pure (if lsx_p then 0 else factor)
      | .ADDRESS_LO_SUM => pure (factor + 1)
      | .ADDRESS_SYMBOLIC =>
          pure (if lsx_p then 0 else factor * loongarch_symbol_insns cfg addr.symbol_type mode)
    else pure 0

/-- The address `$r5 + 256`. -/
def example_reg_offset : rtx :=
  .PLUS E_DImode (.REG E_DImode 5) (.CONST_INT 256)

/-- A function symbol that is local to its file: not thread-local, with a
declaration that binds locally and carries no "model" attribute. -/
def example_local_function : rtx :=
  .SYMBOL_REF E_DImode ⟨0, some ⟨true, none, 32, none⟩, true⟩

/-! ## Move splitting -/

/-- The 256-bit vector mode of eight 4-byte integers. -/
def V8SImode : machine_mode := ⟨"V8SI", .MODE_VECTOR_INT, 32, 4, 256⟩

/-- The 128-bit vector mode of four 4-byte floats. -/
def V4SFmode : machine_mode := ⟨"V4SF", .MODE_VECTOR_FLOAT, 16, 4, 128⟩

/-- The 16-byte float mode `TFmode`. -/
def TFmode : machine_mode := ⟨"TF", .MODE_FLOAT, 16, 16, 128⟩

/-- Modelled from the spec: `word_mode`, the integer mode of "one machine
word". -/
def word_mode (cfg : target) : machine_mode :=
  if cfg.TARGET_64BIT then E_DImode else E_SImode

/-- Modelled from the spec: the table `mode_nunits` is not in src; the number
of units of a mode is its size divided by the size of one unit. -/
def GET_MODE_NUNITS (mode : machine_mode) : Nat :=
  GET_MODE_SIZE mode / GET_MODE_UNIT_SIZE mode

/-- Modelled from the spec: `FP_REG_P` of loongarch.h, "float/vector
registers": the entries 32 to 63 of `loongarch_regno_to_class`. -/
def FP_REG_P (regno : Int) : Bool := decide (32 ≤ regno ∧ regno < 64)

/-- Modelled from the spec: `FP_REG_RTX_P` of loongarch.h, a `REG` whose
number is that of a float/vector register. -/
def FP_REG_RTX_P (x : rtx) : Bool :=
  match x with
  | .REG _ regno => FP_REG_P regno
  | _ => false

/-- The macro `MEM_P`. -/
def MEM_P : rtx → Bool
  | .MEM _ _ => true
  | _ => false

/-- The test that a pointer is null. -/
def NULL_P : rtx → Bool
  | .NULL_RTX => true
  | _ => false

/-- Modelled from the spec: `rtx_equal_p` of rtl.cc is not in src.  Given on
the constants that are the elements of a constant vector: constant integers are
shared, so two of them are equal exactly when their values are; two
`CONST_DOUBLE` are equal when mode and bits are. -/
def rtx_equal_p (x y : rtx) : Bool :=
  match x, y with
  | .CONST_INT a, .CONST_INT b => decide (a = b)
  | .CONST_DOUBLE m a, .CONST_DOUBLE n b => decide (m = n) && decide (a = b)
  | _, _ => false

/-- Modelled from the spec: the table `const_tiny_rtx` is not in src, and the
source compares pointers.  Zero constants are shared, so
`x == CONST0_RTX (GET_MODE (x))` holds exactly when `x` is the zero constant of
its mode: the integer 0, the float +0.0, or "an immediate zero-vector", all of
whose elements are such zeros. -/
def CONST0_RTX_P (x : rtx) : Bool :=
  match x with
  | .CONST_INT v => decide (v = 0)
  | .CONST_DOUBLE _ bits => decide (bits = 0)
  | .CONST_VECTOR m elt =>
      (List.range (GET_MODE_NUNITS m)).all (fun i =>
        match elt i with
        | .CONST_INT v => decide (v = 0)
        | .CONST_DOUBLE _ bits => decide (bits = 0)
        | _ => false)
  | _ => false

/-- Source: `loongarch_const_vector_same_val_p`; the loop runs over the units
1 to `nunits - 1`. -/
def loongarch_const_vector_same_val_p (op : rtx) (mode : machine_mode) : Bool :=
  let nunits := GET_MODE_NUNITS mode
  match op with
  | .CONST_VECTOR m elt =>
      if m ≠ mode then false
      else
        let first := elt 0
        (List.range' 1 (nunits - 1)).all (fun i => rtx_equal_p first (elt i))
  | _ => false

/-- Source: `loongarch_const_vector_same_int_p`. -/
def loongarch_const_vector_same_int_p (op : rtx) (mode : machine_mode) (low high : Int) :
    Bool :=
  if !loongarch_const_vector_same_val_p op mode then false
  else
    match op with
    | .CONST_VECTOR _ elt =>
        match elt 0 with
        | .CONST_INT value => decide (value ≥ low) && decide (value ≤ high)
        | _ => false
    | _ => false

/-- Source: `loongarch_split_128bit_move_p`. -/
def loongarch_split_128bit_move_p (dest src : rtx) : Bool :=
  if FP_REG_RTX_P src && FP_REG_RTX_P dest then false
  else if FP_REG_RTX_P dest && MEM_P src then false
  else if FP_REG_RTX_P src && MEM_P dest then false
  else if FP_REG_RTX_P dest
      && loongarch_const_vector_same_int_p src (GET_MODE src) (-512) 511 then false
  else if FP_REG_RTX_P dest && CONST0_RTX_P src then false
  else true

/-- Source: `loongarch_split_256bit_move_p`. -/
def loongarch_split_256bit_move_p (dest src : rtx) : Bool :=
  if FP_REG_RTX_P src && FP_REG_RTX_P dest then false
  else if FP_REG_RTX_P dest && MEM_P src then false
  else if FP_REG_RTX_P src && MEM_P dest then false
  else if FP_REG_RTX_P dest
      && loongarch_const_vector_same_int_p src (GET_MODE src) (-512) 511 then false
  else if FP_REG_RTX_P dest && CONST0_RTX_P src then false
  else true

/-- Source: `loongarch_split_move_p`. -/
def loongarch_split_move_p (cfg : target) (dest src : rtx) : Bool :=
  let size := GET_MODE_SIZE (GET_MODE dest)
  if decide (size = 8) && FP_REG_RTX_P src && FP_REG_RTX_P dest then false
  else if decide (size = 8) && (FP_REG_RTX_P dest && MEM_P src) then false
  else if decide (size = 8) && (FP_REG_RTX_P src && MEM_P dest) then false
  else if LSX_SUPPORTED_MODE_P cfg (GET_MODE dest) then loongarch_split_128bit_move_p dest src
  else if LASX_SUPPORTED_MODE_P cfg (GET_MODE dest) then loongarch_split_256bit_move_p dest src
  else decide (size > UNITS_PER_WORD cfg)

/-- The functions of the middle end that the move splitter calls.  None of
them is in src; each is a parameter. -/
structure middle_end where
  /-- The function `reg_overlap_mentioned_p (x, in)` of rtlanal.cc. -/
  reg_overlap_mentioned_p : rtx → rtx → Bool
  /-- The macro `adjust_address (memref, mode, offset)` of emit-rtl.h.  After
  reload it asserts that the address it forms is legitimate; a theorem that
  depends on that takes it as a hypothesis. -/
  adjust_address : rtx → machine_mode → Nat → rtx
  /-- The function `simplify_gen_subreg (outermode, op, innermode, byte)`. -/
  simplify_gen_subreg : machine_mode → rtx → machine_mode → Nat → rtx

/-- What `loongarch_split_move` reads of the instruction stream around the
move it splits. -/
structure insn_stream where
  /-- The argument `insn_` is not null. -/
  insn : Bool
  /-- The result of `next_nonnote_nondebug_insn_bb (insn)` is not null. -/
  next : Bool
  /-- The result of `single_set (next)` is not null. -/
  set : Bool
  /-- The pointer comparison `SET_SRC (set) == dest`. -/
  set_src_is_dest : Bool
  deriving DecidableEq, Repr

/-- The instructions the move splitter emits: a move emitted by
`loongarch_emit_move`, or the instruction of a `gen_` function with its
operands. -/
inductive emitted_insn where
  | move (dest src : rtx)
  | move_doubleword_fprdi (dest src : rtx)
  | move_doubleword_fprdf (dest src : rtx)
  | move_doubleword_fprtf (dest src : rtx)
  | lsx_vinsgr2vr_w (op0 op1 op2 op3 : rtx)
  | lsx_vinsgr2vr_d (op0 op1 op2 op3 : rtx)
  | lsx_vpickve2gr_w (op0 op1 op2 : rtx)
  | lsx_vpickve2gr_d (op0 op1 op2 : rtx)
  | lasx_xvinsgr2vr_w (op0 op1 op2 op3 : rtx)
  | lasx_xvinsgr2vr_d (op0 op1 op2 op3 : rtx)

/-- Source: `loongarch_rewrite_small_data`.  It copies the pattern and walks
the copy with `loongarch_rewrite_small_data_1`, which changes nothing. -/
def loongarch_rewrite_small_data (pattern : rtx) : rtx := pattern

/-- Source: `loongarch_emit_move`: one move instruction from `src` to `dest`. -/
def loongarch_emit_move (dest src : rtx) : emitted_insn := .move dest src

/-- Source: `loongarch_subword`. -/
def loongarch_subword (cfg : target) (rtl : middle_end) (op : rtx) (high_p : Bool) : rtx :=
  let byte := if high_p then UNITS_PER_WORD cfg else 0
  let mode := GET_MODE op
  let mode := if mode = VOIDmode then (if cfg.TARGET_64BIT then TImode else E_DImode) else mode
  match op with
  | .REG _ regno =>
      if FP_REG_P regno then .REG (word_mode cfg) (regno + (if high_p then 1 else 0))
      else rtl.simplify_gen_subreg (word_mode cfg) op mode byte
  | .MEM _ _ => loongarch_rewrite_small_data (rtl.adjust_address op (word_mode cfg) byte)
  | _ => rtl.simplify_gen_subreg (word_mode cfg) op mode byte

/-- Source: `loongarch_subword_at_byte`; `none` is the failed `gcc_assert`. -/
def loongarch_subword_at_byte (cfg : target) (rtl : middle_end) (op : rtx) (byte : Nat) :
    Option rtx := do
  let mode := GET_MODE op
  let mode := if mode = VOIDmode then TImode else mode
  gcc_assert (!FP_REG_RTX_P op)
  if MEM_P op then
    pure (loongarch_rewrite_small_data (rtl.adjust_address op (word_mode cfg) byte))
  else
    pure (rtl.simplify_gen_subreg (word_mode cfg) op mode byte)

/-- The instructions emitted by the bodies `body` of a loop, run in order over
the given values of the loop variable; `none` if one of them aborts. -/
def emit_loop (body : Nat → Option emitted_insn) : List Nat → Option (List emitted_insn)
  | [] => some []
  | k :: ks => do
      let first ← body k
      let rest ← emit_loop body ks
      pure (first :: rest)

/-- The values of `index` in a loop
`for (byte = 0, index = 0; byte < limit; byte += step, index++)`; `byte` is
`index * step`. -/
def loop_up (limit step : Nat) : List Nat :=
  List.range ((limit + step - 1) / step)

/-- The values of `byte` in a loop
`for (byte = limit - step; byte >= 0; byte -= step)` over a signed `byte`. -/
def loop_down (limit step : Nat) : List Nat :=
  if limit < step then []
  else (List.range ((limit - step) / step + 1)).map (fun k => limit - step - k * step)

/-- Source: `loongarch_split_128bit_move`; `none` is a failed `gcc_assert`. -/
def loongarch_split_128bit_move (cfg : target) (rtl : middle_end) (dest src : rtx) :
    Option (List emitted_insn) :=
  if FP_REG_RTX_P dest then do
    gcc_assert (!MEM_P src)
    let new_dest :=
      if !cfg.TARGET_64BIT then
        if GET_MODE dest ≠ V4SImode then rtl.simplify_gen_subreg V4SImode dest (GET_MODE dest) 0
        else dest
      else
        if GET_MODE dest ≠ V2DImode then rtl.simplify_gen_subreg V2DImode dest (GET_MODE dest) 0
        else dest
    emit_loop (fun index => do
        let s ← loongarch_subword_at_byte cfg rtl src (index * UNITS_PER_WORD cfg)
        if !cfg.TARGET_64BIT then
          pure (.lsx_vinsgr2vr_w new_dest s new_dest (.CONST_INT (2 ^ index)))
        else
          pure (.lsx_vinsgr2vr_d new_dest s new_dest (.CONST_INT (2 ^ index))))
      (loop_up (GET_MODE_SIZE TImode) (UNITS_PER_WORD cfg))
  else if FP_REG_RTX_P src then do
    gcc_assert (!MEM_P dest)
    let new_src :=
      if !cfg.TARGET_64BIT then
        if GET_MODE src ≠ V4SImode then rtl.simplify_gen_subreg V4SImode src (GET_MODE src) 0
        else src
      else
        if GET_MODE src ≠ V2DImode then rtl.simplify_gen_subreg V2DImode src (GET_MODE src) 0
        else src
    emit_loop (fun index => do
        let d ← loongarch_subword_at_byte cfg rtl dest (index * UNITS_PER_WORD cfg)
        if !cfg.TARGET_64BIT then
          pure (.lsx_vpickve2gr_w d new_src (.CONST_INT index))
        else
          pure (.lsx_vpickve2gr_d d new_src (.CONST_INT index)))
      (loop_up (GET_MODE_SIZE TImode) (UNITS_PER_WORD cfg))
  else do
    let low_dest ← loongarch_subword_at_byte cfg rtl dest 0
    let low_src ← loongarch_subword_at_byte cfg rtl src 0
    let word (byte : Nat) : Option emitted_insn := do
      let d ← loongarch_subword_at_byte cfg rtl dest byte
      let s ← loongarch_subword_at_byte cfg rtl src byte
      pure (loongarch_emit_move d s)
    match low_dest, low_src with
    | .REG _ regno_dest, .REG _ regno_src =>
        if regno_dest ≤ regno_src then
          emit_loop word
            ((loop_up (GET_MODE_SIZE TImode) (UNITS_PER_WORD cfg)).map
              (fun index => index * UNITS_PER_WORD cfg))
        else
          emit_loop word (loop_down (GET_MODE_SIZE TImode) (UNITS_PER_WORD cfg))
    | _, _ => none

/-- Source: `loongarch_split_256bit_move`; `none` is a failed `gcc_assert`. -/
def loongarch_split_256bit_move (cfg : target) (rtl : middle_end) (dest src : rtx) :
    Option (List emitted_insn) :=
  if FP_REG_RTX_P dest then do
    gcc_assert (!MEM_P src)
    let new_dest :=
      if !cfg.TARGET_64BIT then
        if GET_MODE dest ≠ V8SImode then rtl.simplify_gen_subreg V8SImode dest (GET_MODE dest) 0
        else dest
      else
        if GET_MODE dest ≠ V4DImode then rtl.simplify_gen_subreg V4DImode dest (GET_MODE dest) 0
        else dest
    emit_loop (fun index => do
        let s ← loongarch_subword_at_byte cfg rtl src (index * UNITS_PER_WORD cfg)
        if !cfg.TARGET_64BIT then
          pure (.lasx_xvinsgr2vr_w new_dest s new_dest (.CONST_INT (2 ^ index)))
        else
          pure (.lasx_xvinsgr2vr_d new_dest s new_dest (.CONST_INT (2 ^ index))))
      (loop_up (GET_MODE_SIZE (GET_MODE dest)) (UNITS_PER_WORD cfg))
  else if FP_REG_RTX_P src then do
    gcc_assert (!MEM_P dest)
    let new_src :=
      if !cfg.TARGET_64BIT then
        if GET_MODE src ≠ V8SImode then rtl.simplify_gen_subreg V8SImode src (GET_MODE src) 0
        else src
      else
        if GET_MODE src ≠ V4DImode then rtl.simplify_gen_subreg V4DImode src (GET_MODE src) 0
        else src
    emit_loop (fun index => do
        let d ← loongarch_subword_at_byte cfg rtl dest (index * UNITS_PER_WORD cfg)
        if !cfg.TARGET_64BIT then
          pure (.lsx_vpickve2gr_w d new_src (.CONST_INT index))
        else
          pure (.lsx_vpickve2gr_d d new_src (.CONST_INT index)))
      (loop_up (GET_MODE_SIZE (GET_MODE src)) (UNITS_PER_WORD cfg))
  else do
    let low_dest ← loongarch_subword_at_byte cfg rtl dest 0
    let low_src ← loongarch_subword_at_byte cfg rtl src 0
    let word (byte : Nat) : Option emitted_insn := do
      let d ← loongarch_subword_at_byte cfg rtl dest byte
      let s ← loongarch_subword_at_byte cfg rtl src byte
      pure (loongarch_emit_move d s)
    match low_dest, low_src with
    | .REG _ regno_dest, .REG _ regno_src =>
        if regno_dest ≤ regno_src then
          emit_loop word
            ((loop_up (GET_MODE_SIZE TImode) (UNITS_PER_WORD cfg)).map
              (fun index => index * UNITS_PER_WORD cfg))
        else
          emit_loop word (loop_down (GET_MODE_SIZE TImode) (UNITS_PER_WORD cfg))
    | _, _ => none

/-- What `loongarch_split_move` does: the instructions it emits, in order, and
the operand it asks `validate_change` to put in place of the source of the
next instruction, if it asks. -/
structure split_move_result where
  emitted : List emitted_insn
  forwarded : Option rtx

/-- Source: `loongarch_split_move`; `none` is the failed
`gcc_checking_assert`, a failed `gcc_assert` or `gcc_unreachable`. -/
def loongarch_split_move (cfg : target) (rtl : middle_end) (dest src : rtx)
    (stream : insn_stream) : Option split_move_result := do
  gcc_assert (loongarch_split_move_p cfg dest src)
  let emitted ←
    if LSX_SUPPORTED_MODE_P cfg (GET_MODE dest) then
      loongarch_split_128bit_move cfg rtl dest src
    else if LASX_SUPPORTED_MODE_P cfg (GET_MODE dest) then
      loongarch_split_256bit_move cfg rtl dest src
    else if FP_REG_RTX_P dest || FP_REG_RTX_P src then
      if !cfg.TARGET_64BIT && decide (GET_MODE dest = E_DImode) then
        some [.move_doubleword_fprdi dest src]
      else if !cfg.TARGET_64BIT && decide (GET_MODE dest = DFmode) then
        some [.move_doubleword_fprdf dest src]
      else if cfg.TARGET_64BIT && decide (GET_MODE dest = TFmode) then
        some [.move_doubleword_fprtf dest src]
      else none
    else
      let low_dest := loongarch_subword cfg rtl dest false
      if REG_P low_dest && rtl.reg_overlap_mentioned_p low_dest src then
        some [loongarch_emit_move (loongarch_subword cfg rtl dest true)
                (loongarch_subword cfg rtl src true),
              loongarch_emit_move low_dest (loongarch_subword cfg rtl src false)]
      else
        some [loongarch_emit_move low_dest (loongarch_subword cfg rtl src false),
              loongarch_emit_move (loongarch_subword cfg rtl dest true)
                (loongarch_subword cfg rtl src true)]
  let addr : loongarch_address_info :=
    ⟨.ADDRESS_REG, .NULL_RTX, .NULL_RTX, .SYMBOL_GOT_DISP⟩
  let forwarded ←
    if stream.insn && stream.next && stream.set && stream.set_src_is_dest then
      match src with
      | .MEM _ tmp => do
          let r ← loongarch_classify_address cfg addr tmp (GET_MODE tmp) true
          let addr := r.2
          if !NULL_P addr.reg && !rtl.reg_overlap_mentioned_p dest addr.reg then
            pure (some src)
          else pure none
      | _ => pure (some src)
    else pure none
  pure ⟨emitted, forwarded⟩

/-! ### A middle end for the examples -/

/-- The number of general registers that a value of mode `mode` takes: its
size in words. -/
def example_nregs (cfg : target) (mode : machine_mode) : Nat :=
  (GET_MODE_SIZE mode + UNITS_PER_WORD cfg - 1) / UNITS_PER_WORD cfg

/-- Whether `x` mentions a hard register among the registers `regno` to
`endregno - 1`, for the operands of the examples: registers, sums and memory
references. -/
def example_refers_to_regno_p (cfg : target) (regno endregno : Nat) : rtx → Bool
  | .REG m r => decide (r < endregno ∧ regno < r + example_nregs cfg m)
  | .SUBREG _ inner _ => example_refers_to_regno_p cfg regno endregno inner
  | .PLUS _ op0 op1 =>
      example_refers_to_regno_p cfg regno endregno op0
        || example_refers_to_regno_p cfg regno endregno op1
  | .LO_SUM _ op0 op1 =>
      example_refers_to_regno_p cfg regno endregno op0
        || example_refers_to_regno_p cfg regno endregno op1
  | .MEM _ addr => example_refers_to_regno_p cfg regno endregno addr
  | _ => false

/-- The middle end used in the concrete examples, on hard registers:
`reg_overlap_mentioned_p` of a register tells whether the other operand
mentions one of its words, a subword of a register is the register of that
word, and `adjust_address` adds the offset to the address: to its constant
term if it has one, as a new constant term otherwise. -/
def example_middle_end (cfg : target) : middle_end :=
  { reg_overlap_mentioned_p := fun x y =>
      match x with
      | .REG m r => example_refers_to_regno_p cfg r (r + example_nregs cfg m) y
      | _ => false,
    adjust_address := fun memref mode offset =>
      match memref with
      | .MEM _ (.PLUS m base (.CONST_INT k)) =>
          .MEM mode (.PLUS m base (.CONST_INT (k + offset)))
      | .MEM _ addr =>
          if offset = 0 then .MEM mode addr
          else .MEM mode (.PLUS (Pmode cfg) addr (.CONST_INT offset))
      | _ => memref,
    simplify_gen_subreg := fun outermode op _ byte =>
      match op with
      | .REG _ r => .REG outermode (r + byte / UNITS_PER_WORD cfg)
      | _ => .SUBREG outermode op byte }

/-- An instruction stream in which the next instruction is a single set whose
source is the destination of the split move. -/
def example_stream : insn_stream := ⟨true, true, true, true⟩

/-! ## Argument passing -/

/-- Modelled from the spec: `MAX_ARGS_IN_REGISTERS` of loongarch.h, "the fixed
hardware register-file budget (8 integer + 8 float argument registers in the
reference ABI)". -/
def MAX_ARGS_IN_REGISTERS : Nat := 8

/-- The options and tables of the calling convention that the argument
classifier reads.  None of them is set in src; each is a parameter. -/
structure abi where
  /-- The macro `UNITS_PER_FP_ARG` of loongarch.h. -/
  UNITS_PER_FP_ARG : Nat
  /-- The macro `PREFERRED_STACK_BOUNDARY`, in bits. -/
  PREFERRED_STACK_BOUNDARY : Nat
  /-- The register numbers `GP_ARG_FIRST`, `FP_ARG_FIRST`, `GP_RETURN` and
  `FP_RETURN` of loongarch.h. -/
  GP_ARG_FIRST : Nat
  FP_ARG_FIRST : Nat
  GP_RETURN : Nat
  FP_RETURN : Nat
  /-- The table lookup `GET_MODE_INNER (mode)`. -/
  GET_MODE_INNER : machine_mode → machine_mode

/-- Modelled from the spec: `PARM_BOUNDARY` of loongarch.h, the alignment in
bits that every parameter gets: one word. -/
def PARM_BOUNDARY (cfg : target) : Nat := BITS_PER_WORD cfg

/-- What the code reads of a tree that is a size or a bound: an `INTEGER_CST`
with its value, or a tree of another code. -/
inductive size_tree where
  | INTEGER_CST (value : Int)
  | other_tree
  deriving DecidableEq, Repr

/-- Modelled from the spec: `tree_fits_uhwi_p` of tree.cc is not in src: the
tree is a non-null `INTEGER_CST` whose value is an unsigned 64-bit number. -/
def tree_fits_uhwi_p (t : Option size_tree) : Bool :=
  match t with
  | some (.INTEGER_CST v) => decide (0 ≤ v ∧ v < 2 ^ 64)
  | _ => false

/-- Modelled from the spec: `tree_to_uhwi` of tree.h is not in src; it asserts
`tree_fits_uhwi_p`. -/
def tree_to_uhwi (t : Option size_tree) : Option Nat :=
  match t with
  | some (.INTEGER_CST v) => if 0 ≤ v ∧ v < 2 ^ 64 then some v.toNat else none
  | _ => none

/-- Modelled from the spec: `integer_zerop` of tree.cc is not in src. -/
def integer_zerop (t : size_tree) : Bool :=
  match t with
  | .INTEGER_CST v => decide (v = 0)
  | .other_tree => false

/-- The fields of a type node that the code reads and that are not types
themselves. -/
structure type_common where
  TYPE_SIZE : Option size_tree
  TYPE_SIZE_UNIT : Option size_tree
  TYPE_MODE : machine_mode
  /-- The alignment `TYPE_ALIGN (type)` in bits. -/
  TYPE_ALIGN : Nat
  /-- The alignment `TYPE_ALIGN (TYPE_MAIN_VARIANT (type))` in bits. -/
  MAIN_VARIANT_ALIGN : Nat
  deriving DecidableEq, Repr

/-- The domain `TYPE_DOMAIN` of an array type. -/
structure index_domain where
  TYPE_MIN_VALUE : Option size_tree
  TYPE_MAX_VALUE : Option size_tree
  deriving DecidableEq, Repr

/-- The codes of the types that `loongarch_flatten_aggregate_field` handles in
its `default` case. -/
inductive other_type_code where
  | REAL_TYPE
  | INTEGER_TYPE
  | ENUMERAL_TYPE
  | BOOLEAN_TYPE
  | POINTER_TYPE
  | UNION_TYPE
  | QUAL_UNION_TYPE
  | VECTOR_TYPE
  | VOID_TYPE
  | OTHER_TYPE
  deriving DecidableEq, Repr

mutual
/-- The type trees the argument classifier walks.  `TREE_TYPE` of an array or
complex type is its element type. -/
inductive tree where
  | RECORD_TYPE (common : type_common) (TYPE_FIELDS : field_chain)
  | ARRAY_TYPE (common : type_common) (TREE_TYPE : tree) (TYPE_DOMAIN : Option index_domain)
  | COMPLEX_TYPE (common : type_common) (TREE_TYPE : tree)
  | other_type (code : other_type_code) (common : type_common)
/-- The chain `TYPE_FIELDS` of a record, linked by `DECL_CHAIN`: a
`FIELD_DECL` with a type, a `FIELD_DECL` whose `TREE_TYPE` is not a type, or a
declaration of another code. -/
inductive field_chain where
  | null
  | FIELD_DECL (TREE_TYPE : tree) (DECL_SIZE : Option size_tree) (int_byte_position : Int)
      (DECL_CHAIN : field_chain)
  | FIELD_DECL_no_type (DECL_CHAIN : field_chain)
  | other_decl (DECL_CHAIN : field_chain)
end

/-- The common fields of a type node. -/
def tree.common : tree → type_common
  | .RECORD_TYPE c _ => c
  | .ARRAY_TYPE c _ _ => c
  | .COMPLEX_TYPE c _ => c
  | .other_type _ c => c

/-- The macro `TYPE_MODE`. -/
def TYPE_MODE (type : tree) : machine_mode := type.common.TYPE_MODE

/-- The macro `COMPLETE_TYPE_P`: `TYPE_SIZE` is not null. -/
def COMPLETE_TYPE_P (type : tree) : Bool := type.common.TYPE_SIZE.isSome

/-- The test `TREE_CODE (TYPE_SIZE (type)) == INTEGER_CST` on a complete type. -/
def TYPE_SIZE_is_INTEGER_CST (type : tree) : Bool :=
  match type.common.TYPE_SIZE with
  | some (.INTEGER_CST _) => true
  | _ => false

/-- Modelled from the spec: `SCALAR_FLOAT_TYPE_P` of tree.h, a "scalar float":
the code of the type is `REAL_TYPE`. -/
def SCALAR_FLOAT_TYPE_P (type : tree) : Bool :=
  match type with
  | .other_type .REAL_TYPE _ => true
  | _ => false

/-- Modelled from the spec: `INTEGRAL_TYPE_P` of tree.h, an "integral" type:
the code is `ENUMERAL_TYPE`, `BOOLEAN_TYPE` or `INTEGER_TYPE`. -/
def INTEGRAL_TYPE_P (type : tree) : Bool :=
  match type with
  | .other_type .ENUMERAL_TYPE _ => true
  | .other_type .BOOLEAN_TYPE _ => true
  | .other_type .INTEGER_TYPE _ => true
  | _ => false

/-- Modelled from the spec: `AGGREGATE_TYPE_P` of tree.h, an "aggregate": an
array, record or union type. -/
def AGGREGATE_TYPE_P (type : tree) : Bool :=
  match type with
  | .ARRAY_TYPE _ _ _ => true
  | .RECORD_TYPE _ _ => true
  | .other_type .UNION_TYPE _ => true
  | .other_type .QUAL_UNION_TYPE _ => true
  | _ => false

/-- Modelled from the spec: `int_size_in_bytes` of tree.cc is not in src: the
"byte size" `TYPE_SIZE_UNIT` as a `HOST_WIDE_INT` if it is a constant that fits
an unsigned 64-bit number, and -1 otherwise. -/
def int_size_in_bytes (type : tree) : Int :=
  match tree_to_uhwi type.common.TYPE_SIZE_UNIT with
  | some v => to_signed v
  | none => -1

/-- Modelled from the spec: `IN_RANGE` of system.h is not in src:
`lower ≤ value ≤ upper`. -/
def IN_RANGE (value lower upper : Int) : Bool := decide (lower ≤ value ∧ value ≤ upper)

/-- Source: `loongarch_function_arg_boundary`. -/
def loongarch_function_arg_boundary (cfg : target) (abi : abi) (mode : machine_mode)
    (type : Option tree) : Nat :=
  let alignment :=
    match type with
    | some t =>
        if !AGGREGATE_TYPE_P t then t.common.MAIN_VARIANT_ALIGN else t.common.TYPE_ALIGN
    | none => GET_MODE_ALIGNMENT mode
  min abi.PREFERRED_STACK_BOUNDARY (max (PARM_BOUNDARY cfg) alignment)

/-- Source: `loongarch_pass_mode_in_fpr_p`. -/
def loongarch_pass_mode_in_fpr_p (abi : abi) (mode : machine_mode) : Nat :=
  if GET_MODE_UNIT_SIZE mode ≤ abi.UNITS_PER_FP_ARG then
    if GET_MODE_CLASS mode = .MODE_FLOAT then 1
    else if GET_MODE_CLASS mode = .MODE_COMPLEX_FLOAT then 2
    else 0
  else 0

/-- Source: `loongarch_aggregate_field`. -/
structure loongarch_aggregate_field where
  type : tree
  offset : Int

/-- An array `loongarch_aggregate_field fields[2]`; an element that has not
been written is `none`. -/
abbrev fields_array := Nat → Option loongarch_aggregate_field

/-- An array `fields[2]` none of whose elements has been written. -/
def fields_uninitialized : fields_array := fun _ => none

/-- The store `fields[n] = f`; `none` if `n` is not an index of the array. -/
def fields_store (fields : fields_array) (n : Int) (f : loongarch_aggregate_field) :
    Option fields_array :=
  if 0 ≤ n ∧ n < 2 then some (fun i => if (i : Int) = n then some f else fields i) else none

/-- The read of `fields[i]`; `none` if `i` is not an index of the array or the
element has not been written. -/
def fields_read (fields : fields_array) (i : Nat) : Option loongarch_aggregate_field :=
  if i < 2 then fields i else none

/-- The inner loop `for (int j = 0; j < n_subfields; j++)` of the `ARRAY_TYPE`
case, from `j` on with `count` iterations left; `add` is
`i * tree_to_uhwi (elt_size)`.  The flag tells that the loop has run into
`return -1`. -/
def flatten_array_inner (subfields : fields_array) (add : Nat) :
    Nat → Nat → fields_array → Int → Option (Bool × Int × fields_array)
  | 0, _, fields, n => some (false, n, fields)
  | count + 1, j, fields, n =>
      if n ≥ 2 then some (true, -1, fields)
      else do
        let sub ← fields_read subfields j
        let fields ← fields_store fields n
          ⟨sub.type, to_signed ((to_unsigned sub.offset + add) % 2 ^ 64)⟩
        flatten_array_inner subfields add count (j + 1) fields (n + 1)

/-- The outer loop `for (HOST_WIDE_INT i = 0; i < n_elts; i++)` of the
`ARRAY_TYPE` case, from `i` on with `count` iterations left. -/
def flatten_array_outer (subfields : fields_array) (n_subfields elt_size : Nat) :
    Nat → Nat → fields_array → Int → Option (Bool × Int × fields_array)
  | 0, _, fields, n => some (false, n, fields)
  | count + 1, i, fields, n => do
      let r ← flatten_array_inner subfields ((i * elt_size) % 2 ^ 64) n_subfields 0 fields n
      if r.1 then some r
      else flatten_array_outer subfields n_subfields elt_size count (i + 1) r.2.2 r.2.1

mutual
/-- Source: `loongarch_flatten_aggregate_field`.  The result is the returned
number and the contents of `fields` at the return; `none` is a failed
`gcc_assert` or an access outside an array. -/
def loongarch_flatten_aggregate_field (cfg : target) (abi : abi) :
    tree → fields_array → Int → Int → Option (Int × fields_array)
  | .RECORD_TYPE common chain, fields, n, offset =>
      if !COMPLETE_TYPE_P (.RECORD_TYPE common chain)
          || !TYPE_SIZE_is_INTEGER_CST (.RECORD_TYPE common chain)
          || !tree_fits_uhwi_p common.TYPE_SIZE then
        some (-1, fields)
      else flatten_record_fields cfg abi chain fields n offset
  | .ARRAY_TYPE common elt index, fields, n, offset => do
      let elt_size := elt.common.TYPE_SIZE_UNIT
      let sub ← loongarch_flatten_aggregate_field cfg abi elt fields_uninitialized 0 offset
      let n_subfields := sub.1
      let subfields := sub.2
      match index with
      | none => some (-1, fields)
      | some index =>
          if decide (n_subfields ≤ 0)
              || !COMPLETE_TYPE_P (.ARRAY_TYPE common elt (some index))
              || !TYPE_SIZE_is_INTEGER_CST (.ARRAY_TYPE common elt (some index))
              || index.TYPE_MAX_VALUE.isNone
              || !tree_fits_uhwi_p index.TYPE_MAX_VALUE
              || index.TYPE_MIN_VALUE.isNone
              || !tree_fits_uhwi_p index.TYPE_MIN_VALUE
              || !tree_fits_uhwi_p elt_size then
            some (-1, fields)
          else do
            let max_value ← tree_to_uhwi index.TYPE_MAX_VALUE
            let min_value ← tree_to_uhwi index.TYPE_MIN_VALUE
            let n_elts := to_signed ((1 + max_value + (2 ^ 64 - min_value)) % 2 ^ 64)
            gcc_assert (decide (n_elts ≥ 0))
            let size ← tree_to_uhwi elt_size
            let r ← flatten_array_outer subfields n_subfields.toNat size n_elts.toNat 0 fields n
            pure r.2
  | .COMPLEX_TYPE _ elt, fields, n, offset =>
      if n ≠ 0 then some (-1, fields)
      else
        let elt_size : Int := GET_MODE_SIZE (TYPE_MODE elt)
        if elt_size ≤ abi.UNITS_PER_FP_ARG then do
          let fields ← fields_store fields 0 ⟨elt, offset⟩
          let fields ← fields_store fields 1 ⟨elt, offset + elt_size⟩
          pure (2, fields)
        else some (-1, fields)
  | .other_type code common, fields, n, offset =>
      if decide (n < 2)
          && ((SCALAR_FLOAT_TYPE_P (.other_type code common)
                && decide (GET_MODE_SIZE common.TYPE_MODE ≤ abi.UNITS_PER_FP_ARG))
              || (INTEGRAL_TYPE_P (.other_type code common)
                && decide (GET_MODE_SIZE common.TYPE_MODE ≤ UNITS_PER_WORD cfg))) then do
        let fields ← fields_store fields n ⟨.other_type code common, offset⟩
        pure (n + 1, fields)
      else some (-1, fields)
/-- The loop `for (tree f = TYPE_FIELDS (type); f; f = DECL_CHAIN (f))` of the
`RECORD_TYPE` case, from the declaration `f` on, with the `return n` after
it. -/
def flatten_record_fields (cfg : target) (abi : abi) :
    field_chain → fields_array → Int → Int → Option (Int × fields_array)
  | .null, fields, n, _ => some (n, fields)
  | .other_decl next, fields, n, offset => flatten_record_fields cfg abi next fields n offset
  | .FIELD_DECL_no_type _, fields, _, _ => some (-1, fields)
  | .FIELD_DECL type size position next, fields, n, offset =>
      if (match size with
          | some s => integer_zerop s
          | none => false) then
        flatten_record_fields cfg abi next fields n offset
      else do
        let pos := offset + position
        let r ← loongarch_flatten_aggregate_field cfg abi type fields n pos
        if r.1 < 0 then some (-1, r.2)
        else flatten_record_fields cfg abi next r.2 r.1 offset
end

/-- Source: `loongarch_flatten_aggregate_argument`. -/
def loongarch_flatten_aggregate_argument (cfg : target) (abi : abi) (type : Option tree)
    (fields : fields_array) : Option (Int × fields_array) :=
  match type with
  | some (.RECORD_TYPE common chain) =>
      loongarch_flatten_aggregate_field cfg abi (.RECORD_TYPE common chain) fields 0 0
  | _ => some (-1, fields)

/-- The loop of `loongarch_pass_aggregate_num_fpr` over `fields[i]`, from `i`
on with `count` iterations left: false when it runs into `return 0`. -/
def aggregate_num_fpr_loop (fields : fields_array) : Nat → Nat → Option Bool
  | 0, _ => some true
  | count + 1, i => do
      let f ← fields_read fields i
      if !SCALAR_FLOAT_TYPE_P f.type then some false
      else aggregate_num_fpr_loop fields count (i + 1)

/-- Source: `loongarch_pass_aggregate_num_fpr`.  The result is the returned
number and the contents of `fields`. -/
def loongarch_pass_aggregate_num_fpr (cfg : target) (abi : abi) (type : Option tree)
    (fields : fields_array) : Option (Nat × fields_array) := do
  let r ← loongarch_flatten_aggregate_argument cfg abi type fields
  let n := r.1
  let fields := r.2
  let all_float ← aggregate_num_fpr_loop fields n.toNat 0
  if !all_float then pure (0, fields)
  else pure (if n > 0 then n.toNat else 0, fields)

/-- The loop of `loongarch_pass_aggregate_in_fpr_and_gpr_p` over `fields[i]`,
from `i` on with `count` iterations left: the counts `num_int` and
`num_float` at its end. -/
def aggregate_fpr_and_gpr_loop (fields : fields_array) :
    Nat → Nat → Nat → Nat → Option (Nat × Nat)
  | 0, _, num_int, num_float => some (num_int, num_float)
  | count + 1, i, num_int, num_float => do
      let f ← fields_read fields i
      let num_float := num_float + (if SCALAR_FLOAT_TYPE_P f.type then 1 else 0)
      let num_int := num_int + (if INTEGRAL_TYPE_P f.type then 1 else 0)
      aggregate_fpr_and_gpr_loop fields count (i + 1) num_int num_float

/-- Source: `loongarch_pass_aggregate_in_fpr_and_gpr_p`.  The result is the
returned flag and the contents of `fields`. -/
def loongarch_pass_aggregate_in_fpr_and_gpr_p (cfg : target) (abi : abi)
    (type : Option tree) (fields : fields_array) : Option (Bool × fields_array) := do
  let r ← loongarch_flatten_aggregate_argument cfg abi type fields
  let n := r.1
  let fields := r.2
  let counts ← aggregate_fpr_and_gpr_loop fields n.toNat 0 0 0
  pure (decide (counts.1 = 1) && decide (counts.2 = 1), fields)

/-- Source: `loongarch_pass_fpr_single`. -/
def loongarch_pass_fpr_single (type_mode : machine_mode) (regno : Nat)
    (value_mode : machine_mode) (offset : Int) : rtx :=
  let x := rtx.REG value_mode regno
  if type_mode ≠ value_mode then
    .PARALLEL type_mode [.EXPR_LIST VOIDmode x (.CONST_INT offset)]
  else x

/-- Source: `loongarch_pass_fpr_pair`. -/
def loongarch_pass_fpr_pair (mode : machine_mode) (regno1 : Nat) (mode1 : machine_mode)
    (offset1 : Int) (regno2 : Nat) (mode2 : machine_mode) (offset2 : Int) : rtx :=
  .PARALLEL mode [.EXPR_LIST VOIDmode (.REG mode1 regno1) (.CONST_INT offset1),
                  .EXPR_LIST VOIDmode (.REG mode2 regno2) (.CONST_INT offset2)]

/-- Source: `struct loongarch_arg_info`; the counts are `unsigned int`. -/
structure loongarch_arg_info where
  stack_p : Bool
  num_gprs : Nat
  gpr_offset : Nat
  num_fprs : Nat
  fpr_offset : Nat
  deriving DecidableEq, Repr

/-- Modelled from the spec: `CUMULATIVE_ARGS` of loongarch.h, the "cumulative
argument state": the numbers of general and of float argument registers
already taken, both `unsigned int`. -/
structure CUMULATIVE_ARGS where
  num_gprs : Nat
  num_fprs : Nat
  deriving DecidableEq, Repr

/-- Source: the number `num_bytes` of `loongarch_get_arg_info`, the size of
the argument converted to `unsigned`. -/
def arg_num_bytes (mode : machine_mode) (type : Option tree) : Nat :=
  match type with
  | some t => (int_size_in_bytes t % 2 ^ 32).toNat
  | none => GET_MODE_SIZE mode % 2 ^ 32

/-- Source: the number `num_words` of `loongarch_get_arg_info`. -/
def arg_num_words (cfg : target) (mode : machine_mode) (type : Option tree) : Nat :=
  (arg_num_bytes mode type + UNITS_PER_WORD cfg - 1) % 2 ^ 32 / UNITS_PER_WORD cfg

/-- Source: the last part of `loongarch_get_arg_info`, from "Work out the size
of the argument" on, which passes the argument in general registers and on the
stack.  `info` is the contents of `*info` when this part is reached. -/
def get_arg_info_gprs (cfg : target) (abi : abi) (info : loongarch_arg_info)
    (mode : machine_mode) (type : Option tree) (named return_p : Bool) (gpr_base : Nat) :
    loongarch_arg_info × rtx :=
  let alignment := loongarch_function_arg_boundary cfg abi mode type
  let num_bytes := arg_num_bytes mode type
  let num_words := arg_num_words cfg mode type
  let info :=
    if !named && decide (num_bytes ≠ 0) && decide (alignment > BITS_PER_WORD cfg) then
      { info with gpr_offset := (info.gpr_offset + (info.gpr_offset &&& 1)) % 2 ^ 32 }
    else info
  let info := { info with num_fprs := 0 }
  let info := { info with
    num_gprs := min num_words ((MAX_ARGS_IN_REGISTERS + 2 ^ 32 - info.gpr_offset) % 2 ^ 32) }
  let info := { info with
    stack_p := decide ((num_words + 2 ^ 32 - info.num_gprs) % 2 ^ 32 ≠ 0) }
  if decide (info.num_gprs ≠ 0) || return_p then
    (info, .REG mode ((gpr_base + info.gpr_offset) % 2 ^ 32))
  else (info, .NULL_RTX)

/-- Source: `loongarch_get_arg_info`.  The result is the contents of `*info`
at the return and the returned rtx; `none` is `gcc_unreachable`, a failed
`gcc_assert` or an access outside `fields`.  The arithmetic on `unsigned` wraps
at 32 bits. -/
def loongarch_get_arg_info (cfg : target) (abi : abi) (cum : CUMULATIVE_ARGS)
    (mode : machine_mode) (type : Option tree) (named return_p : Bool) :
    Option (loongarch_arg_info × rtx) :=
  let fpr_base := if return_p then abi.FP_RETURN else abi.FP_ARG_FIRST
  let gpr_base := if return_p then abi.GP_RETURN else abi.GP_ARG_FIRST
  let info : loongarch_arg_info := ⟨false, 0, 0, 0, 0⟩
  let info := { info with gpr_offset := cum.num_gprs }
  let info := { info with fpr_offset := cum.num_fprs }
  if named then do
    let fields := fields_uninitialized
    let fregno := (fpr_base + info.fpr_offset) % 2 ^ 32
    let gregno := (gpr_base + info.gpr_offset) % 2 ^ 32
    let r ← loongarch_pass_aggregate_num_fpr cfg abi type fields
    let fields := r.2
    let info := { info with num_fprs := r.1 }
    if decide (info.num_fprs ≠ 0)
        && decide ((info.fpr_offset + info.num_fprs) % 2 ^ 32 ≤ MAX_ARGS_IN_REGISTERS) then
      if info.num_fprs = 1 then do
        let f0 ← fields_read fields 0
        pure (info, loongarch_pass_fpr_single mode fregno (TYPE_MODE f0.type) f0.offset)
      else if info.num_fprs = 2 then do
        let f0 ← fields_read fields 0
        let f1 ← fields_read fields 1
        pure (info, loongarch_pass_fpr_pair mode fregno (TYPE_MODE f0.type) f0.offset
          ((fregno + 1) % 2 ^ 32) (TYPE_MODE f1.type) f1.offset)
      else none
    else
      let info := { info with num_fprs := loongarch_pass_mode_in_fpr_p abi mode }
      if decide (info.num_fprs ≠ 0)
          && decide ((info.fpr_offset + info.num_fprs) % 2 ^ 32 ≤ MAX_ARGS_IN_REGISTERS) then
        match GET_MODE_CLASS mode with
        | .MODE_FLOAT => pure (info, .REG mode fregno)
        | .MODE_COMPLEX_FLOAT =>
            pure (info, loongarch_pass_fpr_pair mode fregno (abi.GET_MODE_INNER mode) 0
              ((fregno + 1) % 2 ^ 32) (abi.GET_MODE_INNER mode) (GET_MODE_UNIT_SIZE mode))
        | _ => none
      else do
        let r ← loongarch_pass_aggregate_in_fpr_and_gpr_p cfg abi type fields
        let fields := r.2
        if r.1 && decide (info.gpr_offset < MAX_ARGS_IN_REGISTERS)
            && decide (info.fpr_offset < MAX_ARGS_IN_REGISTERS) then do
          let info := { info with num_gprs := 1 }
          let info := { info with num_fprs := 1 }
          let f0 ← fields_read fields 0
          let f1 ← fields_read fields 1
          let regs := if !SCALAR_FLOAT_TYPE_P f0.type then (gregno, fregno) else (fregno, gregno)
          pure (info, loongarch_pass_fpr_pair mode regs.1 (TYPE_MODE f0.type) f0.offset
            regs.2 (TYPE_MODE f1.type) f1.offset)
        else some (get_arg_info_gprs cfg abi info mode type named return_p gpr_base)
  else some (get_arg_info_gprs cfg abi info mode type named return_p gpr_base)

/-- Modelled from the spec: `function_arg_info` of calls.h is not in src: the
type of the argument (null if unknown), its mode and whether it is named. -/
structure function_arg_info where
  type : Option tree
  mode : machine_mode
  named : Bool

/-- Modelled from the spec: `function_arg_info::type_size_in_bytes` of
calls.h: the "byte size" of the type, or of the mode if the type is unknown. -/
def function_arg_info.type_size_in_bytes (arg : function_arg_info) : Int :=
  match arg.type with
  | some t => int_size_in_bytes t
  | none => GET_MODE_SIZE arg.mode

/-- Source: `loongarch_function_arg_advance`: the contents of `*cum` after the
call. -/
def loongarch_function_arg_advance (cfg : target) (abi : abi) (cum : CUMULATIVE_ARGS)
    (arg : function_arg_info) : Option CUMULATIVE_ARGS := do
  let r ← loongarch_get_arg_info cfg abi cum arg.mode arg.type arg.named false
  let info := r.1
  let cum := { cum with num_fprs := (info.fpr_offset + info.num_fprs) % 2 ^ 32 }
  let cum := { cum with num_gprs := (info.gpr_offset + info.num_gprs) % 2 ^ 32 }
  pure cum

/-- Source: `loongarch_arg_partial_bytes`. -/
def loongarch_arg_partial_bytes (cfg : target) (abi : abi) (cum : CUMULATIVE_ARGS)
    (generic_arg : function_arg_info) : Option Nat := do
  let r ← loongarch_get_arg_info cfg abi cum generic_arg.mode generic_arg.type
    generic_arg.named false
  let arg := r.1
  pure (if arg.stack_p then arg.num_gprs * UNITS_PER_WORD cfg else 0)

/-- Source: `loongarch_pass_by_reference`; a null `cum` is `none`. -/
def loongarch_pass_by_reference (cfg : target) (abi : abi) (cum : Option CUMULATIVE_ARGS)
    (arg : function_arg_info) : Option Bool := do
  let size := arg.type_size_in_bytes
  let in_fpr ←
    match cum with
    | some cum => do
        let r ← loongarch_get_arg_info cfg abi cum arg.mode arg.type arg.named false
        pure (decide (r.1.num_fprs ≠ 0))
    | none => pure false
  if in_fpr then pure false
  else pure (!IN_RANGE size 0 (2 * UNITS_PER_WORD cfg))

/-- Source: `loongarch_return_in_memory`: `args` is zeroed and the argument is
built by `function_arg_info (type, true)`, with the mode of the type. -/
def loongarch_return_in_memory (cfg : target) (abi : abi) (type : tree) : Option Bool :=
  let args : CUMULATIVE_ARGS := ⟨0, 0⟩
  let arg : function_arg_info := ⟨some type, TYPE_MODE type, true⟩
  loongarch_pass_by_reference cfg abi (some args) arg

/-- The cumulative state after the arguments `args` have been processed in
order by `loongarch_function_arg_advance`, starting from `cum`. -/
def advance_all (cfg : target) (abi : abi) :
    CUMULATIVE_ARGS → List function_arg_info → Option CUMULATIVE_ARGS
  | cum, [] => some cum
  | cum, arg :: args => do
      let cum ← loongarch_function_arg_advance cfg abi cum arg
      advance_all cfg abi cum args

/-! ### Concrete inputs for the argument examples -/

/-- The calling convention used in the concrete examples: 8-byte float
argument registers, a stack aligned to 128 bits, arguments and results in the
registers from `$r4` and `$f0` (number 32) on. -/
def example_abi : abi :=
  { UNITS_PER_FP_ARG := 8, PREFERRED_STACK_BOUNDARY := 128, GP_ARG_FIRST := 4,
    FP_ARG_FIRST := 32, GP_RETURN := 4, FP_RETURN := 32,
    GET_MODE_INNER := fun m => if m.size = 16 then DFmode else SFmode }

/-- The type `double`. -/
def example_double : tree :=
  .other_type .REAL_TYPE ⟨some (.INTEGER_CST 64), some (.INTEGER_CST 8), DFmode, 64, 64⟩

/-- The type `long`. -/
def example_long : tree :=
  .other_type .INTEGER_TYPE ⟨some (.INTEGER_CST 64), some (.INTEGER_CST 8), E_DImode, 64, 64⟩

/-- The type `__int128`, aligned to 128 bits. -/
def example_int128 : tree :=
  .other_type .INTEGER_TYPE ⟨some (.INTEGER_CST 128), some (.INTEGER_CST 16), TImode, 128, 128⟩

/-- The record `struct { long a; long b; }`. -/
def example_two_longs : tree :=
  .RECORD_TYPE ⟨some (.INTEGER_CST 128), some (.INTEGER_CST 16), TImode, 64, 64⟩
    (.FIELD_DECL example_long (some (.INTEGER_CST 64)) 0
      (.FIELD_DECL example_long (some (.INTEGER_CST 64)) 8 .null))

/-- The record `struct { double d; long l; }`. -/
def example_double_long : tree :=
  .RECORD_TYPE ⟨some (.INTEGER_CST 128), some (.INTEGER_CST 16), TImode, 64, 64⟩
    (.FIELD_DECL example_double (some (.INTEGER_CST 64)) 0
      (.FIELD_DECL example_long (some (.INTEGER_CST 64)) 8 .null))

/-- The record `struct { long a[3]; }` of 24 bytes. -/
def example_three_longs : tree :=
  .RECORD_TYPE ⟨some (.INTEGER_CST 192), some (.INTEGER_CST 24), BLKmode, 64, 64⟩
    (.FIELD_DECL
      (.ARRAY_TYPE ⟨some (.INTEGER_CST 192), some (.INTEGER_CST 24), BLKmode, 64, 64⟩
        example_long (some ⟨some (.INTEGER_CST 0), some (.INTEGER_CST 2)⟩))
      (some (.INTEGER_CST 192)) 0 .null)

/-- The state of an array `fields[2]` in which `n` elements have been written:
`n` is between 0 and 2 and the elements below `n` are written. -/
def fields_valid (n : Int) (fields : fields_array) : Bool :=
  decide (0 ≤ n) && decide (n ≤ 2) && (decide (n ≤ 0) || (fields 0).isSome)
    && (decide (n ≤ 1) || (fields 1).isSome)

/-- The record `struct { long l; double d; }`. -/
def example_long_double : tree :=
  .RECORD_TYPE ⟨some (.INTEGER_CST 128), some (.INTEGER_CST 16), TImode, 64, 64⟩
    (.FIELD_DECL example_long (some (.INTEGER_CST 64)) 0
      (.FIELD_DECL example_double (some (.INTEGER_CST 64)) 8 .null))

mutual
/-- The assertion `gcc_assert (n_elts >= 0)` of
`loongarch_flatten_aggregate_field` holds for every array type in the tree
whose bounds are unsigned constants. -/
def tree_arrays_nonnegative : tree → Bool
  | .RECORD_TYPE _ chain => chain_arrays_nonnegative chain
  | .ARRAY_TYPE _ elt index =>
      tree_arrays_nonnegative elt
        && (match index with
            | some idx =>
                match tree_to_uhwi idx.TYPE_MAX_VALUE, tree_to_uhwi idx.TYPE_MIN_VALUE with
                | some a, some b => decide (to_signed ((1 + a + (2 ^ 64 - b)) % 2 ^ 64) ≥ 0)
                | _, _ => true
            | none => true)
  | .COMPLEX_TYPE _ _ => true
  | .other_type _ _ => true
/-- The same for the types of the fields of a chain. -/
def chain_arrays_nonnegative : field_chain → Bool
  | .null => true
  | .FIELD_DECL type _ _ next => tree_arrays_nonnegative type && chain_arrays_nonnegative next
  | .FIELD_DECL_no_type next => chain_arrays_nonnegative next
  | .other_decl next => chain_arrays_nonnegative next
end

/-! ### Word moves on a register file -/

/-- The contents of the hard registers, one word each. -/
abbrev register_file := Nat → Nat

/-- The register file after the word in register `s` is copied to register
`d`. -/
def move_word (regs : register_file) (d s : Nat) : register_file :=
  fun r => if r = d then regs s else regs r

/-- The effect of one emitted instruction on the register file, for a move
`(set (reg d) (reg s))` between two registers of one word; `none` for every
other instruction. -/
def exec_move (i : emitted_insn) (regs : register_file) : Option register_file :=
  match i with
  | .move (.REG _ d) (.REG _ s) => some (move_word regs d s)
  | _ => none

/-- The effect of the emitted instructions, executed in order. -/
def exec_moves : List emitted_insn → register_file → Option register_file
  | [], regs => some regs
  | i :: rest, regs => (exec_move i regs).bind (exec_moves rest)

/-! ## Constant permutations -/

/-- The 128-bit vector mode of two 8-byte floats. -/
def V2DFmode : machine_mode := ⟨"V2DF", .MODE_VECTOR_FLOAT, 16, 8, 128⟩

/-- The 128-bit vector mode of eight 2-byte integers. -/
def V8HImode : machine_mode := ⟨"V8HI", .MODE_VECTOR_INT, 16, 2, 128⟩

/-- Modelled from the spec: `VECTOR_MODE_P` of machmode.h is not in src: the
class of the mode is one of the vector classes. -/
def VECTOR_MODE_P (mode : machine_mode) : Bool :=
  decide (GET_MODE_CLASS mode = .MODE_VECTOR_INT)
    || decide (GET_MODE_CLASS mode = .MODE_VECTOR_FLOAT)

/-- Source: `#define MAX_VECT_LEN 32`. -/
def MAX_VECT_LEN : Nat := 32

/-- Source: `struct expand_vec_perm_d`.  The array
`unsigned char perm[MAX_VECT_LEN]` is a function from the index to the element;
`nelt` is an `unsigned char`. -/
structure expand_vec_perm_d where
  target : rtx
  op0 : rtx
  op1 : rtx
  perm : Nat → Nat
  vmode : machine_mode
  nelt : Nat
  one_vector_p : Bool
  testing_p : Bool

/-- The instructions the expander of constant permutations emits: the call
`emit_move_insn (x, y)`, or the instruction of a `gen_` function with its
operands. -/
inductive perm_insn where
  | emit_move_insn (x y : rtx)
  | lsx_vshuf_d_f (op0 op1 op2 op3 : rtx)
  | lsx_vshuf_d (op0 op1 op2 op3 : rtx)
  | lsx_vshuf_w_f (op0 op1 op2 op3 : rtx)
  | lsx_vshuf_w (op0 op1 op2 op3 : rtx)
  | lsx_vshuf_h (op0 op1 op2 op3 : rtx)
  | lsx_vshuf_b (op0 op1 op2 op3 : rtx)

/-- The loop `for (i = 0; i < d->nelt; i += 1) rperm[i] = GEN_INT (d->perm[i])`
of `loongarch_try_expand_lsx_vshuf_const`, from `i` on with `count` iterations
left; `none` is an access outside `rperm[MAX_VECT_LEN]` and
`perm[MAX_VECT_LEN]`. -/
def vshuf_rperm_loop (d : expand_vec_perm_d) : Nat → Nat → (Nat → rtx) → Option (Nat → rtx)
  | 0, _, rperm => some rperm
  | count + 1, i, rperm =>
      if i < MAX_VECT_LEN then
        vshuf_rperm_loop d count (i + 1)
          (fun k => if k = i then .CONST_INT (d.perm i) else rperm k)
      else none

/-- Source: `loongarch_try_expand_lsx_vshuf_const`.  The result is the returned
flag and the instructions emitted, in order; `gen_rtvec_v (d->nelt, rperm)`
takes the first `nelt` elements of `rperm`. -/
def loongarch_try_expand_lsx_vshuf_const (d : expand_vec_perm_d) :
    Option (Bool × List perm_insn) :=
  if d.vmode = V2DImode ∨ d.vmode = V2DFmode ∨ d.vmode = V4SImode ∨ d.vmode = V4SFmode
      ∨ d.vmode = V8HImode ∨ d.vmode = V16QImode then
    let target := d.target
    let op0 := d.op0
    let op1 := if d.one_vector_p then d.op0 else d.op1
    if GET_MODE op0 ≠ GET_MODE op1 ∨ GET_MODE op0 ≠ GET_MODE target then some (false, [])
    else if d.testing_p then some (true, [])
    else do
      let rperm ← vshuf_rperm_loop d d.nelt 0 (fun _ => .NULL_RTX)
      let rtvec : Nat → rtx := fun k => if k < d.nelt then rperm k else .NULL_RTX
      let load_selector : perm_insn :=
        if d.vmode = V2DFmode then
          .emit_move_insn (.SUBREG V2DImode d.target 0) (.CONST_VECTOR V2DImode rtvec)
        else if d.vmode = V4SFmode then
          .emit_move_insn (.SUBREG V4SImode d.target 0) (.CONST_VECTOR V4SImode rtvec)
        else
          .emit_move_insn d.target (.CONST_VECTOR d.vmode rtvec)
      let shuffle : List perm_insn :=
        if d.vmode = V2DFmode then [.lsx_vshuf_d_f target target op1 op0]
        else if d.vmode = V2DImode then [.lsx_vshuf_d target target op1 op0]
        else if d.vmode = V4SFmode then [.lsx_vshuf_w_f target target op1 op0]
        else if d.vmode = V4SImode then [.lsx_vshuf_w target target op1 op0]
        else if d.vmode = V8HImode then [.lsx_vshuf_h target target op1 op0]
        else if d.vmode = V16QImode then [.lsx_vshuf_b target op1 op0 target]
        else []
      pure (true, load_selector :: shuffle)
  else some (false, [])

/-- Source: `loongarch_expand_vec_perm_const_2`.  Both branches of its first
statement return, so none of the statements that follow it in the source is
ever run. -/
def loongarch_expand_vec_perm_const_2 (d : expand_vec_perm_d) :
    Option (Bool × List perm_insn) :=
  if GET_MODE_SIZE d.vmode = 16 then loongarch_try_expand_lsx_vshuf_const d
  else some (false, [])

/-- One of the two loops of `loongarch_is_lasx_lowpart_interleave`, which step
`i` by 2 and the `unsigned char buf` by 1, from `i` and `buf` on with `count`
iterations left: the `result` at its end. -/
def lowpart_interleave_loop (d : expand_vec_perm_d) : Nat → Nat → Nat → Bool
  | 0, _, _ => true
  | count + 1, i, buf =>
      if buf ≠ d.perm i then false
      else lowpart_interleave_loop d count (i + 2) ((buf + 1) % 256)

/-- Source: `loongarch_is_lasx_lowpart_interleave`. -/
def loongarch_is_lasx_lowpart_interleave (d : expand_vec_perm_d) : Bool :=
  let result := lowpart_interleave_loop d ((d.nelt + 1) / 2) 0 0
  if result then lowpart_interleave_loop d (d.nelt / 2) 1 (d.nelt % 256)
  else result

/-- The loop of `loongarch_is_elem_duplicate`, from `i` on with `count`
iterations left. -/
def elem_duplicate_loop (d : expand_vec_perm_d) (buf : Nat) : Nat → Nat → Bool
  | 0, _ => true
  | count + 1, i => if buf ≠ d.perm i then false else elem_duplicate_loop d buf count (i + 1)

/-- Source: `loongarch_is_elem_duplicate`. -/
def loongarch_is_elem_duplicate (d : expand_vec_perm_d) : Bool :=
  elem_duplicate_loop d (d.perm 0) d.nelt 0

/-- The functions and constants of the middle end that
`loongarch_vectorize_vec_perm_const` uses when it builds its descriptor.  None
of them is in src; each is a parameter. -/
structure perm_middle_end where
  /-- The function `force_reg (mode, x)` of explow.cc. -/
  force_reg : machine_mode → rtx → rtx
  /-- The function `rtx_equal_p (x, y)` of rtl.cc on the forced operands. -/
  rtx_equal_p : rtx → rtx → Bool
  /-- The constant `LAST_VIRTUAL_REGISTER` of rtl.h. -/
  LAST_VIRTUAL_REGISTER : Nat

/-- The store `perm[i] = v` into an array `unsigned char perm[MAX_VECT_LEN]`;
`none` if `i` is not an index of the array. -/
def perm_store (perm : Nat → Nat) (i v : Nat) : Option (Nat → Nat) :=
  if i < MAX_VECT_LEN then some (fun k => if k = i then v % 256 else perm k) else none

/-- The loop `for (i = which = 0; i < nelt; ++i)` of
`loongarch_vectorize_vec_perm_const`, from `i` on with `count` iterations left:
`which` and `orig_perm` at its end.  `ei` is at most `2 * nelt - 1`, so its
conversion to `int` changes nothing. -/
def vec_perm_which_loop (sel : Nat → Int) (nelt : Nat) :
    Nat → Nat → Nat → (Nat → Nat) → Option (Nat × (Nat → Nat))
  | 0, _, which, orig_perm => some (which, orig_perm)
  | count + 1, i, which, orig_perm => do
      let ei := to_unsigned (sel i) &&& (2 * nelt - 1)
      let which := which ||| (if ei < nelt then 1 else 2)
      let orig_perm ← perm_store orig_perm i ei
      vec_perm_which_loop sel nelt count (i + 1) which orig_perm

/-- A loop `for (i = 0; i < n; ++i) d.perm[i] = f (d.perm[i])`, from `i` on
with `count` iterations left. -/
def perm_update_loop (f : Nat → Nat) : Nat → Nat → (Nat → Nat) → Option (Nat → Nat)
  | 0, _, perm => some perm
  | count + 1, i, perm => do
      let perm ← perm_store perm i (f (perm i))
      perm_update_loop f count (i + 1) perm

/-- The state of `loongarch_vectorize_vec_perm_const` at its first call of
`loongarch_expand_vec_perm_const_2`: the descriptor `d`, and the locals
`which`, `orig_perm`, `op0` and `op1`. -/
structure vec_perm_state where
  d : expand_vec_perm_d
  which : Nat
  orig_perm : Nat → Nat
  op0 : rtx
  op1 : rtx

/-- Source: the `switch (which)` of `loongarch_vectorize_vec_perm_const`: the
values of `d.op0`, `d.op1`, `d.one_vector_p` and `d.perm` after it; `none` is
`gcc_unreachable` or an access outside `d.perm`. -/
def vec_perm_switch (env : perm_middle_end) (nelt : Nat) (testing_p : Bool) (which : Nat)
    (op0 op1 : rtx) (orig_perm : Nat → Nat) : Option (rtx × rtx × Bool × (Nat → Nat)) :=
  let case_2 : Option (rtx × rtx × Bool × (Nat → Nat)) := do
    let perm ← perm_update_loop (fun p => p &&& (nelt - 1)) nelt 0 orig_perm
    pure (op1, op1, true, perm)
  if which = 3 then
    if testing_p || !env.rtx_equal_p op0 op1 then some (op0, op1, false, orig_perm)
    else case_2
  else if which = 2 then case_2
  else if which = 1 then some (op0, op0, true, orig_perm)
  else none

/-- Source: `loongarch_vectorize_vec_perm_const`, from its start to its first
call of `loongarch_expand_vec_perm_const_2`.  `op0_is_op1` is the pointer
comparison `op0 == op1`.  The result `some none` is the `return false` of the
mode test; `none` is the failed `gcc_assert`, `gcc_unreachable` or an access
outside an array. -/
def loongarch_vectorize_vec_perm_const_descriptor (env : perm_middle_end)
    (vmode op_mode : machine_mode) (target op0 op1 : rtx) (op0_is_op1 : Bool)
    (sel : Nat → Int) : Option (Option vec_perm_state) :=
  if vmode ≠ op_mode then some none
  else do
    let nop0 := env.force_reg vmode op0
    let op1 := if !NULL_P op0 && op0_is_op1 then nop0 else op1
    let op0 := if !NULL_P op0 then nop0 else op0
    let op1 := if !NULL_P op1 then env.force_reg vmode op1 else op1
    gcc_assert (VECTOR_MODE_P vmode)
    let nelt := GET_MODE_NUNITS vmode
    let d_nelt := nelt % 256
    let testing_p := NULL_P target
    let r ← vec_perm_which_loop sel nelt nelt 0 0 (fun _ => 0)
    let which := r.1
    let orig_perm := r.2
    let sw ← vec_perm_switch env nelt testing_p which op0 op1 orig_perm
    let one_vector_p := sw.2.2.1
    let perm ← perm_update_loop (fun p => p % (d_nelt * 2)) d_nelt 0 sw.2.2.2
    if testing_p then
      pure (some ⟨⟨.REG vmode (env.LAST_VIRTUAL_REGISTER + 1),
        .REG vmode (env.LAST_VIRTUAL_REGISTER + 2),
        if !one_vector_p then .REG vmode (env.LAST_VIRTUAL_REGISTER + 3)
        else .REG vmode (env.LAST_VIRTUAL_REGISTER + 2),
        perm, vmode, d_nelt, one_vector_p, testing_p⟩, which, orig_perm, op0, op1⟩)
    else
      pure (some ⟨⟨target, sw.1, sw.2.1, perm, vmode, d_nelt, one_vector_p, testing_p⟩,
        which, orig_perm, op0, op1⟩)

/-- Source: the descriptor that `loongarch_vectorize_vec_perm_const` passes to
`loongarch_expand_vec_perm_const_1` when it tries "again with the original
permutation" (`!ok && which == 3`). -/
def vec_perm_const_retry (st : vec_perm_state) : expand_vec_perm_d :=
  { st.d with op0 := st.op0, op1 := st.op1, one_vector_p := false, perm := st.orig_perm }

/-- A middle end for the examples: operands are registers already, and two
registers are equal when their modes and numbers are. -/
def example_perm_middle_end : perm_middle_end :=
  { force_reg := fun _ x => x,
    rtx_equal_p := fun x y =>
      match x, y with
      | .REG m r, .REG n s => decide (m = n) && decide (r = s)
      | _, _ => false,
    LAST_VIRTUAL_REGISTER := 79 }

/-- The selector `{ 0, 4, 1, 5 }`. -/
def example_selector : Nat → Int := fun i => [0, 4, 1, 5].getD i 0

/-- A descriptor of the lowpart interleave `{ 0, 4, 1, 5 }` of two registers
in the 256-bit mode `V4DImode`. -/
def example_interleave_d : expand_vec_perm_d :=
  ⟨.REG V4DImode 80, .REG V4DImode 81, .REG V4DImode 82, fun i => [0, 4, 1, 5].getD i 0,
    V4DImode, 4, false, false⟩

/-- A descriptor of the permutation `{ 0, 4, 1, 5 }` of two registers in the
128-bit mode `V4SImode`. -/
def example_vshuf_d : expand_vec_perm_d :=
  ⟨.REG V4SImode 80, .REG V4SImode 81, .REG V4SImode 82, fun i => [0, 4, 1, 5].getD i 0,
    V4SImode, 4, false, false⟩

/-- The number of elements of an array type as
`loongarch_flatten_aggregate_field` computes it from the bounds of the domain:
`1 + max - min`; 0 when a bound is missing. -/
def array_n_elts (index : Option index_domain) : Nat :=
  match index with
  | some idx =>
      match tree_to_uhwi idx.TYPE_MAX_VALUE, tree_to_uhwi idx.TYPE_MIN_VALUE with
      | some a, some b => (to_signed ((1 + a + (2 ^ 64 - b)) % 2 ^ 64)).toNat
      | _, _ => 0
  | none => 0

mutual
/-- The number of scalar fields that a type needs when it is flattened, with
no limit on their number: one for a scalar, two for a complex number, the sum
over the elements for an array and the sum over the fields that are not of
size zero for a record. -/
def scalar_field_count : tree → Nat
  | .RECORD_TYPE _ chain => chain_scalar_field_count chain
  | .ARRAY_TYPE _ elt index => array_n_elts index * scalar_field_count elt
  | .COMPLEX_TYPE _ _ => 2
  | .other_type _ _ => 1
/-- The same for the fields of a chain. -/
def chain_scalar_field_count : field_chain → Nat
  | .null => 0
  | .FIELD_DECL type size _ next =>
      if (match size with
          | some s => integer_zerop s
          | none => false) then chain_scalar_field_count next
      else scalar_field_count type + chain_scalar_field_count next
  | .FIELD_DECL_no_type next => chain_scalar_field_count next
  | .other_decl next => chain_scalar_field_count next
end

/-- The type `_Complex double`. -/
def example_complex_double : tree :=
  .COMPLEX_TYPE ⟨some (.INTEGER_CST 128), some (.INTEGER_CST 16), TImode, 64, 64⟩ example_double

/-- The record `struct { double d; _Complex double c; }` of 24 bytes. -/
def example_double_complex : tree :=
  .RECORD_TYPE ⟨some (.INTEGER_CST 192), some (.INTEGER_CST 24), BLKmode, 64, 64⟩
    (.FIELD_DECL example_double (some (.INTEGER_CST 64)) 0
      (.FIELD_DECL example_complex_double (some (.INTEGER_CST 128)) 8 .null))

/-- The 256-bit vector mode of thirty-two 1-byte integers. -/
def V32QImode : machine_mode := ⟨"V32QI", .MODE_VECTOR_INT, 32, 1, 256⟩

/-- The 256-bit vector mode of sixteen 2-byte integers. -/
def V16HImode : machine_mode := ⟨"V16HI", .MODE_VECTOR_INT, 32, 2, 256⟩

/-- The 256-bit vector mode of eight 4-byte floats. -/
def V8SFmode : machine_mode := ⟨"V8SF", .MODE_VECTOR_FLOAT, 32, 4, 256⟩

/-- The 256-bit vector mode of four 8-byte floats. -/
def V4DFmode : machine_mode := ⟨"V4DF", .MODE_VECTOR_FLOAT, 32, 8, 256⟩

/-- The loop `for (i = 0; i < nelt; i += 2)` of
`loongarch_expand_vec_perm_interleave`, from `i` on with `count` iterations
left: false when it runs into `return false`. -/
def vec_perm_interleave_loop (d : expand_vec_perm_d) (nelt : Nat) : Nat → Nat → Bool
  | 0, _ => true
  | count + 1, i =>
      if d.perm i ≠ d.perm 0 + i / 2 ∨ d.perm (i + 1) ≠ d.perm 0 + i / 2 + nelt then false
      else vec_perm_interleave_loop d nelt count (i + 2)

/-- Source: `loongarch_expand_vec_perm_interleave`, one of the matchers of
`loongarch_expand_vec_perm_const_1`: the flag it returns.  The instructions it
emits when `testing_p` is clear are not part of the model; `none` is
`gcc_unreachable`. -/
def loongarch_expand_vec_perm_interleave (cfg : target) (d : expand_vec_perm_d) :
    Option Bool :=
  if d.one_vector_p then some false
  else if !(cfg.ISA_HAS_LASX && decide (GET_MODE_SIZE d.vmode = 32)) then some false
  else
    let nelt := d.nelt
    if d.perm 0 ≠ 0 ∧ d.perm 0 ≠ nelt / 2 then some false
    else if !vec_perm_interleave_loop d nelt ((nelt + 1) / 2) 0 then some false
    else if d.testing_p then some true
    else if d.vmode = V32QImode ∨ d.vmode = V16HImode ∨ d.vmode = V8SImode
        ∨ d.vmode = V4DImode ∨ d.vmode = V8SFmode ∨ d.vmode = V4DFmode then some true
    else none

/-! ### Modes that a hard register can hold -/

theorem and_field (x n k : Nat) :
    x &&& ((2 ^ n - 1) * 2 ^ k) = (x / 2 ^ k % 2 ^ n) * 2 ^ k := by
  apply Nat.eq_of_testBit_eq
  intro i
  rw [Nat.testBit_and, Nat.mul_comm _ (2 ^ k), Nat.mul_comm _ (2 ^ k),
    Nat.testBit_mul_pow_two, Nat.testBit_mul_pow_two, Nat.testBit_two_pow_sub_one,
    Nat.testBit_mod_two_pow, ← Nat.shiftRight_eq_div_pow, Nat.testBit_shiftRight]
  by_cases h : k ≤ i
  · have : k + (i - k) = i := by omega
    simp [h, this, Bool.and_comm]
  · simp [h]

theorem or_disjoint (a b k : Nat) (h : a < 2 ^ k) : a ||| (b * 2 ^ k) = a + b * 2 ^ k := by
  rw [Nat.or_comm, Nat.mul_comm b, ← Nat.mul_add_lt_is_or h, Nat.add_comm]

theorem or_low (x u k : Nat) (h : u < 2 ^ k) : (x ||| u) / 2 ^ k = x / 2 ^ k := by
  rw [← Nat.shiftRight_eq_div_pow, ← Nat.shiftRight_eq_div_pow]
  apply Nat.eq_of_testBit_eq
  intro j
  have hu : u.testBit (k + j) = false :=
    Nat.testBit_lt_two_pow (Nat.lt_of_lt_of_le h (Nat.pow_le_pow_right (by decide) (by omega)))
  simp [hu]

theorem and_LU32I_B (v : Nat) : v &&& LU32I_B = (v / 2 ^ 32 % 2 ^ 20) * 2 ^ 32 := by
  have h := and_field v 20 32
  have e : LU32I_B = (2 ^ 20 - 1) * 2 ^ 32 := by decide
  rw [e]; exact h

theorem and_LU52I_B (v : Nat) : v &&& LU52I_B = (v / 2 ^ 52 % 2 ^ 12) * 2 ^ 52 := by
  have h := and_field v 12 52
  have e : LU52I_B = (2 ^ 12 - 1) * 2 ^ 52 := by decide
  rw [e]; exact h

theorem sign_bit (v k : Nat) : (v &&& (1 <<< k)) >>> k = v / 2 ^ k % 2 := by
  have h := and_field v 1 k
  rw [Nat.one_shiftLeft, Nat.shiftRight_eq_div_pow]
  have e : (2 ^ 1 - 1) * 2 ^ k = 2 ^ k := by simp
  rw [e] at h
  rw [h, Nat.mul_div_cancel _ (Nat.two_pow_pos k), Nat.pow_one]

theorem and_low52 (v : Nat) : v &&& 0xfffffffffffff = v % 2 ^ 52 :=
  Nat.and_pow_two_sub_one_eq_mod v 52

theorem and_not_reach (x : Nat) :
    x &&& hwi_not (IMM_REACH - 1) = (x / 2 ^ 12 % 2 ^ 52) * 2 ^ 12 := by
  have h := and_field x 52 12
  have e : hwi_not (IMM_REACH - 1) = (2 ^ 52 - 1) * 2 ^ 12 := by decide
  rw [e]; exact h

theorem and_reach (x : Nat) : x &&& (IMM_REACH - 1) = x % 2 ^ 12 :=
  Nat.and_pow_two_sub_one_eq_mod x 12

theorem build_low_cases (codes : codes_array) (lp : Nat) :
    (build_integer_low codes lp = some (Function.update codes 0
        ⟨.UNKNOWN, lp, lp, .METHOD_NORMAL⟩, 1)
      ∧ ((IMM12_OPERAND (to_signed lp) || IMM12_OPERAND_UNSIGNED (to_signed lp)) = true))
    ∨ (build_integer_low codes lp = some (Function.update codes 0
        ⟨.UNKNOWN, (lp / 2 ^ 12 % 2 ^ 52) * 2 ^ 12, (lp / 2 ^ 12 % 2 ^ 52) * 2 ^ 12, .METHOD_NORMAL⟩, 1)
      ∧ (IMM12_OPERAND (to_signed lp) || IMM12_OPERAND_UNSIGNED (to_signed lp)) = false
      ∧ lp % 2 ^ 12 = 0)
    ∨ (build_integer_low codes lp = some (Function.update (Function.update codes 0
        ⟨.UNKNOWN, (lp / 2 ^ 12 % 2 ^ 52) * 2 ^ 12, (lp / 2 ^ 12 % 2 ^ 52) * 2 ^ 12, .METHOD_NORMAL⟩) 1
          ⟨.IOR, lp % 2 ^ 12, lp, .METHOD_NORMAL⟩, 2)
      ∧ (IMM12_OPERAND (to_signed lp) || IMM12_OPERAND_UNSIGNED (to_signed lp)) = false
      ∧ lp % 2 ^ 12 ≠ 0) := by
  unfold build_integer_low
  by_cases h : (IMM12_OPERAND (to_signed lp) || IMM12_OPERAND_UNSIGNED (to_signed lp)) = true
  · left
    simp [h, codes_store, LARCH_MAX_INTEGER_OPS]
  · right
    rw [Bool.not_eq_true] at h
    by_cases h2 : lp % 2 ^ 12 = 0
    · left
      simp [h, h2, codes_store, LARCH_MAX_INTEGER_OPS, and_not_reach, and_reach]
      omega
    · right
      simp [h, h2, codes_store, LARCH_MAX_INTEGER_OPS, and_not_reach, and_reach]
      omega

theorem build_high_cases (codes : codes_array) (cost v : Nat) (hc : cost ≤ 2) :
    (build_integer_high codes cost v = some (codes, cost)
      ∧ v / 2 ^ 32 % 2 ^ 20 = (v / 2 ^ 31 % 2) * (2 ^ 20 - 1)
      ∧ v / 2 ^ 52 % 2 ^ 12 = (v / 2 ^ 31 % 2) * (2 ^ 12 - 1))
    ∨ (build_integer_high codes cost v = some (Function.update codes cost
          ⟨(codes cost).code, (v / 2 ^ 52 % 2 ^ 12) * 2 ^ 52, v, .METHOD_LU52I⟩, cost + 1)
      ∧ v / 2 ^ 32 % 2 ^ 20 = (v / 2 ^ 31 % 2) * (2 ^ 20 - 1)
      ∧ v / 2 ^ 52 % 2 ^ 12 ≠ (v / 2 ^ 31 % 2) * (2 ^ 12 - 1))
    ∨ (build_integer_high codes cost v = some (Function.update codes cost
          ⟨(codes cost).code, (v / 2 ^ 32 % 2 ^ 20) * 2 ^ 32 + (v / 2 ^ 51 % 2) * (2 ^ 12 - 1) * 2 ^ 52, v % 2 ^ 52 + (v / 2 ^ 51 % 2) * (2 ^ 12 - 1) * 2 ^ 52, .METHOD_LU32I⟩, cost + 1)
      ∧ v / 2 ^ 32 % 2 ^ 20 ≠ (v / 2 ^ 31 % 2) * (2 ^ 20 - 1)
      ∧ v / 2 ^ 52 % 2 ^ 12 = (v / 2 ^ 51 % 2) * (2 ^ 12 - 1))
    ∨ (build_integer_high codes cost v = some (Function.update (Function.update codes cost
          ⟨(codes cost).code, (v / 2 ^ 32 % 2 ^ 20) * 2 ^ 32 + (v / 2 ^ 51 % 2) * (2 ^ 12 - 1) * 2 ^ 52, v % 2 ^ 52 + (v / 2 ^ 51 % 2) * (2 ^ 12 - 1) * 2 ^ 52, .METHOD_LU32I⟩) (cost + 1)
          ⟨(codes (cost + 1)).code, (v / 2 ^ 52 % 2 ^ 12) * 2 ^ 52, v, .METHOD_LU52I⟩, cost + 2)
      ∧ v / 2 ^ 32 % 2 ^ 20 ≠ (v / 2 ^ 31 % 2) * (2 ^ 20 - 1)
      ∧ v / 2 ^ 52 % 2 ^ 12 ≠ (v / 2 ^ 51 % 2) * (2 ^ 12 - 1)) := by
  have hs : v / 2 ^ 31 % 2 = 0 ∨ v / 2 ^ 31 % 2 = 1 := by omega
  have hs2 : v / 2 ^ 51 % 2 = 0 ∨ v / 2 ^ 51 % 2 = 1 := by omega
  have e32 : LU32I_B = (2 ^ 20 - 1) * 2 ^ 32 := by decide
  have e52 : LU52I_B = (2 ^ 12 - 1) * 2 ^ 52 := by decide
  have o1 : (v / 2 ^ 32 % 2 ^ 20) * 2 ^ 32 ||| (2 ^ 12 - 1) * 2 ^ 52
      = (v / 2 ^ 32 % 2 ^ 20) * 2 ^ 32 + (2 ^ 12 - 1) * 2 ^ 52 :=
    or_disjoint _ _ 52 (by omega)
  have o2 : v % 2 ^ 52 ||| (2 ^ 12 - 1) * 2 ^ 52 = v % 2 ^ 52 + (2 ^ 12 - 1) * 2 ^ 52 :=
    or_disjoint _ _ 52 (by omega)
  have h1 : cost < LARCH_MAX_INTEGER_OPS := by unfold LARCH_MAX_INTEGER_OPS; omega
  have h2 : cost + 1 < LARCH_MAX_INTEGER_OPS := by unfold LARCH_MAX_INTEGER_OPS; omega
  have h3 : cost + 1 ≤ LARCH_MAX_INTEGER_OPS := by unfold LARCH_MAX_INTEGER_OPS; omega
  have h4 : cost + 1 + 1 ≤ LARCH_MAX_INTEGER_OPS := by unfold LARCH_MAX_INTEGER_OPS; omega
  have k32 : (v / 4294967296 % 1048576 * 4294967296 = 4503595332403200)
      ↔ (v / 4294967296 % 1048576 = 1048575) := by omega
  have k52 : (v / 4503599627370496 % 4096 * 4503599627370496 = 18442240474082181120)
      ↔ (v / 4503599627370496 % 4096 = 4095) := by omega
  unfold build_integer_high
  simp only [and_LU32I_B, and_LU52I_B, sign_bit, and_low52, codes_store, h1, h2, if_true]
  by_cases hA : v / 2 ^ 32 % 2 ^ 20 = (v / 2 ^ 31 % 2) * (2 ^ 20 - 1)
  · by_cases hC : v / 2 ^ 52 % 2 ^ 12 = (v / 2 ^ 31 % 2) * (2 ^ 12 - 1)
    · left
      refine ⟨?_, hA, hC⟩
      rcases hs with hs | hs <;> rw [hs] at hA hC <;> norm_num at hs hA hC e32 e52 <;>
        simp [hs, hA, hC, e32, e52, k32, k52]
    · right; left
      refine ⟨?_, hA, hC⟩
      rcases hs with hs | hs <;> rw [hs] at hA hC <;> norm_num at hs hA hC e32 e52 <;>
        simp [hs, hA, hC, e32, e52, k32, k52]
  · right; right
    by_cases hB : v / 2 ^ 52 % 2 ^ 12 = (v / 2 ^ 51 % 2) * (2 ^ 12 - 1)
    · left
      refine ⟨?_, hA, hB⟩
      rcases hs with hs | hs <;> rcases hs2 with hs2 | hs2 <;> rw [hs] at hA <;>
        rw [hs2] at hB <;> norm_num at hs hs2 hA hB e32 e52 o1 o2 <;>
        simp [hs, hs2, hA, hB, e32, e52, k32, k52, gcc_assert, h3, o1, o2]
    · right
      refine ⟨?_, hA, hB⟩
      rcases hs with hs | hs <;> rcases hs2 with hs2 | hs2 <;> rw [hs] at hA <;>
        rw [hs2] at hB <;> norm_num at hs hs2 hA hB e32 e52 o1 o2 <;>
        simp [hs, hs2, hA, hB, e32, e52, k32, k52, gcc_assert, h4, o1, o2]

theorem int32_cast_eq (v : Nat) :
    int32_cast v = v % 2 ^ 32 + (v / 2 ^ 31 % 2) * (2 ^ 64 - 2 ^ 32) := by
  unfold int32_cast
  split_ifs <;> omega

theorem or_mod_mul (a b k : Nat) : a % 2 ^ k ||| b * 2 ^ k = a % 2 ^ k + b * 2 ^ k :=
  or_disjoint _ _ k (Nat.mod_lt _ (Nat.two_pow_pos k))

theorem mul_or_mod (a b k : Nat) : b * 2 ^ k ||| a % 2 ^ k = a % 2 ^ k + b * 2 ^ k := by
  rw [Nat.or_comm]; exact or_mod_mul a b k

theorem or_lu32i (x f s : Nat) :
    x % 2 ^ 32 ||| (f * 2 ^ 32 + s * (2 ^ 12 - 1) * 2 ^ 52)
      = x % 2 ^ 32 + (f * 2 ^ 32 + s * (2 ^ 12 - 1) * 2 ^ 52) := by
  have e : f * 2 ^ 32 + s * (2 ^ 12 - 1) * 2 ^ 52 = (f + s * (2 ^ 12 - 1) * 2 ^ 20) * 2 ^ 32 := by
    omega
  rw [e]; exact or_mod_mul _ _ 32

theorem hwi_fields (v : Nat) (hv : v < 2 ^ 64) :
    v = v % 2 ^ 32 + (v / 2 ^ 32 % 2 ^ 20) * 2 ^ 32 + (v / 2 ^ 52 % 2 ^ 12) * 2 ^ 52 := by
  omega

/-! ## Constant synthesis: the claims -/

/-- C1: on a 64-bit target (`TARGET_64BIT`, destination in `DImode`), for every
64-bit value `v`, replaying the steps of `loongarch_build_integer (v)` the way
`loongarch_move_integer` does (start from `codes[0].value`, then one step per
further entry) yields exactly `v`, whatever the array held before. -/
theorem build_integer_replay_roundtrip (codes : codes_array) (v : Nat) (hv : v < 2 ^ 64) :
    loongarch_move_integer true true codes v = some v := by
  have hlp := int32_cast_eq v
  have hdec := hwi_fields v hv
  have o12 := fun a b => mul_or_mod a b 12
  have o32 := fun x => or_lu32i x (v / 2 ^ 32 % 2 ^ 20) (v / 2 ^ 51 % 2)
  have o52 := fun a b => or_mod_mul a b 52
  simp only [Nat.reducePow, Nat.reduceSub] at o12 o32 o52 hlp hv hdec
  have hb : loongarch_build_integer true codes v
      = (build_integer_low codes (int32_cast v)).bind
          (fun p => build_integer_high p.1 p.2 v) := rfl
  unfold loongarch_move_integer
  rw [hb]
  have hlt : int32_cast v < 18446744073709551616 := by omega
  rcases build_low_cases codes (int32_cast v) with ⟨h, -⟩ | ⟨h, -, h0⟩ | ⟨h, -, -⟩ <;> rw [h]
  · rcases build_high_cases (Function.update codes 0
        ⟨.UNKNOWN, int32_cast v, int32_cast v, .METHOD_NORMAL⟩) 1 v (by omega)
      with ⟨g, hA, hB⟩ | ⟨g, hA, hB⟩ | ⟨g, hA, hB⟩ | ⟨g, hA, hB⟩ <;>
      simp only [Nat.reducePow, Nat.reduceSub] at hA hB g <;>
      simp [g, replay_codes, move_integer_loop, move_integer_step, gcc_assert, eval_fmt_ee,
        and_low52, o32, o52] <;>
      omega
  · simp only [Nat.reducePow] at h0
    have hx0 : int32_cast v / 4096 % 4503599627370496 * 4096 = int32_cast v := by omega
    rcases build_high_cases (Function.update codes 0
        ⟨.UNKNOWN, (int32_cast v / 2 ^ 12 % 2 ^ 52) * 2 ^ 12,
          (int32_cast v / 2 ^ 12 % 2 ^ 52) * 2 ^ 12, .METHOD_NORMAL⟩) 1 v (by omega)
      with ⟨g, hA, hB⟩ | ⟨g, hA, hB⟩ | ⟨g, hA, hB⟩ | ⟨g, hA, hB⟩ <;>
      simp only [Nat.reducePow, Nat.reduceSub, hx0] at hA hB g <;>
      simp [g, replay_codes, move_integer_loop, move_integer_step, gcc_assert, eval_fmt_ee,
        and_low52, o32, o52, hx0] <;>
      omega
  · have hx1 : int32_cast v % 4096 + int32_cast v / 4096 % 4503599627370496 * 4096
        = int32_cast v := by omega
    rcases build_high_cases (Function.update (Function.update codes 0
        ⟨.UNKNOWN, (int32_cast v / 2 ^ 12 % 2 ^ 52) * 2 ^ 12,
          (int32_cast v / 2 ^ 12 % 2 ^ 52) * 2 ^ 12, .METHOD_NORMAL⟩) 1
          ⟨.IOR, int32_cast v % 2 ^ 12, int32_cast v, .METHOD_NORMAL⟩) 2 v (by omega)
      with ⟨g, hA, hB⟩ | ⟨g, hA, hB⟩ | ⟨g, hA, hB⟩ | ⟨g, hA, hB⟩ <;>
      simp only [Nat.reducePow, Nat.reduceSub] at hA hB g <;>
      simp [g, replay_codes, move_integer_loop, move_integer_step, gcc_assert, eval_fmt_ee,
        and_low52, o12, o32, o52, hx1] <;>
      omega

/-- Witness of C1 at the value `0x123456789abcdef0`, which needs four steps. -/
theorem build_integer_replay_roundtrip_witness :
    0x123456789abcdef0 < 2 ^ 64
      ∧ loongarch_move_integer true true (fun _ => ⟨.UNKNOWN, 0, 0, .METHOD_NORMAL⟩)
          0x123456789abcdef0 = some 0x123456789abcdef0 :=
  ⟨by decide, build_integer_replay_roundtrip _ _ (by decide)⟩

theorem build_integer_cost_formula (t : Bool) (c : codes_array) (v : Nat) :
    ∃ codes1 cost, loongarch_build_integer t c v = some (codes1, cost)
      ∧ cost = (if (IMM12_OPERAND (to_signed (int32_cast v))
            || IMM12_OPERAND_UNSIGNED (to_signed (int32_cast v))) = true
            ∨ int32_cast v % 2 ^ 12 = 0 then 1 else 2)
          + (if t = true then
              (if v / 2 ^ 32 % 2 ^ 20 = (v / 2 ^ 31 % 2) * (2 ^ 20 - 1) then
                (if v / 2 ^ 52 % 2 ^ 12 = (v / 2 ^ 31 % 2) * (2 ^ 12 - 1) then 0 else 1)
               else
                (if v / 2 ^ 52 % 2 ^ 12 = (v / 2 ^ 51 % 2) * (2 ^ 12 - 1) then 1 else 2))
             else 0) := by
  have hb : loongarch_build_integer t c v
      = (build_integer_low c (int32_cast v)).bind
          (fun p => if t = true then build_integer_high p.1 p.2 v
            else (gcc_assert (decide (p.2 ≤ LARCH_MAX_INTEGER_OPS))).bind
              (fun _ => some (p.1, p.2))) := rfl
  rw [hb]
  cases t
  · rcases build_low_cases c (int32_cast v) with ⟨h, h1⟩ | ⟨h, h1, h0⟩ | ⟨h, h1, h0⟩ <;>
      rw [h]
    · simp [gcc_assert, LARCH_MAX_INTEGER_OPS, h1]
    · simp only [Nat.reducePow] at h0
      simp [gcc_assert, LARCH_MAX_INTEGER_OPS, h1, h0]
    · simp only [Nat.reducePow] at h0
      simp [gcc_assert, LARCH_MAX_INTEGER_OPS, h1, h0]
  · rcases build_low_cases c (int32_cast v) with ⟨h, h1⟩ | ⟨h, h1, h0⟩ | ⟨h, h1, h0⟩ <;>
      rw [h] <;> simp only [Option.some_bind, if_true]
    · rcases build_high_cases (Function.update c 0
          ⟨.UNKNOWN, int32_cast v, int32_cast v, .METHOD_NORMAL⟩) 1 v (by omega)
        with ⟨g, hA, hB⟩ | ⟨g, hA, hB⟩ | ⟨g, hA, hB⟩ | ⟨g, hA, hB⟩ <;>
        rw [g] <;> simp only [Nat.reducePow, Nat.reduceSub] at hA hB <;> simp [h1, hA, hB]
    · rcases build_high_cases (Function.update c 0
          ⟨.UNKNOWN, (int32_cast v / 2 ^ 12 % 2 ^ 52) * 2 ^ 12,
            (int32_cast v / 2 ^ 12 % 2 ^ 52) * 2 ^ 12, .METHOD_NORMAL⟩) 1 v (by omega)
        with ⟨g, hA, hB⟩ | ⟨g, hA, hB⟩ | ⟨g, hA, hB⟩ | ⟨g, hA, hB⟩ <;>
        rw [g] <;> simp only [Nat.reducePow, Nat.reduceSub] at hA hB h0 <;> simp [h1, h0, hA, hB]
    · rcases build_high_cases (Function.update (Function.update c 0
          ⟨.UNKNOWN, (int32_cast v / 2 ^ 12 % 2 ^ 52) * 2 ^ 12,
            (int32_cast v / 2 ^ 12 % 2 ^ 52) * 2 ^ 12, .METHOD_NORMAL⟩) 1
            ⟨.IOR, int32_cast v % 2 ^ 12, int32_cast v, .METHOD_NORMAL⟩) 2 v (by omega)
        with ⟨g, hA, hB⟩ | ⟨g, hA, hB⟩ | ⟨g, hA, hB⟩ | ⟨g, hA, hB⟩ <;>
        rw [g] <;> simp only [Nat.reducePow, Nat.reduceSub] at hA hB h0 <;> simp [h1, h0, hA, hB]

/-- C2: for every value and either target width, `loongarch_build_integer`
returns (no store outside `codes`, no failed assertion) a count between 1 and
`LARCH_MAX_INTEGER_OPS = 4`, and `loongarch_integer_cost` returns that same
count, whatever its own uninitialised array holds. -/
theorem build_integer_cost_bounds (t : Bool) (codes codes2 : codes_array) (v : Nat) :
    ∃ codes1 cost, loongarch_build_integer t codes v = some (codes1, cost)
      ∧ 1 ≤ cost ∧ cost ≤ LARCH_MAX_INTEGER_OPS
      ∧ loongarch_integer_cost t codes2 v = some cost := by
  obtain ⟨c1, n1, h1, e1⟩ := build_integer_cost_formula t codes v
  obtain ⟨c2, n2, h2, e2⟩ := build_integer_cost_formula t codes2 v
  refine ⟨c1, n1, h1, ?_, ?_, ?_⟩
  · rw [e1]; split_ifs <;> omega
  · rw [e1]; unfold LARCH_MAX_INTEGER_OPS; split_ifs <;> omega
  · unfold loongarch_integer_cost
    rw [h2, e1, ← e2]; rfl

/-- C3: on a 64-bit target, a value that equals the sign-extension of its low
32 bits gets no `METHOD_LU32I` and no `METHOD_LU52I` step: at most two steps,
each of them `METHOD_NORMAL`. -/
theorem build_integer_sign_extended (codes : codes_array) (v : Nat)
    (hs : v = int32_cast v) :
    ∃ codes1 cost, loongarch_build_integer true codes v = some (codes1, cost)
      ∧ cost ≤ 2 ∧ ∀ i, i < cost → (codes1 i).method = .METHOD_NORMAL := by
  have hlp := int32_cast_eq v
  rw [← hs] at hlp
  simp only [Nat.reducePow, Nat.reduceSub] at hlp
  have hA0 : v / 4294967296 % 1048576 = v / 2147483648 % 2 * 1048575 := by omega
  have hC0 : v / 4503599627370496 % 4096 = v / 2147483648 % 2 * 4095 := by
    have hs31 : v / 2147483648 % 2 = 0 ∨ v / 2147483648 % 2 = 1 := by omega
    rcases hs31 with hs31 | hs31 <;> rw [hs31] at hlp ⊢ <;> omega
  have hA : v / 2 ^ 32 % 2 ^ 20 = (v / 2 ^ 31 % 2) * (2 ^ 20 - 1) := by
    simp only [Nat.reducePow, Nat.reduceSub]; exact hA0
  have hC : v / 2 ^ 52 % 2 ^ 12 = (v / 2 ^ 31 % 2) * (2 ^ 12 - 1) := by
    simp only [Nat.reducePow, Nat.reduceSub]; exact hC0
  have hb : loongarch_build_integer true codes v
      = (build_integer_low codes (int32_cast v)).bind
          (fun p => build_integer_high p.1 p.2 v) := rfl
  have high : ∀ (c : codes_array) (n : Nat), n ≤ 2 → build_integer_high c n v = some (c, n) := by
    intro c n hn
    rcases build_high_cases c n v hn with ⟨g, -, -⟩ | ⟨-, -, h⟩ | ⟨-, h, -⟩ | ⟨-, h, -⟩
    · exact g
    · exact absurd hC h
    · exact absurd hA h
    · exact absurd hA h
  rw [hb]
  rcases build_low_cases codes (int32_cast v) with ⟨h, -⟩ | ⟨h, -, -⟩ | ⟨h, -, -⟩ <;>
    rw [h, Option.some_bind, high _ _ (by omega)]
  · refine ⟨_, _, rfl, by omega, ?_⟩
    intro i hi
    interval_cases i
    simp
  · refine ⟨_, _, rfl, by omega, ?_⟩
    intro i hi
    interval_cases i
    simp
  · refine ⟨_, _, rfl, by omega, ?_⟩
    intro i hi
    interval_cases i <;> simp

/-- Witness of C3 at `0xffffffff87654321`, the sign-extension of
`0x87654321`. -/
theorem build_integer_sign_extended_witness :
    ∃ codes1 cost, loongarch_build_integer true (fun _ => ⟨.UNKNOWN, 0, 0, .METHOD_NORMAL⟩)
        0xffffffff87654321 = some (codes1, cost)
      ∧ cost ≤ 2 ∧ ∀ i, i < cost → (codes1 i).method = .METHOD_NORMAL :=
  build_integer_sign_extended _ 0xffffffff87654321 (by decide)

/-- C5: `loongarch_build_integer` returns exactly 1 step for `0x12345000` (the
load of `0x12345000`, no OR step), exactly 2 steps for `0x12345678` (the load
of `0x12345000`, then an `IOR` of `0x678`), and exactly 1 step of value 0 for
the input 0; this holds for either target width and any prior array. -/
theorem build_integer_examples (t : Bool) (codes : codes_array) :
    (∃ codes1, loongarch_build_integer t codes 0x12345000 = some (codes1, 1)
        ∧ codes1 0 = ⟨.UNKNOWN, 0x12345000, 0x12345000, .METHOD_NORMAL⟩)
    ∧ (∃ codes1, loongarch_build_integer t codes 0x12345678 = some (codes1, 2)
        ∧ codes1 0 = ⟨.UNKNOWN, 0x12345000, 0x12345000, .METHOD_NORMAL⟩
        ∧ codes1 1 = ⟨.IOR, 0x678, 0x12345678, .METHOD_NORMAL⟩)
    ∧ (∃ codes1, loongarch_build_integer t codes 0 = some (codes1, 1)
        ∧ codes1 0 = ⟨.UNKNOWN, 0, 0, .METHOD_NORMAL⟩) := by
  refine ⟨⟨Function.update codes 0 ⟨.UNKNOWN, 0x12345000, 0x12345000, .METHOD_NORMAL⟩, ?_, ?_⟩,
    ⟨Function.update (Function.update codes 0 ⟨.UNKNOWN, 0x12345000, 0x12345000, .METHOD_NORMAL⟩)
      1 ⟨.IOR, 0x678, 0x12345678, .METHOD_NORMAL⟩, ?_, ?_, ?_⟩,
    ⟨Function.update codes 0 ⟨.UNKNOWN, 0, 0, .METHOD_NORMAL⟩, ?_, ?_⟩⟩
  · cases t <;> rfl
  · simp
  · cases t <;> rfl
  · simp
  · simp
  · cases t <;> rfl
  · simp

theorem int32_cast_congr (x y : Nat) (h : y % 2 ^ 32 = x % 2 ^ 32) :
    int32_cast y = int32_cast x := by
  unfold int32_cast
  rw [h]

/-- On a 64-bit target the count is `step_potential`. -/
theorem build_integer_cost_64 (c : codes_array) (v : Nat) :
    ∃ codes1, loongarch_build_integer true c v = some (codes1, step_potential v) := by
  obtain ⟨c1, n, h, e⟩ := build_integer_cost_formula true c v
  refine ⟨c1, ?_⟩
  rw [h, e]
  unfold step_potential
  simp only [Nat.reducePow, Nat.reduceSub, if_true]
  have hs : v / 2147483648 % 2 = 0 ∨ v / 2147483648 % 2 = 1 := by omega
  have hs2 : v / 2251799813685248 % 2 = 0 ∨ v / 2251799813685248 % 2 = 1 := by omega
  congr 2
  split_ifs <;> omega

theorem potential_initial (x : Nat) (h : initial_load_ok x = true) : step_potential x = 1 := by
  unfold initial_load_ok at h
  simp only [Bool.and_eq_true, Bool.or_eq_true, decide_eq_true_eq] at h
  obtain ⟨hx, h⟩ := h
  have hlp := int32_cast_eq x
  simp only [Nat.reducePow, Nat.reduceSub] at hlp hx
  have hsx : x = int32_cast x := by
    rcases h with (h | h) | h
    · unfold IMM12_OPERAND to_signed at h
      simp only [decide_eq_true_eq] at h
      split_ifs at h <;> omega
    · unfold IMM12_OPERAND_UNSIGNED to_signed at h
      simp only [decide_eq_true_eq] at h
      split_ifs at h <;> omega
    · exact h.1
  rw [← hsx] at hlp
  have hs31 : x / 2147483648 % 2 = 0 ∨ x / 2147483648 % 2 = 1 := by omega
  have hA : x / 4294967296 % 1048576 = x / 2147483648 % 2 * 1048575 := by omega
  have hB : x / 4503599627370496 % 4096 = x / 2251799813685248 % 2 * 4095 := by
    rcases hs31 with hs31 | hs31 <;> rw [hs31] at hlp <;> omega
  unfold step_potential
  rw [← hsx, if_pos hA, if_pos hB]
  have hl : (IMM12_OPERAND (to_signed x) || IMM12_OPERAND_UNSIGNED (to_signed x)) = true
      ∨ x % 4096 = 0 := by
    rcases h with (h | h) | h
    · left; simp [h]
    · left; simp [h]
    · right; exact h.2
  rw [if_pos hl]

theorem potential_of_fields (x y : Nat) (h32 : y % 4294967296 = x % 4294967296)
    (k : Nat)
    (hk : (if y / 4294967296 % 1048576 = y / 2147483648 % 2 * 1048575 then 0 else 1)
        + (if y / 4503599627370496 % 4096 = y / 2251799813685248 % 2 * 4095 then 0 else 1)
        ≤ (if x / 4294967296 % 1048576 = x / 2147483648 % 2 * 1048575 then 0 else 1)
          + (if x / 4503599627370496 % 4096 = x / 2251799813685248 % 2 * 4095 then 0 else 1)
          + k) :
    step_potential y ≤ step_potential x + k := by
  unfold step_potential
  rw [int32_cast_congr x y (by simpa using h32)]
  omega

theorem potential_step (x y : Nat) (op : loongarch_integer_op)
    (hop : later_step_ok op = true) (h : move_integer_step true x op = some y) :
    step_potential y ≤ step_potential x + 1 := by
  unfold later_step_ok at hop
  unfold move_integer_step at h
  rcases hm : op.method with _ | _ | _ <;> rw [hm] at hop h <;>
    simp only [decide_eq_true_eq] at hop
  · -- OR with an unsigned 12-bit immediate
    obtain ⟨hc, hu⟩ := hop
    rw [hc] at h
    simp only [eval_fmt_ee, Option.some.injEq] at h
    have hd : y / 4096 = x / 4096 := by
      rw [← h]; exact or_low x op.value 12 (by simpa using hu)
    have e31 : y / 2147483648 = x / 2147483648 := by omega
    have e32 : y / 4294967296 = x / 4294967296 := by omega
    have e51 : y / 2251799813685248 = x / 2251799813685248 := by omega
    have e52 : y / 4503599627370496 = x / 4503599627370496 := by omega
    unfold step_potential
    rw [e31, e32, e51, e52]
    split_ifs <;> omega
  · -- insert 20 bits at bit 32
    obtain ⟨hlt, h0, hsx⟩ := hop
    simp only [gcc_assert, if_true, Option.bind_eq_bind, Option.some_bind, Option.pure_def,
      Option.some.injEq] at h
    have hv : op.value = (op.value / 2 ^ 32) * 2 ^ 32 := by
      simp only [Nat.reducePow] at h0 ⊢; omega
    rw [hv, or_mod_mul] at h
    simp only [Nat.reducePow] at h h0 hsx hlt
    have h32 : y % 4294967296 = x % 4294967296 := by omega
    have e52 : y / 4503599627370496 = op.value / 4503599627370496 := by omega
    have e51 : y / 2251799813685248 = op.value / 2251799813685248 := by omega
    have hB : y / 4503599627370496 % 4096 = y / 2251799813685248 % 2 * 4095 := by
      rw [e52, e51]; omega
    apply potential_of_fields x y h32 1
    rw [if_pos hB]
    split_ifs <;> omega
  · -- insert 12 bits at bit 52
    obtain ⟨hlt, h0⟩ := hop
    simp only [gcc_assert, if_true, Option.bind_eq_bind, Option.some_bind, Option.pure_def,
      Option.some.injEq, and_low52] at h
    have hv : op.value = (op.value / 2 ^ 52) * 2 ^ 52 := by
      simp only [Nat.reducePow] at h0 ⊢; omega
    rw [hv, or_mod_mul] at h
    simp only [Nat.reducePow] at h h0 hlt
    have h52 : y % 4503599627370496 = x % 4503599627370496 := by omega
    have h32 : y % 4294967296 = x % 4294967296 := by omega
    have e32 : y / 4294967296 % 1048576 = x / 4294967296 % 1048576 := by omega
    have e31 : y / 2147483648 % 2 = x / 2147483648 % 2 := by omega
    apply potential_of_fields x y h32 1
    rw [e32, e31]
    split_ifs <;> omega

theorem potential_loop (seq : codes_array) (n : Nat) :
    ∀ (i x y : Nat), (∀ j, i ≤ j → j < i + n → later_step_ok (seq j) = true) →
      move_integer_loop true seq n i x = some y →
      step_potential y ≤ step_potential x + n := by
  induction n with
  | zero =>
    intro i x y _ h
    simp only [move_integer_loop, Option.some.injEq] at h
    rw [h]; omega
  | succ n ih =>
    intro i x y hok h
    simp only [move_integer_loop, Option.bind_eq_bind, Option.bind_eq_some] at h
    obtain ⟨z, hz, hy⟩ := h
    have h1 := potential_step x z (seq i) (hok i (Nat.le_refl i) (by omega)) hz
    have h2 := ih (i + 1) z y (fun j hj1 hj2 => hok j (by omega) (by omega)) hy
    omega


theorem low_load_ok (v : Nat) :
    initial_load_ok (int32_cast v / 4096 % 4503599627370496 * 4096) = true := by
  have hlp := int32_cast_eq v
  have hlp2 := int32_cast_eq (int32_cast v / 4096 % 4503599627370496 * 4096)
  simp only [Nat.reducePow, Nat.reduceSub] at hlp hlp2
  unfold initial_load_ok
  have hs : v / 2147483648 % 2 = 0 ∨ v / 2147483648 % 2 = 1 := by omega
  have h1 : int32_cast v / 4096 % 4503599627370496 * 4096 < 2 ^ 64 := by
    simp only [Nat.reducePow]; omega
  have h2 : int32_cast v / 4096 % 4503599627370496 * 4096
      = int32_cast (int32_cast v / 4096 % 4503599627370496 * 4096) := by
    rcases hs with hs | hs <;> rw [hs] at hlp <;> omega
  have h3 : int32_cast v / 4096 % 4503599627370496 * 4096 % 4096 = 0 := by omega
  simp only [h1, decide_True, Bool.true_and, Bool.or_eq_true, decide_eq_true_eq]
  right
  exact ⟨h2, h3⟩

theorem imm12_load_ok (v : Nat)
    (h : (IMM12_OPERAND (to_signed (int32_cast v))
      || IMM12_OPERAND_UNSIGNED (to_signed (int32_cast v))) = true) :
    initial_load_ok (int32_cast v) = true := by
  have hlp := int32_cast_eq v
  simp only [Nat.reducePow, Nat.reduceSub] at hlp
  have h1 : int32_cast v < 2 ^ 64 := by simp only [Nat.reducePow]; omega
  unfold initial_load_ok
  simp only [h1, decide_True, Bool.true_and, Bool.or_eq_true]
  left
  simpa using h

theorem ior_step_ok (lp cv : Nat) :
    later_step_ok ⟨.IOR, lp % 4096, cv, .METHOD_NORMAL⟩ = true := by
  have : lp % 4096 < 4096 := by omega
  simp [later_step_ok, this]

theorem lu52i_step_ok (c : rtx_code) (v cv : Nat) :
    later_step_ok ⟨c, v / 4503599627370496 % 4096 * 4503599627370496, cv, .METHOD_LU52I⟩
      = true := by
  simp only [later_step_ok, Nat.reducePow, decide_eq_true_eq]
  omega

theorem lu32i_step_ok (c : rtx_code) (v cv : Nat) :
    later_step_ok ⟨c, v / 4294967296 % 1048576 * 4294967296
        + v / 2251799813685248 % 2 * 4095 * 4503599627370496, cv, .METHOD_LU32I⟩ = true := by
  simp only [later_step_ok, Nat.reducePow, decide_eq_true_eq]
  have hs : v / 2251799813685248 % 2 = 0 ∨ v / 2251799813685248 % 2 = 1 := by omega
  rcases hs with hs | hs <;> rw [hs] <;> omega

/-- The steps that `loongarch_build_integer` writes are themselves a sequence
of the step kinds of the minimality claim. -/
theorem build_integer_steps_ok (t : Bool) (codes : codes_array) (v : Nat) :
    ∃ codes1 cost, loongarch_build_integer t codes v = some (codes1, cost)
      ∧ step_sequence_ok codes1 cost = true := by
  have hb : loongarch_build_integer t codes v
      = (build_integer_low codes (int32_cast v)).bind
          (fun p => if t = true then build_integer_high p.1 p.2 v
            else (gcc_assert (decide (p.2 ≤ LARCH_MAX_INTEGER_OPS))).bind
              (fun _ => some (p.1, p.2))) := rfl
  rw [hb]
  cases t
  · rcases build_low_cases codes (int32_cast v) with ⟨h, h1⟩ | ⟨h, -, -⟩ | ⟨h, -, -⟩ <;>
      rw [h, Option.some_bind]
    · have hi := imm12_load_ok v h1
      exact ⟨_, _, rfl, by simp [step_sequence_ok, List.range_succ, hi]⟩
    · have hi := low_load_ok v
      exact ⟨_, _, rfl, by simp [step_sequence_ok, List.range_succ, hi]⟩
    · have hi := low_load_ok v
      exact ⟨_, _, rfl, by simp [step_sequence_ok, List.range_succ, hi, ior_step_ok]⟩
  · rcases build_low_cases codes (int32_cast v) with ⟨h, h1⟩ | ⟨h, -, -⟩ | ⟨h, -, -⟩ <;>
      rw [h, Option.some_bind] <;> simp only [if_true]
    · have hi := imm12_load_ok v h1
      rcases build_high_cases (Function.update codes 0
          ⟨.UNKNOWN, int32_cast v, int32_cast v, .METHOD_NORMAL⟩) 1 v (by omega)
        with ⟨g, -, -⟩ | ⟨g, -, -⟩ | ⟨g, -, -⟩ | ⟨g, -, -⟩ <;>
        refine ⟨_, _, g, ?_⟩ <;>
        simp [step_sequence_ok, List.range_succ, hi, lu52i_step_ok, lu32i_step_ok]
    · have hi := low_load_ok v
      rcases build_high_cases (Function.update codes 0
          ⟨.UNKNOWN, (int32_cast v / 2 ^ 12 % 2 ^ 52) * 2 ^ 12,
            (int32_cast v / 2 ^ 12 % 2 ^ 52) * 2 ^ 12, .METHOD_NORMAL⟩) 1 v (by omega)
        with ⟨g, -, -⟩ | ⟨g, -, -⟩ | ⟨g, -, -⟩ | ⟨g, -, -⟩ <;>
        refine ⟨_, _, g, ?_⟩ <;>
        simp [step_sequence_ok, List.range_succ, hi, lu52i_step_ok, lu32i_step_ok]
    · have hi := low_load_ok v
      rcases build_high_cases (Function.update (Function.update codes 0
          ⟨.UNKNOWN, (int32_cast v / 2 ^ 12 % 2 ^ 52) * 2 ^ 12,
            (int32_cast v / 2 ^ 12 % 2 ^ 52) * 2 ^ 12, .METHOD_NORMAL⟩) 1
            ⟨.IOR, int32_cast v % 2 ^ 12, int32_cast v, .METHOD_NORMAL⟩) 2 v (by omega)
        with ⟨g, -, -⟩ | ⟨g, -, -⟩ | ⟨g, -, -⟩ | ⟨g, -, -⟩ <;>
        refine ⟨_, _, g, ?_⟩ <;>
        simp [step_sequence_ok, List.range_succ, hi, lu52i_step_ok, lu32i_step_ok,
          ior_step_ok]

/-- C4: the step list of `loongarch_build_integer (v)` has minimal length
among the sequences of the step kinds the code uses (an initial load of a
signed 12-bit, unsigned 12-bit or upper-20-bit sign-extended immediate; then OR
with an unsigned 12-bit immediate, insertion of 20 bits at bit 32 with sign
extension, or insertion of 12 bits at bit 52): the returned list is such a
sequence, and whenever such a sequence of `n` steps replays to `v`, the count
returned for `v` is at most `n`. -/
theorem build_integer_minimal (t : Bool) (codes seq : codes_array) (n v : Nat)
    (hseq : step_sequence_ok seq n = true)
    (hrep : replay_codes true seq n = some v) :
    ∃ codes1 cost, loongarch_build_integer t codes v = some (codes1, cost)
      ∧ step_sequence_ok codes1 cost = true ∧ cost ≤ n := by
  have hc : ∃ codes1 cost, loongarch_build_integer t codes v = some (codes1, cost)
      ∧ cost ≤ step_potential v := by
    cases t
    · obtain ⟨c1, k, h, e⟩ := build_integer_cost_formula false codes v
      refine ⟨c1, k, h, ?_⟩
      rw [e]
      unfold step_potential
      simp only [Nat.reducePow, Bool.false_eq_true, if_false]
      omega
    · obtain ⟨c1, h⟩ := build_integer_cost_64 codes v
      exact ⟨c1, _, h, Nat.le_refl _⟩
  obtain ⟨c1, k, hc, hk⟩ := hc
  obtain ⟨c2, k2, hc2, hok⟩ := build_integer_steps_ok t codes v
  rw [hc] at hc2
  simp only [Option.some.injEq, Prod.mk.injEq] at hc2
  obtain ⟨rfl, rfl⟩ := hc2
  refine ⟨c1, k, hc, hok, ?_⟩
  unfold step_sequence_ok at hseq
  simp only [Bool.and_eq_true, decide_eq_true_eq, List.all_eq_true, List.mem_range,
    Bool.or_eq_true, beq_iff_eq] at hseq
  obtain ⟨⟨hn, h0⟩, hl⟩ := hseq
  have hp0 := potential_initial _ h0
  have hloop := potential_loop seq (n - 1) 1 (seq 0).value v
    (fun j hj1 hj2 => by
      rcases hl j (by omega) with h | h
      · omega
      · exact h)
    hrep
  omega

/-- Witness of C4: the two-step sequence "load `0x12345000`, OR `0x678`"
replays to `0x12345678`, for which the code also returns two steps. -/
theorem build_integer_minimal_witness :
    ∃ codes1 cost, loongarch_build_integer true (fun _ => ⟨.UNKNOWN, 0, 0, .METHOD_NORMAL⟩)
        0x12345678 = some (codes1, cost)
      ∧ step_sequence_ok codes1 cost = true ∧ cost ≤ 2 :=
  build_integer_minimal true _
    (fun i => if i = 0 then ⟨.UNKNOWN, 0x12345000, 0x12345000, .METHOD_NORMAL⟩
      else ⟨.IOR, 0x678, 0x12345678, .METHOD_NORMAL⟩)
    2 0x12345678 (by decide) (by decide)

/-! ## Address classification: lemmas and claims -/

theorem to_unsigned_cast (v : Int) : ((to_unsigned v : Nat) : Int) = v % 2 ^ 64 := by
  unfold to_unsigned
  exact Int.toNat_of_nonneg (Int.emod_nonneg _ (by norm_num))

theorem signed_immediate_p_unfold (x bits shift : Nat) :
    loongarch_signed_immediate_p x bits shift
      = (decide ((x + 2 ^ (bits + shift - 1)) % 2 ^ 64 % 2 ^ shift = 0)
          && decide ((x + 2 ^ (bits + shift - 1)) % 2 ^ 64 < 2 ^ (shift + bits))) := by
  unfold loongarch_signed_immediate_p loongarch_unsigned_immediate_p
  simp only [Nat.one_shiftLeft, Nat.and_pow_two_sub_one_eq_mod]

theorem signed_immediate_14_2 (v : Int) (hv : -32768 ≤ v ∧ v < 32768) :
    loongarch_signed_immediate_p (to_unsigned v) 14 2 = decide (v % 4 = 0) := by
  have hc := to_unsigned_cast v
  rw [signed_immediate_p_unfold]
  simp only [Nat.reducePow, Nat.reduceAdd, Nat.reduceSub] at hc ⊢
  by_cases h : v % 4 = 0
  · simp only [h, decide_True, Bool.and_eq_true, decide_eq_true_eq]
    omega
  · simp only [h, decide_False, Bool.and_eq_false_iff, decide_eq_false_iff_not]
    left; omega

theorem signed_immediate_10 (v : Int) (s : Nat) (hs : s ≤ 8)
    (hv : -32768 ≤ v ∧ v < 32768) :
    loongarch_signed_immediate_p (to_unsigned v) 10 s
      = decide (v % (2 ^ s : Nat) = 0 ∧ -512 * (2 ^ s : Nat) ≤ v ∧ v < 512 * (2 ^ s : Nat)) := by
  have hc := to_unsigned_cast v
  rw [signed_immediate_p_unfold]
  interval_cases s <;>
    simp only [Nat.reducePow, Nat.reduceAdd, Nat.reduceSub, Nat.cast_ofNat] at hc ⊢ <;>
    rw [Bool.eq_iff_iff] <;>
    simp only [Bool.and_eq_true, decide_eq_true_eq] <;>
    omega

theorem ldst_scaled_shift_some (mode : machine_mode) (s : Nat)
    (h : loongarch_ldst_scaled_shift mode = some s) :
    GET_MODE_UNIT_SIZE mode = 2 ^ s ∧ s ≤ 8 := by
  unfold loongarch_ldst_scaled_shift exact_log2 at h
  cases hf : (List.range 64).find? (fun k => decide (2 ^ k = GET_MODE_UNIT_SIZE mode)) with
  | none =>
    rw [hf] at h
    simp at h
  | some k =>
    rw [hf] at h
    have hk := List.find?_some hf
    simp only [decide_eq_true_eq] at hk
    simp only [Int.toNat_ofNat] at h
    split_ifs at h with hc
    simp only [Option.some.injEq] at h
    subst h
    exact ⟨hk.symm, by omega⟩

theorem valid_offset_const_int (cfg : target) (x : rtx) (mode : machine_mode)
    (h : loongarch_valid_offset_p cfg x mode = some true) : ∃ v, x = .CONST_INT v := by
  cases x with
  | CONST_INT v => exact ⟨v, rfl⟩
  | _ => simp [loongarch_valid_offset_p, const_arith_operand, const_imm16_operand] at h

theorem units_per_word_cases (cfg : target) : UNITS_PER_WORD cfg = 8 ∨ UNITS_PER_WORD cfg = 4 := by
  unfold UNITS_PER_WORD
  split_ifs <;> simp

/-- C8: for every mode wider than one 8-byte word and every offset that
`loongarch_valid_offset_p` accepts, the offset is a constant `v` and each word
of the access is within the signed 12-bit range: `v + 8 * k` lies in
[-2048, 2047] for every `k` with `8 * k ≤ size - 8`. -/
theorem valid_offset_multiword (cfg : target) (x : rtx) (mode : machine_mode)
    (hsize : GET_MODE_SIZE mode > 8)
    (h : loongarch_valid_offset_p cfg x mode = some true) :
    ∃ v : Int, x = .CONST_INT v
      ∧ ∀ k : Nat, 8 * k ≤ GET_MODE_SIZE mode - 8 →
          -2048 ≤ v + 8 * (k : Int) ∧ v + 8 * (k : Int) ≤ 2047 := by
  obtain ⟨v, rfl⟩ := valid_offset_const_int cfg x mode h
  refine ⟨v, rfl, ?_⟩
  have hsi : mode ≠ E_SImode := by
    intro e; rw [e] at hsize; simp [GET_MODE_SIZE, E_SImode] at hsize
  have hdi : mode ≠ E_DImode := by
    intro e; rw [e] at hsize; simp [GET_MODE_SIZE, E_DImode] at hsize
  have hw := units_per_word_cases cfg
  have hgt : GET_MODE_SIZE mode > UNITS_PER_WORD cfg := by omega
  unfold loongarch_valid_offset_p at h
  simp only [const_arith_operand, hsi, hdi, decide_False, Bool.or_self, Bool.false_and,
    Bool.false_eq_true, if_false, INTVAL, hgt, decide_True, Bool.true_and] at h
  by_cases h12 : IMM12_OPERAND v = true
  · by_cases h12b : IMM12_OPERAND (v + ↑(GET_MODE_SIZE mode) - ↑(UNITS_PER_WORD cfg)) = true
    · unfold IMM12_OPERAND at h12 h12b
      simp only [decide_eq_true_eq] at h12 h12b
      intro k hk
      omega
    · simp [h12, h12b] at h
  · simp [h12] at h

/-- Witness of C8: offset 2032 in the 16-byte mode `TImode`. -/
theorem valid_offset_multiword_witness :
    ∃ v : Int, rtx.CONST_INT 2032 = .CONST_INT v
      ∧ ∀ k : Nat, 8 * k ≤ GET_MODE_SIZE TImode - 8 →
          -2048 ≤ v + 8 * (k : Int) ∧ v + 8 * (k : Int) ≤ 2047 :=
  valid_offset_multiword example_target (.CONST_INT 2032) TImode (by decide) (by decide)

theorem lsx_mode_facts (cfg : target) (mode : machine_mode)
    (hl : LSX_SUPPORTED_MODE_P cfg mode = true) :
    GET_MODE_SIZE mode = 16 ∧ mode ≠ E_SImode ∧ mode ≠ E_DImode
      ∧ LASX_SUPPORTED_MODE_P cfg mode = false := by
  unfold LSX_SUPPORTED_MODE_P at hl
  simp only [Bool.and_eq_true, decide_eq_true_eq] at hl
  have hsz := hl.1.2
  refine ⟨hsz, ?_, ?_, ?_⟩
  · intro e; rw [e] at hsz; simp [GET_MODE_SIZE, E_SImode] at hsz
  · intro e; rw [e] at hsz; simp [GET_MODE_SIZE, E_DImode] at hsz
  · unfold LASX_SUPPORTED_MODE_P
    simp [hsz]

theorem valid_offset_lsx_eq (cfg : target) (v : Int) (mode : machine_mode)
    (hl : LSX_SUPPORTED_MODE_P cfg mode = true) :
    loongarch_valid_offset_p cfg (.CONST_INT v) mode
      = if IMM12_OPERAND v = true then
          if IMM12_OPERAND (v + 16 - (UNITS_PER_WORD cfg : Int)) = true then
            (loongarch_ldst_scaled_shift mode).bind
              (fun s => some (loongarch_signed_immediate_p (to_unsigned v) 10 s))
          else some false
        else some false := by
  obtain ⟨hsz, hsi, hdi, hla⟩ := lsx_mode_facts cfg mode hl
  have hw := units_per_word_cases cfg
  have hgt : 16 > UNITS_PER_WORD cfg := by omega
  unfold loongarch_valid_offset_p
  simp only [const_arith_operand, hsi, hdi, decide_False, Bool.or_self, Bool.false_and,
    Bool.false_eq_true, if_false, INTVAL, hgt, decide_True, Bool.true_and, hl, hla, hsz,
    Nat.cast_ofNat]
  by_cases h12 : IMM12_OPERAND v = true
  · by_cases h12b : IMM12_OPERAND (v + 16 - (UNITS_PER_WORD cfg : Int)) = true
    · cases hs : loongarch_ldst_scaled_shift mode with
      | none => simp [h12, h12b]
      | some s =>
        cases hp : loongarch_signed_immediate_p (to_unsigned v) 10 s <;> simp [hp, h12, h12b]
    · simp [h12, h12b]
  · simp [h12]

/-- C7: for every 128-bit vector (LSX) mode, `loongarch_valid_offset_p`
accepts an offset only if it is a constant that fits the signed 10-bit field
scaled by the element size (a multiple of the element size whose quotient lies
in [-512, 511]) and also fits signed 12 bits; and for the element sizes 1, 2,
4 and 8 of the LSX modes, an offset that fits signed 12 bits but not the
scaled 10-bit field is rejected. -/
theorem valid_offset_lsx_scaled (cfg : target) (mode : machine_mode)
    (hl : LSX_SUPPORTED_MODE_P cfg mode = true) :
    (∀ x : rtx, loongarch_valid_offset_p cfg x mode = some true →
      ∃ v : Int, x = .CONST_INT v
        ∧ v % (GET_MODE_UNIT_SIZE mode : Int) = 0
        ∧ -512 ≤ v / (GET_MODE_UNIT_SIZE mode : Int)
        ∧ v / (GET_MODE_UNIT_SIZE mode : Int) ≤ 511
        ∧ -2048 ≤ v ∧ v ≤ 2047)
    ∧ (∀ v : Int,
        (GET_MODE_UNIT_SIZE mode = 1 ∨ GET_MODE_UNIT_SIZE mode = 2
          ∨ GET_MODE_UNIT_SIZE mode = 4 ∨ GET_MODE_UNIT_SIZE mode = 8) →
        -2048 ≤ v → v ≤ 2047 →
        ¬ (v % (GET_MODE_UNIT_SIZE mode : Int) = 0
            ∧ -512 ≤ v / (GET_MODE_UNIT_SIZE mode : Int)
            ∧ v / (GET_MODE_UNIT_SIZE mode : Int) ≤ 511) →
        loongarch_valid_offset_p cfg (.CONST_INT v) mode = some false) := by
  constructor
  · intro x h
    obtain ⟨v, rfl⟩ := valid_offset_const_int cfg x mode h
    refine ⟨v, rfl, ?_⟩
    rw [valid_offset_lsx_eq cfg v mode hl] at h
    by_cases h12 : IMM12_OPERAND v = true
    swap
    · simp [h12] at h
    by_cases h12b : IMM12_OPERAND (v + 16 - (UNITS_PER_WORD cfg : Int)) = true
    swap
    · simp [h12, h12b] at h
    rw [if_pos h12, if_pos h12b] at h
    cases hs : loongarch_ldst_scaled_shift mode with
    | none => rw [hs] at h; simp at h
    | some s =>
      rw [hs] at h
      simp only [Option.some_bind, Option.some.injEq] at h
      obtain ⟨hu, hs8⟩ := ldst_scaled_shift_some mode s hs
      unfold IMM12_OPERAND at h12
      simp only [decide_eq_true_eq] at h12
      rw [signed_immediate_10 v s hs8 (by omega)] at h
      simp only [decide_eq_true_eq] at h
      rw [hu]
      interval_cases s <;> simp only [Nat.reducePow, Nat.cast_ofNat] at h ⊢ <;> omega
  · intro v hu hlo hhi hn
    rw [valid_offset_lsx_eq cfg v mode hl]
    have h12 : IMM12_OPERAND v = true := by
      unfold IMM12_OPERAND; simp only [decide_eq_true_eq]; omega
    rw [if_pos h12]
    split_ifs with h12b
    · have key : ∀ s : Nat, s ≤ 8 → GET_MODE_UNIT_SIZE mode = 2 ^ s →
          loongarch_ldst_scaled_shift mode = some s →
          (loongarch_ldst_scaled_shift mode).bind
            (fun s => some (loongarch_signed_immediate_p (to_unsigned v) 10 s)) = some false := by
        intro s hs8 hus hsh
        rw [hsh, Option.some_bind, signed_immediate_10 v s hs8 (by omega)]
        rw [hus] at hn
        simp only [Option.some.injEq, decide_eq_false_iff_not]
        interval_cases s <;> simp only [Nat.reducePow, Nat.cast_ofNat] at hn ⊢ <;> omega
      rcases hu with hu | hu | hu | hu
      · exact key 0 (by omega) (by rw [hu]; rfl)
          (by unfold loongarch_ldst_scaled_shift exact_log2; rw [hu]; rfl)
      · exact key 1 (by omega) (by rw [hu]; rfl)
          (by unfold loongarch_ldst_scaled_shift exact_log2; rw [hu]; rfl)
      · exact key 2 (by omega) (by rw [hu]; rfl)
          (by unfold loongarch_ldst_scaled_shift exact_log2; rw [hu]; rfl)
      · exact key 3 (by omega) (by rw [hu]; rfl)
          (by unfold loongarch_ldst_scaled_shift exact_log2; rw [hu]; rfl)
    · rfl

/-- Witness of C7: the 128-bit mode `V4SImode` with the 64-bit example
target. -/
theorem valid_offset_lsx_scaled_witness :
    loongarch_valid_offset_p example_target (.CONST_INT 16) V4SImode = some true
      ∧ loongarch_valid_offset_p example_target (.CONST_INT 18) V4SImode = some false :=
  ⟨by decide,
   (valid_offset_lsx_scaled example_target V4SImode (by decide)).2 18
     (by decide) (by decide) (by decide) (by decide)⟩

/-- C6, counterexample: with the valid base register `$r5`, on a 64-bit
target and under strict checking, `loongarch_classify_address` accepts the
offsets 2048 and 4096 in the 8-byte mode `DImode` and the offset 2048 in the
4-byte mode `SImode`, although they lie outside [-2048, 2047]. -/
theorem classify_address_offset_2048_accepted :
    loongarch_valid_base_register_p example_target (.REG E_DImode 5) E_DImode true = true
      ∧ (loongarch_classify_address example_target example_info
          (.PLUS E_DImode (.REG E_DImode 5) (.CONST_INT 2048)) E_DImode true).map (·.1)
          = some true
      ∧ (loongarch_classify_address example_target example_info
          (.PLUS E_DImode (.REG E_DImode 5) (.CONST_INT 4096)) E_DImode true).map (·.1)
          = some true
      ∧ (loongarch_classify_address example_target example_info
          (.PLUS E_DImode (.REG E_DImode 5) (.CONST_INT 2048)) E_SImode true).map (·.1)
          = some true := by
  decide

theorem classify_address_plus_const (cfg : target) (info : loongarch_address_info)
    (m : machine_mode) (base : rtx) (v : Int) (mode : machine_mode) (strict_p : Bool)
    (hb : loongarch_valid_base_register_p cfg base mode strict_p = true) :
    loongarch_classify_address cfg info (.PLUS m base (.CONST_INT v)) mode strict_p
      = (loongarch_valid_offset_p cfg (.CONST_INT v) mode).bind (fun ok =>
          some (ok, { info with type := .ADDRESS_REG, reg := base, offset := .CONST_INT v })) := by
  have h1 : loongarch_valid_base_register_p cfg (.CONST_INT v) mode strict_p = false := rfl
  have h2 : ∀ i, loongarch_valid_index_p cfg i (.CONST_INT v) mode strict_p = (false, i) :=
    fun _ => rfl
  simp only [loongarch_classify_address, h1, h2, hb, if_true, Bool.false_eq_true, if_false]
  cases loongarch_valid_offset_p cfg (.CONST_INT v) mode <;> rfl

/-- C6, amended: for a base-register-plus-constant address with a valid base
register, in a mode no wider than one word (the plain scalar 4-byte and 8-byte
modes of a 64-bit target), `loongarch_classify_address` classifies the address
as `ADDRESS_REG` and accepts the constant offset `v` exactly when `v` lies in
the signed 12-bit range [-2048, 2047], or the mode is `SImode` or `DImode` and
`v` is a multiple of 4 in the signed 16-bit range [-32768, 32767]. -/
theorem classify_address_offset_range (cfg : target) (info : loongarch_address_info)
    (m : machine_mode) (base : rtx) (v : Int) (mode : machine_mode) (strict_p : Bool)
    (hb : loongarch_valid_base_register_p cfg base mode strict_p = true)
    (hsize : GET_MODE_SIZE mode ≤ UNITS_PER_WORD cfg) :
    ∃ info1, loongarch_classify_address cfg info (.PLUS m base (.CONST_INT v)) mode strict_p
        = some (decide ((-2048 ≤ v ∧ v ≤ 2047)
            ∨ ((mode = E_SImode ∨ mode = E_DImode) ∧ -32768 ≤ v ∧ v ≤ 32767 ∧ v % 4 = 0)),
          info1)
      ∧ info1.type = .ADDRESS_REG := by
  rw [classify_address_plus_const cfg info m base v mode strict_p hb]
  have hw := units_per_word_cases cfg
  have hngt : ¬ GET_MODE_SIZE mode > UNITS_PER_WORD cfg := by omega
  have hl : LSX_SUPPORTED_MODE_P cfg mode = false := by
    unfold LSX_SUPPORTED_MODE_P
    have : GET_MODE_SIZE mode ≠ 16 := by omega
    simp [this]
  have hla : LASX_SUPPORTED_MODE_P cfg mode = false := by
    unfold LASX_SUPPORTED_MODE_P
    have : GET_MODE_SIZE mode ≠ 32 := by omega
    simp [this]
  refine ⟨{ info with type := .ADDRESS_REG, reg := base, offset := .CONST_INT v }, ?_, rfl⟩
  unfold loongarch_valid_offset_p
  simp only [const_arith_operand, const_imm16_operand, INTVAL, hngt, hl, hla, decide_False,
    Bool.false_and, Bool.false_eq_true, if_false]
  by_cases h12 : IMM12_OPERAND v = true
  · have : -2048 ≤ v ∧ v ≤ 2047 := by
      unfold IMM12_OPERAND at h12; simp only [decide_eq_true_eq] at h12; omega
    simp [h12, this]
  · have hn : ¬ (-2048 ≤ v ∧ v ≤ 2047) := by
      unfold IMM12_OPERAND at h12; simp only [decide_eq_true_eq] at h12; omega
    by_cases hm : mode = E_SImode ∨ mode = E_DImode
    · by_cases h16 : -32768 ≤ v ∧ v < 32768
      · have h14 := signed_immediate_14_2 v h16
        have h16' : -32768 ≤ v ∧ v ≤ 32767 := by omega
        by_cases h4 : v % 4 = 0
        · simp [h12, hm, h16, h14, h4, hn, h16']
        · simp [h12, hm, h16, h14, h4, hn]
      · have h16' : ¬ (-32768 ≤ v ∧ v ≤ 32767) := by omega
        simp [h12, hm, h16, hn]
        intro h1 h2
        exact absurd ⟨h1, h2⟩ h16'
    · simp [h12, hm, hn]

/-- Witness of C6 (amended): base `$r5`, offset 2048, mode `DImode`. -/
theorem classify_address_offset_range_witness :
    ∃ info1, loongarch_classify_address example_target example_info
        (.PLUS E_DImode (.REG E_DImode 5) (.CONST_INT 2048)) E_DImode true
        = some (decide (((-2048 : Int) ≤ 2048 ∧ (2048 : Int) ≤ 2047)
            ∨ ((E_DImode = E_SImode ∨ E_DImode = E_DImode)
                ∧ (-32768 : Int) ≤ 2048 ∧ (2048 : Int) ≤ 32767 ∧ (2048 : Int) % 4 = 0)),
          info1)
      ∧ info1.type = .ADDRESS_REG :=
  classify_address_offset_range example_target example_info E_DImode (.REG E_DImode 5) 2048
    E_DImode true (by decide) (by decide)

theorem valid_offset_reg (cfg : target) (m : machine_mode) (r : Nat) (mode : machine_mode) :
    loongarch_valid_offset_p cfg (.REG m r) mode = some false := by
  simp [loongarch_valid_offset_p, const_arith_operand, const_imm16_operand]

theorem valid_index_reg (cfg : target) (info : loongarch_address_info) (m : machine_mode)
    (r : Nat) (mode : machine_mode) (strict_p : Bool) :
    loongarch_valid_index_p cfg info (.REG m r) mode strict_p
      = if m = Pmode cfg ∧ loongarch_valid_base_register_p cfg (.REG m r) mode strict_p = true
        then (true, { info with type := .ADDRESS_REG_REG, offset := .REG m r })
        else (false, info) := by
  unfold loongarch_valid_index_p
  by_cases hm : m = Pmode cfg
  · subst hm
    cases hv : loongarch_valid_base_register_p cfg (.REG (Pmode cfg) r) mode strict_p <;>
      simp [REG_P, GET_MODE, hv]
  · simp [REG_P, GET_MODE, hm]

/-- For an address `REG + REG` with operands of any modes,
`loongarch_classify_address` returns true exactly when both operands are valid
base registers and one of them, taken as index, has mode `Pmode`. -/
theorem classify_address_reg_reg (cfg : target) (info : loongarch_address_info)
    (m m0 m1 : machine_mode) (r0 r1 : Nat) (mode : machine_mode) (strict_p : Bool) :
    ∃ info1, loongarch_classify_address cfg info (.PLUS m (.REG m0 r0) (.REG m1 r1)) mode
          strict_p
        = some (decide (loongarch_valid_base_register_p cfg (.REG m0 r0) mode strict_p = true
              ∧ loongarch_valid_base_register_p cfg (.REG m1 r1) mode strict_p = true
              ∧ (m0 = Pmode cfg ∨ m1 = Pmode cfg)), info1)
      ∧ ((loongarch_valid_base_register_p cfg (.REG m0 r0) mode strict_p = true
              ∧ loongarch_valid_base_register_p cfg (.REG m1 r1) mode strict_p = true
              ∧ (m0 = Pmode cfg ∨ m1 = Pmode cfg))
          → info1.type = .ADDRESS_REG_REG) := by
  unfold loongarch_classify_address
  simp only [valid_index_reg, valid_offset_reg]
  generalize loongarch_valid_base_register_p cfg (.REG m0 r0) mode strict_p = b0
  generalize loongarch_valid_base_register_p cfg (.REG m1 r1) mode strict_p = b1
  by_cases e0 : m0 = Pmode cfg <;> by_cases e1 : m1 = Pmode cfg <;>
    cases b0 <;> cases b1 <;> simp [e0, e1]

/-- C9: for an address `REG + REG` whose operands are registers of the address
mode `Pmode`, `loongarch_classify_address` returns true exactly when both
operands are valid base registers under the given strictness
(`loongarch_valid_base_register_p`), and then the type it records is
`ADDRESS_REG_REG`. -/
theorem classify_address_reg_reg_iff (cfg : target) (info : loongarch_address_info)
    (m m0 m1 : machine_mode) (r0 r1 : Nat) (mode : machine_mode) (strict_p : Bool)
    (h0 : m0 = Pmode cfg) (h1 : m1 = Pmode cfg) :
    ∃ info1, loongarch_classify_address cfg info (.PLUS m (.REG m0 r0) (.REG m1 r1)) mode
          strict_p
        = some (decide (loongarch_valid_base_register_p cfg (.REG m0 r0) mode strict_p = true
              ∧ loongarch_valid_base_register_p cfg (.REG m1 r1) mode strict_p = true), info1)
      ∧ ((loongarch_valid_base_register_p cfg (.REG m0 r0) mode strict_p = true
              ∧ loongarch_valid_base_register_p cfg (.REG m1 r1) mode strict_p = true)
          ↔ info1.type = .ADDRESS_REG_REG ∧ loongarch_classify_address cfg info
              (.PLUS m (.REG m0 r0) (.REG m1 r1)) mode strict_p = some (true, info1)) := by
  subst h0 h1
  obtain ⟨info1, h, ht⟩ := classify_address_reg_reg cfg info m (Pmode cfg) (Pmode cfg) r0 r1
    mode strict_p
  simp only [or_self, and_true] at h ht
  refine ⟨info1, h, fun hv => ⟨ht hv, ?_⟩, fun hr => ?_⟩
  · rw [h]
    simp only [hv, and_self, decide_True]
  · have h2 := hr.2
    rw [h] at h2
    simp only [Option.some.injEq, Prod.mk.injEq, decide_eq_true_eq, and_true] at h2
    exact h2

theorem classify_address_reg_reg_iff_witness :
    ∃ info1, loongarch_classify_address example_target example_info
          (.PLUS E_DImode (.REG E_DImode 5) (.REG E_DImode 6)) E_DImode true
        = some (decide (loongarch_valid_base_register_p example_target (.REG E_DImode 5)
                E_DImode true = true
              ∧ loongarch_valid_base_register_p example_target (.REG E_DImode 6)
                E_DImode true = true), info1)
      ∧ ((loongarch_valid_base_register_p example_target (.REG E_DImode 5) E_DImode true = true
              ∧ loongarch_valid_base_register_p example_target (.REG E_DImode 6) E_DImode true
                = true)
          ↔ info1.type = .ADDRESS_REG_REG ∧ loongarch_classify_address example_target
              example_info (.PLUS E_DImode (.REG E_DImode 5) (.REG E_DImode 6)) E_DImode true
              = some (true, info1)) :=
  classify_address_reg_reg_iff example_target example_info E_DImode E_DImode E_DImode 5 6
    E_DImode true (by decide) (by decide)

/-- C10: `SYMBOL_TLS` (RawTls) is never a final addressing form.  For every
mode, base register and strictness, a `LO_SUM` whose symbolic operand is
classified `SYMBOL_TLS` is rejected by `loongarch_classify_address`; and every
`LO_SUM` it accepts records the type of its symbolic operand, which is not
`SYMBOL_TLS`, for which `loongarch_split_symbol_type` is true and
`loongarch_symbol_insns` is non-zero. -/
theorem classify_address_lo_sum_never_tls (cfg : target) (info : loongarch_address_info)
    (m : machine_mode) (reg sym : rtx) (mode : machine_mode) (strict_p : Bool) :
    (loongarch_classify_symbolic_expression cfg sym = some .SYMBOL_TLS →
      ∃ info1, loongarch_classify_address cfg info (.LO_SUM m reg sym) mode strict_p
        = some (false, info1))
    ∧ (∀ info1, loongarch_classify_address cfg info (.LO_SUM m reg sym) mode strict_p
          = some (true, info1) →
        loongarch_classify_symbolic_expression cfg sym = some info1.symbol_type
          ∧ info1.symbol_type ≠ .SYMBOL_TLS
          ∧ loongarch_split_symbol_type info1.symbol_type = true
          ∧ loongarch_symbol_insns cfg info1.symbol_type mode ≠ 0) := by
  constructor
  · intro h
    have hz : loongarch_symbol_insns cfg .SYMBOL_TLS mode = 0 := by
      unfold loongarch_symbol_insns
      split_ifs <;> rfl
    refine ⟨{ info with type := .ADDRESS_LO_SUM, reg := reg, offset := sym,
                        symbol_type := .SYMBOL_TLS }, ?_⟩
    simp only [loongarch_classify_address, h, Option.bind_eq_bind, Option.some_bind,
      Option.pure_def, loongarch_valid_lo_sum_p, hz, if_true, Bool.and_false]
  · intro info1 h
    simp only [loongarch_classify_address, Option.bind_eq_bind, Option.pure_def,
      Option.bind_eq_some, Option.some.injEq, Prod.mk.injEq, Bool.and_eq_true] at h
    obtain ⟨st, hst, ⟨-, hlo⟩, hinfo⟩ := h
    subst hinfo
    simp only
    unfold loongarch_valid_lo_sum_p at hlo
    have hins : loongarch_symbol_insns cfg st mode ≠ 0 := by
      intro hz; simp [hz] at hlo
    have hsp : loongarch_split_symbol_type st = true := by
      cases hs : loongarch_split_symbol_type st
      · simp [hins, hs] at hlo
      · rfl
    refine ⟨hst, ?_, hsp, hins⟩
    intro e
    rw [e] at hsp
    simp [loongarch_split_symbol_type] at hsp

/-- Witness of C10: with base `$r5` in `DImode`, the `LO_SUM` of a thread-local
symbol is rejected, and the accepted `LO_SUM` of a local symbol has a split
symbol type with a non-zero instruction count. -/
theorem classify_address_lo_sum_never_tls_witness :
    (∃ info1, loongarch_classify_address example_target example_info
        (.LO_SUM E_DImode (.REG E_DImode 5) example_tls_symbol) E_DImode true
        = some (false, info1))
    ∧ loongarch_split_symbol_type .SYMBOL_PCREL = true
    ∧ loongarch_symbol_insns example_target .SYMBOL_PCREL E_DImode ≠ 0 :=
  ⟨(classify_address_lo_sum_never_tls example_target example_info E_DImode
      (.REG E_DImode 5) example_tls_symbol E_DImode true).1 (by decide),
   ((classify_address_lo_sum_never_tls example_target example_info E_DImode
      (.REG E_DImode 5) example_local_symbol E_DImode true).2
      ⟨.ADDRESS_LO_SUM, .REG E_DImode 5, example_local_symbol, .SYMBOL_PCREL⟩ rfl).2.2⟩

/-! ## Address costs and symbol classification: lemmas and claims -/

theorem valid_index_shape (cfg : target) (x : rtx) (mode : machine_mode) (strict_p : Bool) :
    ∃ b idx, ∀ info, loongarch_valid_index_p cfg info x mode strict_p
      = (b, if b = true then { info with type := .ADDRESS_REG_REG, offset := idx } else info) := by
  unfold loongarch_valid_index_p
  by_cases h1 : ((REG_P x || SUBREG_P x) && decide (GET_MODE x = Pmode cfg)) = true
  · simp only [h1, if_true]
    split_ifs with h2
    · exact ⟨true, _, fun _ => rfl⟩
    · exact ⟨false, x, fun _ => rfl⟩
  · simp only [h1, if_false]
    exact ⟨false, x, fun _ => rfl⟩

theorem classify_address_again (cfg : target) (a : loongarch_address_info) (x : rtx)
    (mode : machine_mode) (strict_p : Bool) (ok : Bool) (i : loongarch_address_info)
    (h : loongarch_classify_address cfg a x mode strict_p = some (ok, i)) :
    loongarch_classify_address cfg i x mode strict_p = some (ok, i) := by
  cases x with
  | PLUS m op0 op1 =>
      obtain ⟨b1, idx1, h1⟩ := valid_index_shape cfg op1 mode strict_p
      obtain ⟨b0, idx0, h0⟩ := valid_index_shape cfg op0 mode strict_p
      unfold loongarch_classify_address at h ⊢
      simp only [h1, h0] at h ⊢
      generalize loongarch_valid_base_register_p cfg op0 mode strict_p = v0 at h ⊢
      generalize loongarch_valid_base_register_p cfg op1 mode strict_p = v1 at h ⊢
      cases hvo : loongarch_valid_offset_p cfg op1 mode <;>
        cases v0 <;> cases v1 <;> cases b0 <;> cases b1 <;>
          simp [hvo] at h ⊢ <;>
          (try (obtain ⟨rfl, rfl⟩ := h; simp))
  | LO_SUM m op0 op1 =>
      unfold loongarch_classify_address at h ⊢
      cases hc : loongarch_classify_symbolic_expression cfg op1 <;> simp [hc] at h ⊢
      obtain ⟨rfl, rfl⟩ := h
      simp
  | _ =>
      simp only [loongarch_classify_address, Option.some.injEq, Prod.mk.injEq] at h ⊢
      obtain ⟨rfl, rfl⟩ := h
      simp

theorem classify_address_accepted_type (cfg : target) (a : loongarch_address_info) (x : rtx)
    (mode : machine_mode) (strict_p : Bool) (i : loongarch_address_info)
    (h : loongarch_classify_address cfg a x mode strict_p = some (true, i)) :
    i.type = .ADDRESS_REG ∨ i.type = .ADDRESS_REG_REG ∨ i.type = .ADDRESS_CONST_INT
      ∨ i.type = .ADDRESS_LO_SUM := by
  cases x with
  | PLUS m op0 op1 =>
      obtain ⟨b1, idx1, h1⟩ := valid_index_shape cfg op1 mode strict_p
      obtain ⟨b0, idx0, h0⟩ := valid_index_shape cfg op0 mode strict_p
      unfold loongarch_classify_address at h
      simp only [h1, h0] at h
      generalize loongarch_valid_base_register_p cfg op0 mode strict_p = v0 at h
      generalize loongarch_valid_base_register_p cfg op1 mode strict_p = v1 at h
      cases hvo : loongarch_valid_offset_p cfg op1 mode <;>
        cases v0 <;> cases v1 <;> cases b0 <;> cases b1 <;>
          simp [hvo] at h <;>
          (try (obtain ⟨-, rfl⟩ := h; simp))
  | LO_SUM m op0 op1 =>
      unfold loongarch_classify_address at h
      cases hc : loongarch_classify_symbolic_expression cfg op1 <;> simp [hc] at h
      obtain ⟨-, rfl⟩ := h
      simp
  | _ =>
      simp only [loongarch_classify_address, Option.some.injEq, Prod.mk.injEq] at h
      first
        | (obtain ⟨-, rfl⟩ := h; simp)
        | (exact absurd h.1 (by simp))

/-- C11: the cost of a single unsplit access in a non-vector mode.  For a mode
that is neither a 128-bit nor a 256-bit vector mode and `might_split_p` false,
whenever the non-strict `loongarch_classify_address` returns,
`loongarch_address_insns` returns 0 if the address is rejected; if it is
accepted its type is `ADDRESS_REG`, `ADDRESS_REG_REG`, `ADDRESS_CONST_INT` or
`ADDRESS_LO_SUM`, and the result is 1 for the first three and 2 for
`ADDRESS_LO_SUM`.  In particular `$r5 + 256` in the 8-byte mode `DImode` is
accepted (strict and non-strict) with type `ADDRESS_REG` and costs 1. -/
theorem address_insns_unsplit (cfg : target) (addr : loongarch_address_info) (x : rtx)
    (mode : machine_mode) :
    (LSX_SUPPORTED_MODE_P cfg mode = false → LASX_SUPPORTED_MODE_P cfg mode = false →
      ∀ ok info, loongarch_classify_address cfg addr x mode false = some (ok, info) →
        (ok = false → loongarch_address_insns cfg addr x mode false = some 0)
        ∧ (ok = true →
            (info.type = .ADDRESS_REG ∨ info.type = .ADDRESS_REG_REG
              ∨ info.type = .ADDRESS_CONST_INT ∨ info.type = .ADDRESS_LO_SUM)
            ∧ (info.type = .ADDRESS_REG ∨ info.type = .ADDRESS_REG_REG
                ∨ info.type = .ADDRESS_CONST_INT →
                loongarch_address_insns cfg addr x mode false = some 1)
            ∧ (info.type = .ADDRESS_LO_SUM →
                loongarch_address_insns cfg addr x mode false = some 2)))
    ∧ loongarch_classify_address example_target addr example_reg_offset E_DImode true
        = some (true, ⟨.ADDRESS_REG, .REG E_DImode 5, .CONST_INT 256, addr.symbol_type⟩)
    ∧ loongarch_classify_address example_target addr example_reg_offset E_DImode false
        = some (true, ⟨.ADDRESS_REG, .REG E_DImode 5, .CONST_INT 256, addr.symbol_type⟩)
    ∧ loongarch_address_insns example_target addr example_reg_offset E_DImode false
        = some 1 := by
  refine ⟨?_, rfl, rfl, rfl⟩
  intro hl hla ok info h
  have h2 := classify_address_again cfg addr x mode false ok info h
  have hb : loongarch_address_insns cfg addr x mode false
      = (loongarch_classify_address cfg addr x mode false).bind (fun r1 =>
          if (!r1.1) = true then some 0
          else (loongarch_classify_address cfg r1.2 x mode false).bind (fun r2 =>
            if r2.1 = true then
              match r2.2.type with
              | .ADDRESS_REG => some 1
              | .ADDRESS_REG_REG => some 1
              | .ADDRESS_CONST_INT => some 1
              | .ADDRESS_LO_SUM => some 2
              | .ADDRESS_SYMBOLIC => some (1 * loongarch_symbol_insns cfg r2.2.symbol_type mode)
            else some 0)) := by
    unfold loongarch_address_insns
    simp only [hl, hla, Bool.or_self, Bool.and_false, Bool.false_eq_true, if_false,
      Bool.not_true, Bool.and_false, Option.bind_eq_bind, Option.pure_def]
  rw [hb, h]
  simp only [Option.some_bind, h2]
  cases ok
  · simp
  · have ht := classify_address_accepted_type cfg addr x mode false info h
    refine ⟨fun hc => absurd hc (by simp), fun _ => ⟨ht, ?_, ?_⟩⟩
    · intro h3
      rcases h3 with h3 | h3 | h3 <;> simp [h3]
    · intro h3
      simp [h3]

/-- Witness of C11: the register address `$r5` in `DImode`. -/
theorem address_insns_unsplit_witness :
    loongarch_address_insns example_target example_info (.REG E_DImode 5) E_DImode false
      = some 1 :=
  (((address_insns_unsplit example_target example_info (.REG E_DImode 5) E_DImode).1
      (by decide) (by decide) true
      ⟨.ADDRESS_REG, .REG E_DImode 5, const0_rtx, .SYMBOL_TLS⟩ rfl).2 rfl).2.1 (Or.inl rfl)

/-- C12: the instruction count of a symbol.  In a 128-bit or 256-bit vector
mode `loongarch_symbol_insns` is 0 for every symbol type.  In any other mode it
is 2 for `SYMBOL_PCREL`, 5 for `SYMBOL_PCREL64`, 3 for `SYMBOL_TLSGD` and
`SYMBOL_TLSLDM`, 2 for `SYMBOL_TLS_IE` and `SYMBOL_TLS_LE`, 0 for `SYMBOL_TLS`,
and for `SYMBOL_GOT_DISP` it is 0 when explicit relocations are not in use for
that type and the mode is not `MAX_MACHINE_MODE`, and 3 otherwise. -/
theorem symbol_insns_table (cfg : target) (mode : machine_mode) :
    (LSX_SUPPORTED_MODE_P cfg mode = true ∨ LASX_SUPPORTED_MODE_P cfg mode = true →
      ∀ type, loongarch_symbol_insns cfg type mode = 0)
    ∧ (LSX_SUPPORTED_MODE_P cfg mode = false → LASX_SUPPORTED_MODE_P cfg mode = false →
        loongarch_symbol_insns cfg .SYMBOL_PCREL mode = 2
        ∧ loongarch_symbol_insns cfg .SYMBOL_PCREL64 mode = 5
        ∧ loongarch_symbol_insns cfg .SYMBOL_TLSGD mode = 3
        ∧ loongarch_symbol_insns cfg .SYMBOL_TLSLDM mode = 3
        ∧ loongarch_symbol_insns cfg .SYMBOL_TLS_IE mode = 2
        ∧ loongarch_symbol_insns cfg .SYMBOL_TLS_LE mode = 2
        ∧ loongarch_symbol_insns cfg .SYMBOL_TLS mode = 0
        ∧ (loongarch_explicit_relocs_p cfg .SYMBOL_GOT_DISP = false → mode ≠ MAX_MACHINE_MODE →
            loongarch_symbol_insns cfg .SYMBOL_GOT_DISP mode = 0)
        ∧ (loongarch_explicit_relocs_p cfg .SYMBOL_GOT_DISP = true ∨ mode = MAX_MACHINE_MODE →
            loongarch_symbol_insns cfg .SYMBOL_GOT_DISP mode = 3)) := by
  constructor
  · intro h type
    unfold loongarch_symbol_insns
    rcases h with h | h <;> simp [h]
  · intro hl hla
    unfold loongarch_symbol_insns
    simp only [hl, hla, Bool.or_self, Bool.false_eq_true, if_false, true_and]
    constructor
    · intro he hm
      simp [he, hm]
    · intro h
      rcases h with h | h <;> simp [h]

/-- Witness of C12: the vector mode `V4SImode` and the scalar mode `DImode`
with the options of the examples, where explicit relocations are not in use
for `SYMBOL_GOT_DISP`. -/
theorem symbol_insns_table_witness :
    (∀ type, loongarch_symbol_insns example_target type V4SImode = 0)
    ∧ loongarch_symbol_insns example_target .SYMBOL_PCREL64 E_DImode = 5
    ∧ loongarch_symbol_insns example_target .SYMBOL_GOT_DISP E_DImode = 0
    ∧ loongarch_symbol_insns example_target .SYMBOL_GOT_DISP MAX_MACHINE_MODE = 3 :=
  ⟨(symbol_insns_table example_target V4SImode).1 (Or.inl (by decide)),
   ((symbol_insns_table example_target E_DImode).2 (by decide) (by decide)).2.1,
   ((symbol_insns_table example_target E_DImode).2 (by decide) (by decide)).2.2.2.2.2.2.2.1
      (by decide) (by decide),
   ((symbol_insns_table example_target MAX_MACHINE_MODE).2 (by decide)
      (by decide)).2.2.2.2.2.2.2.2 (Or.inr rfl)⟩

/-- C13: the rule order of `loongarch_classify_symbol` on a `SYMBOL_REF`.
A thread-local symbol is `SYMBOL_TLS` whatever its binding, the code model and
the "model" attribute.  Otherwise a symbol that does not bind locally (as
`loongarch_symbol_binds_local_p` tells) is `SYMBOL_GOT_DISP` whatever the code
model and the attribute.  Otherwise, without a declaration or without a
"model" attribute the result is `SYMBOL_PCREL64` under the extreme code model
and `SYMBOL_PCREL` otherwise, and a "model" attribute "normal" or "extreme"
forces `SYMBOL_PCREL` or `SYMBOL_PCREL64`.  In particular a file-local
function that is not thread-local is `SYMBOL_PCREL` under a code model other
than extreme, and `loongarch_symbol_insns` is 2 for it in a non-vector mode. -/
theorem classify_symbol_rule_order (cfg : target) (m : machine_mode) (sym : symbol_ref_info)
    (mode : machine_mode) :
    (sym.SYMBOL_REF_TLS_MODEL ≠ 0 →
      loongarch_classify_symbol cfg (.SYMBOL_REF m sym) = some .SYMBOL_TLS)
    ∧ (sym.SYMBOL_REF_TLS_MODEL = 0 →
        loongarch_symbol_binds_local_p cfg (.SYMBOL_REF m sym) = false →
        loongarch_classify_symbol cfg (.SYMBOL_REF m sym) = some .SYMBOL_GOT_DISP)
    ∧ (sym.SYMBOL_REF_TLS_MODEL = 0 →
        loongarch_symbol_binds_local_p cfg (.SYMBOL_REF m sym) = true →
        (sym.SYMBOL_REF_DECL = none ∨ ∃ t, sym.SYMBOL_REF_DECL = some t ∧ t.model = none) →
        loongarch_classify_symbol cfg (.SYMBOL_REF m sym)
          = some (if cfg.TARGET_CMODEL_EXTREME = true then .SYMBOL_PCREL64 else .SYMBOL_PCREL))
    ∧ (sym.SYMBOL_REF_TLS_MODEL = 0 →
        loongarch_symbol_binds_local_p cfg (.SYMBOL_REF m sym) = true →
        ∀ t, sym.SYMBOL_REF_DECL = some t →
          (t.model = some (.STRING_CST "normal") →
            loongarch_classify_symbol cfg (.SYMBOL_REF m sym) = some .SYMBOL_PCREL)
          ∧ (t.model = some (.STRING_CST "extreme") →
            loongarch_classify_symbol cfg (.SYMBOL_REF m sym) = some .SYMBOL_PCREL64))
    ∧ (cfg.TARGET_CMODEL_EXTREME = false →
        loongarch_classify_symbol cfg example_local_function = some .SYMBOL_PCREL
        ∧ (LSX_SUPPORTED_MODE_P cfg mode = false → LASX_SUPPORTED_MODE_P cfg mode = false →
            loongarch_symbol_insns cfg .SYMBOL_PCREL mode = 2)) := by
  refine ⟨?_, ?_, ?_, ?_, ?_⟩
  · intro h
    simp [loongarch_classify_symbol, h]
  · intro h hb
    simp [loongarch_classify_symbol, h, hb]
  · intro h hb hd
    rcases hd with hd | ⟨t, hd, hm⟩
    · simp [loongarch_classify_symbol, h, hb, hd]
    · simp [loongarch_classify_symbol, h, hb, hd, hm]
  · intro h hb t hd
    constructor
    · intro hm
      simp [loongarch_classify_symbol, h, hb, hd, hm]
    · intro hm
      simp [loongarch_classify_symbol, h, hb, hd, hm]
  · intro he
    constructor
    · simp [loongarch_classify_symbol, example_local_function, loongarch_symbol_binds_local_p, he]
    · intro hl hla
      simp [loongarch_symbol_insns, hl, hla]

/-- Witness of C13: a thread-local symbol, a global symbol that does not bind
locally, and the file-local function, with the options of the examples. -/
theorem classify_symbol_rule_order_witness :
    loongarch_classify_symbol example_target example_tls_symbol = some .SYMBOL_TLS
    ∧ loongarch_classify_symbol example_target (.SYMBOL_REF E_DImode ⟨0, none, false⟩)
        = some .SYMBOL_GOT_DISP
    ∧ loongarch_classify_symbol example_target example_local_function = some .SYMBOL_PCREL
    ∧ loongarch_symbol_insns example_target .SYMBOL_PCREL E_DImode = 2 :=
  ⟨(classify_symbol_rule_order example_target E_DImode ⟨1, none, true⟩ E_DImode).1 (by decide),
   (classify_symbol_rule_order example_target E_DImode ⟨0, none, false⟩ E_DImode).2.1
      (by decide) (by decide),
   ((classify_symbol_rule_order example_target E_DImode ⟨0, none, false⟩ E_DImode).2.2.2.2
      (by decide)).1,
   ((classify_symbol_rule_order example_target E_DImode ⟨0, none, false⟩ E_DImode).2.2.2.2
      (by decide)).2 (by decide) (by decide)⟩

/-! ## Move splitting: lemmas and claims -/

theorem rtx_equal_const_int (v : Int) (y : rtx) :
    rtx_equal_p (.CONST_INT v) y = true ↔ y = .CONST_INT v := by
  cases y <;> simp [rtx_equal_p]
  exact eq_comm

theorem const_vector_same_int_iff (src : rtx) (low high : Int) :
    loongarch_const_vector_same_int_p src (GET_MODE src) low high = true
      ↔ ∃ m elt v, src = .CONST_VECTOR m elt ∧ elt 0 = .CONST_INT v
          ∧ (∀ i, i < GET_MODE_NUNITS m → elt i = .CONST_INT v) ∧ low ≤ v ∧ v ≤ high := by
  cases src with
  | CONST_VECTOR m elt =>
      simp only [loongarch_const_vector_same_int_p, loongarch_const_vector_same_val_p, GET_MODE,
        ne_eq, not_true_eq_false, if_false, rtx.CONST_VECTOR.injEq]
      constructor
      · intro h
        split_ifs at h with hall
        cases he : elt 0 with
        | CONST_INT v =>
            rw [he] at h hall
            simp only [Bool.and_eq_true, decide_eq_true_eq] at h
            simp only [Bool.not_eq_true, Bool.not_eq_false', List.all_eq_true,
              List.mem_range'_1, rtx_equal_const_int] at hall
            refine ⟨m, elt, v, ⟨rfl, rfl⟩, he, ?_, h.1, h.2⟩
            intro i hi
            by_cases h0 : i = 0
            · rw [h0, he]
            · exact hall i ⟨by omega, by omega⟩
        | _ => rw [he] at h; simp at h
      · rintro ⟨m', elt', v, ⟨rfl, rfl⟩, he, hall, hl, hh⟩
        have : (List.range' 1 (GET_MODE_NUNITS m - 1)).all
            (fun i => rtx_equal_p (elt 0) (elt i)) = true := by
          simp only [List.all_eq_true, List.mem_range'_1, he, rtx_equal_const_int]
          intro i hi
          exact hall i (by omega)
        simp only [this, Bool.not_true, Bool.false_eq_true, if_false]
        rw [he]
        simp [hl, hh]
  | _ =>
      simp [loongarch_const_vector_same_int_p, loongarch_const_vector_same_val_p]

/-- C14: the decision of `loongarch_split_move_p` on a 64-bit target.  When the
mode of `dest` is a supported 128-bit vector mode, the result is false exactly
when both operands are FP/vector registers, or one is an FP/vector register
and the other is memory, or `dest` is an FP/vector register and `src` is a
constant vector all of whose units are one integer in [-512, 511], or `dest`
is an FP/vector register and `src` is the zero constant of its mode
(`CONST0_RTX`).  When the mode of `dest` is neither a 128-bit nor a 256-bit
vector mode, the result is true exactly when the size of the mode exceeds 8
bytes, whatever the operands are. -/
theorem split_move_p_decision (cfg : target) (dest src : rtx)
    (h64 : cfg.TARGET_64BIT = true) :
    (LSX_SUPPORTED_MODE_P cfg (GET_MODE dest) = true →
      (loongarch_split_move_p cfg dest src = false
        ↔ (FP_REG_RTX_P src = true ∧ FP_REG_RTX_P dest = true)
          ∨ (FP_REG_RTX_P dest = true ∧ MEM_P src = true)
          ∨ (FP_REG_RTX_P src = true ∧ MEM_P dest = true)
          ∨ (FP_REG_RTX_P dest = true
              ∧ ∃ m elt v, src = .CONST_VECTOR m elt ∧ elt 0 = .CONST_INT v
                  ∧ (∀ i, i < GET_MODE_NUNITS m → elt i = .CONST_INT v)
                  ∧ -512 ≤ v ∧ v ≤ 511)
          ∨ (FP_REG_RTX_P dest = true ∧ CONST0_RTX_P src = true)))
    ∧ (LSX_SUPPORTED_MODE_P cfg (GET_MODE dest) = false →
        LASX_SUPPORTED_MODE_P cfg (GET_MODE dest) = false →
        (loongarch_split_move_p cfg dest src = true ↔ GET_MODE_SIZE (GET_MODE dest) > 8)) := by
  have hw : UNITS_PER_WORD cfg = 8 := by simp [UNITS_PER_WORD, h64]
  constructor
  · intro hl
    have hsz : GET_MODE_SIZE (GET_MODE dest) = 16 := by
      unfold LSX_SUPPORTED_MODE_P at hl
      simp only [Bool.and_eq_true, decide_eq_true_eq] at hl
      exact hl.1.2
    rw [← const_vector_same_int_iff src (-512) 511]
    unfold loongarch_split_move_p loongarch_split_128bit_move_p
    simp only [hsz, hl, if_true]
    generalize FP_REG_RTX_P src = fs
    generalize FP_REG_RTX_P dest = fd
    generalize MEM_P src = ms
    generalize MEM_P dest = md
    generalize loongarch_const_vector_same_int_p src (GET_MODE src) (-512) 511 = ci
    generalize CONST0_RTX_P src = cz
    cases fs <;> cases fd <;> cases ms <;> cases md <;> cases ci <;> cases cz <;> simp
  · intro hl hla
    unfold loongarch_split_move_p
    simp only [hl, hla, hw, if_false, Bool.false_eq_true]
    by_cases h8 : GET_MODE_SIZE (GET_MODE dest) = 8
    · simp [h8]
    · simp [h8]

/-- Witness of C14: a vector register loaded from memory in `V4SImode` is not
split; a `TImode` register pair copied on a 64-bit target is split. -/
theorem split_move_p_decision_witness :
    loongarch_split_move_p example_target (.REG V4SImode 32)
        (.MEM V4SImode (.REG E_DImode 5)) = false
    ∧ loongarch_split_move_p example_target (.REG TImode 6) (.REG TImode 4) = true :=
  ⟨((split_move_p_decision example_target (.REG V4SImode 32)
        (.MEM V4SImode (.REG E_DImode 5)) rfl).1 (by decide)).2
      (Or.inr (Or.inl ⟨by decide, by decide⟩)),
   ((split_move_p_decision example_target (.REG TImode 6) (.REG TImode 4) rfl).2
      (by decide) (by decide)).2 (by decide)⟩

/-- C15: the order of the two word moves.  When `loongarch_split_move` splits
a move that `loongarch_split_move_p` tells to split, in a mode that is not a
vector mode and with neither operand an FP register, and the address
classification of its peephole does not abort, it returns having emitted
exactly two moves: if the low word of the destination is a register and
`reg_overlap_mentioned_p (low_dest, src)` holds, the move of the high word
comes first and the move of the low word second; otherwise the move of the low
word comes first and the move of the high word second. -/
theorem split_move_word_order (cfg : target) (rtl : middle_end) (dest src : rtx)
    (stream : insn_stream)
    (hl : LSX_SUPPORTED_MODE_P cfg (GET_MODE dest) = false)
    (hla : LASX_SUPPORTED_MODE_P cfg (GET_MODE dest) = false)
    (hfd : FP_REG_RTX_P dest = false) (hfs : FP_REG_RTX_P src = false)
    (hsplit : loongarch_split_move_p cfg dest src = true)
    (hcl : ∀ m tmp, src = .MEM m tmp →
      ∃ r, loongarch_classify_address cfg ⟨.ADDRESS_REG, .NULL_RTX, .NULL_RTX, .SYMBOL_GOT_DISP⟩
        tmp (GET_MODE tmp) true = some r) :
    ∃ r, loongarch_split_move cfg rtl dest src stream = some r
      ∧ (REG_P (loongarch_subword cfg rtl dest false) = true
          ∧ rtl.reg_overlap_mentioned_p (loongarch_subword cfg rtl dest false) src = true →
          r.emitted
            = [.move (loongarch_subword cfg rtl dest true) (loongarch_subword cfg rtl src true),
               .move (loongarch_subword cfg rtl dest false)
                 (loongarch_subword cfg rtl src false)])
      ∧ (¬ (REG_P (loongarch_subword cfg rtl dest false) = true
          ∧ rtl.reg_overlap_mentioned_p (loongarch_subword cfg rtl dest false) src = true) →
          r.emitted
            = [.move (loongarch_subword cfg rtl dest false)
                 (loongarch_subword cfg rtl src false),
               .move (loongarch_subword cfg rtl dest true)
                 (loongarch_subword cfg rtl src true)]) := by
  unfold loongarch_split_move
  simp only [hsplit, gcc_assert, hl, hla, hfd, hfs, if_true, if_false, Bool.or_self,
    Bool.false_eq_true, Option.bind_eq_bind, Option.some_bind, Option.pure_def,
    loongarch_emit_move]
  by_cases hc : (REG_P (loongarch_subword cfg rtl dest false)
      && rtl.reg_overlap_mentioned_p (loongarch_subword cfg rtl dest false) src) = true
  · have hc2 := hc
    simp only [Bool.and_eq_true] at hc2
    simp only [hc, if_true, Option.some_bind]
    by_cases hs : (stream.insn && stream.next && stream.set && stream.set_src_is_dest) = true
    · simp only [hs, if_true]
      cases src with
      | MEM m tmp =>
          obtain ⟨r, hr⟩ := hcl m tmp rfl
          simp only [hr, Option.some_bind]
          split_ifs <;> exact ⟨_, rfl, fun _ => rfl, fun h => absurd hc2 h⟩
      | _ => exact ⟨_, rfl, fun _ => rfl, fun h => absurd hc2 h⟩
    · simp only [hs, if_false, Bool.false_eq_true]
      exact ⟨_, rfl, fun _ => rfl, fun h => absurd hc2 h⟩
  · have hc2 := hc
    simp only [Bool.and_eq_true] at hc2
    simp only [hc, if_false, Option.some_bind, Bool.false_eq_true]
    by_cases hs : (stream.insn && stream.next && stream.set && stream.set_src_is_dest) = true
    · simp only [hs, if_true]
      cases src with
      | MEM m tmp =>
          obtain ⟨r, hr⟩ := hcl m tmp rfl
          simp only [hr, Option.some_bind]
          split_ifs <;> exact ⟨_, rfl, fun h => absurd h hc2, fun _ => rfl⟩
      | _ => exact ⟨_, rfl, fun h => absurd h hc2, fun _ => rfl⟩
    · simp only [hs, if_false, Bool.false_eq_true]
      exact ⟨_, rfl, fun h => absurd h hc2, fun _ => rfl⟩

/-- Witness of C15: the copy of the register pair `$r5`, `$r6` into the pair
`$r6`, `$r7` on a 64-bit target moves the high word first. -/
theorem split_move_word_order_witness :
    ∃ r, loongarch_split_move example_target (example_middle_end example_target)
        (.REG TImode 6) (.REG TImode 5) example_stream = some r
      ∧ r.emitted = [.move (.REG E_DImode 7) (.REG E_DImode 6),
                     .move (.REG E_DImode 6) (.REG E_DImode 5)] := by
  obtain ⟨r, hr, h1, -⟩ := split_move_word_order example_target
    (example_middle_end example_target) (.REG TImode 6) (.REG TImode 5) example_stream
    (by decide) (by decide) (by decide) (by decide) (by decide)
    (fun m tmp h => by cases h)
  exact ⟨r, hr, h1 ⟨by decide, by decide⟩⟩

/-! ## C16: the address of a forwarded memory source -/

theorem pass_mode_in_fpr_cases (abi : abi) (mode : machine_mode) :
    loongarch_pass_mode_in_fpr_p abi mode = 0 ∨ loongarch_pass_mode_in_fpr_p abi mode = 1
      ∨ loongarch_pass_mode_in_fpr_p abi mode = 2 := by
  unfold loongarch_pass_mode_in_fpr_p
  split_ifs <;> simp

theorem get_arg_info_gprs_info (cfg : target) (abi : abi) (info : loongarch_arg_info)
    (mode : machine_mode) (type : Option tree) (named return_p : Bool) (gpr_base : Nat) :
    ∃ g, (g = info.gpr_offset
          ∨ (named = false ∧ arg_num_bytes mode type ≠ 0
              ∧ loongarch_function_arg_boundary cfg abi mode type > BITS_PER_WORD cfg
              ∧ g = (info.gpr_offset + info.gpr_offset % 2) % 2 ^ 32))
      ∧ ((named = false ∧ arg_num_bytes mode type ≠ 0
              ∧ loongarch_function_arg_boundary cfg abi mode type > BITS_PER_WORD cfg)
          → g = (info.gpr_offset + info.gpr_offset % 2) % 2 ^ 32)
      ∧ (get_arg_info_gprs cfg abi info mode type named return_p gpr_base).1
        = ⟨decide ((arg_num_words cfg mode type + 2 ^ 32
              - min (arg_num_words cfg mode type)
                  ((MAX_ARGS_IN_REGISTERS + 2 ^ 32 - g) % 2 ^ 32)) % 2 ^ 32 ≠ 0),
           min (arg_num_words cfg mode type) ((MAX_ARGS_IN_REGISTERS + 2 ^ 32 - g) % 2 ^ 32),
           g, 0, info.fpr_offset⟩ := by
  unfold get_arg_info_gprs
  by_cases hc : (!named && decide (arg_num_bytes mode type ≠ 0)
      && decide (loongarch_function_arg_boundary cfg abi mode type > BITS_PER_WORD cfg)) = true
  · have hc2 := hc
    simp only [Bool.and_eq_true, Bool.not_eq_true', decide_eq_true_eq] at hc2
    refine ⟨(info.gpr_offset + info.gpr_offset % 2) % 2 ^ 32,
      Or.inr ⟨hc2.1.1, hc2.1.2, hc2.2, rfl⟩, fun _ => rfl, ?_⟩
    simp only [hc, if_true, Nat.and_one_is_mod]
    split_ifs <;> rfl
  · refine ⟨info.gpr_offset, Or.inl rfl, ?_, ?_⟩
    · intro h
      exfalso
      apply hc
      simp [h.1, h.2.1, h.2.2]
    · simp only [hc, if_false, Bool.false_eq_true]
      split_ifs <;> rfl

theorem get_arg_info_cases (cfg : target) (abi : abi) (cum : CUMULATIVE_ARGS)
    (mode : machine_mode) (type : Option tree) (named return_p : Bool)
    (info : loongarch_arg_info) (x : rtx)
    (h : loongarch_get_arg_info cfg abi cum mode type named return_p = some (info, x)) :
    (named = true ∧ ∃ k, (k = 1 ∨ k = 2) ∧ (cum.num_fprs + k) % 2 ^ 32 ≤ MAX_ARGS_IN_REGISTERS
        ∧ info = ⟨false, 0, cum.num_gprs, k, cum.num_fprs⟩)
    ∨ (named = true ∧ cum.num_gprs < MAX_ARGS_IN_REGISTERS
        ∧ cum.num_fprs < MAX_ARGS_IN_REGISTERS
        ∧ info = ⟨false, 1, cum.num_gprs, 1, cum.num_fprs⟩)
    ∨ (∃ f base, info = (get_arg_info_gprs cfg abi ⟨false, 0, cum.num_gprs, f, cum.num_fprs⟩
          mode type named return_p base).1) := by
  unfold loongarch_get_arg_info at h
  cases named with
  | false =>
      simp only [Bool.false_eq_true, if_false, Option.some.injEq] at h
      exact Or.inr (Or.inr ⟨0, _, by rw [h]⟩)
  | true =>
      simp only [if_true, Option.bind_eq_bind, Option.pure_def] at h
      cases h1 : loongarch_pass_aggregate_num_fpr cfg abi type fields_uninitialized with
      | none => simp [h1] at h
      | some r =>
          simp only [h1, Option.some_bind] at h
          by_cases hc1 : (decide (r.1 ≠ 0)
              && decide ((cum.num_fprs + r.1) % 2 ^ 32 ≤ MAX_ARGS_IN_REGISTERS)) = true
          · simp only [hc1, if_true] at h
            have hc1b := hc1
            simp only [Bool.and_eq_true, decide_eq_true_eq] at hc1b
            left
            refine ⟨rfl, r.1, ?_, hc1b.2, ?_⟩
            · by_cases e1 : r.1 = 1
              · exact Or.inl e1
              · by_cases e2 : r.1 = 2
                · exact Or.inr e2
                · simp [e1, e2] at h
            · by_cases e1 : r.1 = 1
              · simp only [e1, if_true] at h
                cases hf : fields_read r.2 0 with
                | none => simp [hf] at h
                | some f0 =>
                    simp only [hf, Option.some_bind, Option.some.injEq, Prod.mk.injEq] at h
                    rw [← h.1, e1]
              · by_cases e2 : r.1 = 2
                · simp only [e2] at h
                  cases hf : fields_read r.2 0 with
                  | none => simp [hf] at h
                  | some f0 =>
                      cases hg : fields_read r.2 1 with
                      | none => simp [hf, hg] at h
                      | some f1 =>
                          simp [hf, hg] at h
                          rw [← h.1, e2]
                · simp [e1, e2] at h
          · simp only [hc1, if_false, Bool.false_eq_true] at h
            by_cases hc2 : (decide (loongarch_pass_mode_in_fpr_p abi mode ≠ 0)
                && decide ((cum.num_fprs + loongarch_pass_mode_in_fpr_p abi mode) % 2 ^ 32
                    ≤ MAX_ARGS_IN_REGISTERS)) = true
            · simp only [hc2, if_true] at h
              have hc2b := hc2
              simp only [Bool.and_eq_true, decide_eq_true_eq] at hc2b
              left
              refine ⟨rfl, loongarch_pass_mode_in_fpr_p abi mode, ?_, hc2b.2, ?_⟩
              · rcases pass_mode_in_fpr_cases abi mode with e | e | e
                · exact absurd e hc2b.1
                · exact Or.inl e
                · exact Or.inr e
              · cases hm : GET_MODE_CLASS mode <;> simp [hm] at h <;> rw [← h.1]
            · simp only [hc2, if_false, Bool.false_eq_true] at h
              cases h3 : loongarch_pass_aggregate_in_fpr_and_gpr_p cfg abi type r.2 with
              | none => simp [h3] at h
              | some q =>
                  simp only [h3, Option.some_bind] at h
                  by_cases hc3 : (q.1 && decide (cum.num_gprs < MAX_ARGS_IN_REGISTERS)
                      && decide (cum.num_fprs < MAX_ARGS_IN_REGISTERS)) = true
                  · simp only [hc3, if_true] at h
                    have hc3b := hc3
                    simp only [Bool.and_eq_true, decide_eq_true_eq] at hc3b
                    right; left
                    refine ⟨rfl, hc3b.1.2, hc3b.2, ?_⟩
                    cases hf : fields_read q.2 0 with
                    | none => simp [hf] at h
                    | some f0 =>
                        cases hg : fields_read q.2 1 with
                        | none => simp [hf, hg] at h
                        | some f1 =>
                            simp [hf, hg] at h
                            rw [← h.1]
                  · simp only [hc3, if_false, Bool.false_eq_true, Option.some.injEq] at h
                    right; right
                    exact ⟨_, _, by rw [h]⟩

theorem fields_valid_iff (n : Int) (fields : fields_array) :
    fields_valid n fields = true
      ↔ 0 ≤ n ∧ n ≤ 2 ∧ (0 < n → (fields 0).isSome = true)
          ∧ (1 < n → (fields 1).isSome = true) := by
  unfold fields_valid
  simp only [Bool.and_eq_true, Bool.or_eq_true, decide_eq_true_eq]
  constructor
  · rintro ⟨⟨⟨h0, h2⟩, h3⟩, h4⟩
    refine ⟨h0, h2, fun h => ?_, fun h => ?_⟩
    · rcases h3 with h3 | h3
      · omega
      · exact h3
    · rcases h4 with h4 | h4
      · omega
      · exact h4
  · rintro ⟨h0, h2, h3, h4⟩
    refine ⟨⟨⟨h0, h2⟩, ?_⟩, ?_⟩
    · by_cases h : n ≤ 0
      · exact Or.inl h
      · exact Or.inr (h3 (by omega))
    · by_cases h : n ≤ 1
      · exact Or.inl h
      · exact Or.inr (h4 (by omega))

theorem fields_store_valid (fields : fields_array) (n : Int) (f : loongarch_aggregate_field)
    (hv : fields_valid n fields = true) (hn : n < 2) :
    ∃ fields1, fields_store fields n f = some fields1
      ∧ fields_valid (n + 1) fields1 = true := by
  rw [fields_valid_iff] at hv
  obtain ⟨h0, h2, h3, h4⟩ := hv
  refine ⟨fun i => if (i : Int) = n then some f else fields i, ?_, ?_⟩
  · simp [fields_store, h0, hn]
  · rw [fields_valid_iff]
    refine ⟨by omega, by omega, fun _ => ?_, fun h => ?_⟩
    · by_cases e : n = 0
      · simp [e]
      · have : ((0 : Nat) : Int) ≠ n := by simpa using (Ne.symm e)
        simp only [this, if_false]
        exact h3 (by omega)
    · have e : n = 1 := by omega
      simp [e]

theorem fields_read_valid (fields : fields_array) (n : Int) (i : Nat)
    (hv : fields_valid n fields = true) (hi : (i : Int) < n) :
    ∃ f, fields_read fields i = some f := by
  rw [fields_valid_iff] at hv
  obtain ⟨h0, h2, h3, h4⟩ := hv
  have hi2 : i < 2 := by omega
  unfold fields_read
  simp only [hi2, if_true]
  interval_cases i
  · exact Option.isSome_iff_exists.mp (h3 (by omega))
  · exact Option.isSome_iff_exists.mp (h4 (by omega))

theorem flatten_array_inner_valid (subfields : fields_array) (add : Nat) (ns : Int)
    (hs : fields_valid ns subfields = true) :
    ∀ (count j : Nat) (fields : fields_array) (n : Int),
      ((j : Int) + count ≤ ns) → fields_valid n fields = true →
      ∃ r, flatten_array_inner subfields add count j fields n = some r
        ∧ ((r.1 = true ∧ r.2.1 = -1)
            ∨ (r.1 = false ∧ n ≤ r.2.1 ∧ fields_valid r.2.1 r.2.2 = true)) := by
  intro count
  induction count with
  | zero =>
      intro j fields n _ hv
      exact ⟨(false, n, fields), rfl, Or.inr ⟨rfl, le_refl _, hv⟩⟩
  | succ c ih =>
      intro j fields n hj hv
      unfold flatten_array_inner
      by_cases hn : n ≥ 2
      · exact ⟨(true, -1, fields), by simp [hn], Or.inl ⟨rfl, rfl⟩⟩
      · simp only [hn, if_false]
        obtain ⟨sub, hsub⟩ := fields_read_valid subfields ns j hs (by push_cast at hj; omega)
        obtain ⟨fields1, hst, hv1⟩ := fields_store_valid fields n
          ⟨sub.type, to_signed ((to_unsigned sub.offset + add) % 2 ^ 64)⟩ hv (by omega)
        obtain ⟨r, hr, hres⟩ := ih (j + 1) fields1 (n + 1) (by push_cast at hj ⊢; omega) hv1
        refine ⟨r, ?_, ?_⟩
        · simp only [hsub, hst, Option.bind_eq_bind, Option.some_bind]
          exact hr
        · rcases hres with hres | ⟨h1, h2, h3⟩
          · exact Or.inl hres
          · exact Or.inr ⟨h1, by omega, h3⟩

theorem flatten_array_outer_valid (subfields : fields_array) (n_subfields elt_size : Nat)
    (ns : Int) (hs : fields_valid ns subfields = true) (hle : (n_subfields : Int) ≤ ns) :
    ∀ (count i : Nat) (fields : fields_array) (n : Int),
      fields_valid n fields = true →
      ∃ r, flatten_array_outer subfields n_subfields elt_size count i fields n = some r
        ∧ ((r.1 = true ∧ r.2.1 = -1)
            ∨ (r.1 = false ∧ n ≤ r.2.1 ∧ fields_valid r.2.1 r.2.2 = true)) := by
  intro count
  induction count with
  | zero =>
      intro i fields n hv
      exact ⟨(false, n, fields), rfl, Or.inr ⟨rfl, le_refl _, hv⟩⟩
  | succ c ih =>
      intro i fields n hv
      unfold flatten_array_outer
      obtain ⟨r, hr, hres⟩ := flatten_array_inner_valid subfields ((i * elt_size) % 2 ^ 64) ns hs
        n_subfields 0 fields n (by simpa using hle) hv
      simp only [hr, Option.bind_eq_bind, Option.some_bind]
      rcases hres with ⟨h1, h2⟩ | ⟨h1, h2, h3⟩
      · exact ⟨r, by simp [h1], Or.inl ⟨h1, h2⟩⟩
      · obtain ⟨r2, hr2, hres2⟩ := ih (i + 1) r.2.2 r.2.1 h3
        refine ⟨r2, by simp [h1, hr2], ?_⟩
        rcases hres2 with hres2 | ⟨g1, g2, g3⟩
        · exact Or.inl hres2
        · exact Or.inr ⟨g1, by omega, g3⟩

mutual
theorem flatten_field_valid (cfg : target) (abi : abi) :
    ∀ (type : tree) (fields : fields_array) (n offset : Int) (r : Int × fields_array),
      fields_valid n fields = true →
      loongarch_flatten_aggregate_field cfg abi type fields n offset = some r →
      r.1 = -1 ∨ (n ≤ r.1 ∧ fields_valid r.1 r.2 = true)
  | .RECORD_TYPE common chain, fields, n, offset, r, hv, h => by
      simp only [loongarch_flatten_aggregate_field] at h
      split_ifs at h with hc
      · simp only [Option.some.injEq] at h
        exact Or.inl (by rw [← h])
      · exact flatten_record_valid cfg abi chain fields n offset r hv h
  | .ARRAY_TYPE common elt index, fields, n, offset, r, hv, h => by
      simp only [loongarch_flatten_aggregate_field, Option.bind_eq_bind, Option.pure_def] at h
      cases hsub : loongarch_flatten_aggregate_field cfg abi elt fields_uninitialized 0 offset with
      | none => simp [hsub] at h
      | some sub =>
          have ihs := flatten_field_valid cfg abi elt fields_uninitialized 0 offset sub
            (by decide) hsub
          simp only [hsub, Option.some_bind] at h
          cases index with
          | none =>
              simp only [Option.some.injEq] at h
              exact Or.inl (by rw [← h])
          | some idx =>
              simp only at h
              split_ifs at h with hc
              · simp only [Option.some.injEq] at h
                exact Or.inl (by rw [← h])
              · simp only [Bool.or_eq_true, decide_eq_true_eq, not_or] at hc
                have hpos : ¬ sub.1 ≤ 0 := hc.1.1.1.1.1.1.1
                rcases ihs with ihs | ⟨-, ihs⟩
                · omega
                · cases hmax : tree_to_uhwi idx.TYPE_MAX_VALUE with
                  | none => simp [hmax] at h
                  | some vmax =>
                    cases hmin : tree_to_uhwi idx.TYPE_MIN_VALUE with
                    | none => simp [hmax, hmin] at h
                    | some vmin =>
                      simp only [hmax, hmin, Option.some_bind] at h
                      generalize to_signed ((1 + vmax + (18446744073709551616 - vmin))
                          % 18446744073709551616) = n_elts at h
                      cases hga : gcc_assert (decide (0 ≤ n_elts)) with
                      | none => simp [hga] at h
                      | some u =>
                        simp only [hga, Option.some_bind] at h
                        cases hsz : tree_to_uhwi elt.common.TYPE_SIZE_UNIT with
                        | none => simp [hsz] at h
                        | some size =>
                          simp only [hsz, Option.some_bind] at h
                          obtain ⟨q, hq, hres⟩ := flatten_array_outer_valid sub.2 sub.1.toNat size
                            sub.1 ihs (by omega) n_elts.toNat 0 fields n hv
                          simp only [hq, Option.some_bind, Option.some.injEq] at h
                          rw [← h]
                          rcases hres with ⟨-, h2⟩ | ⟨-, h2, h3⟩
                          · exact Or.inl h2
                          · exact Or.inr ⟨h2, h3⟩
  | .COMPLEX_TYPE common elt, fields, n, offset, r, hv, h => by
      simp only [loongarch_flatten_aggregate_field, Option.bind_eq_bind, Option.pure_def] at h
      split_ifs at h with hc1 hc2
      · simp only [Option.some.injEq] at h
        exact Or.inl (by rw [← h])
      · have hn : n = 0 := by simpa using hc1
        subst hn
        obtain ⟨f1, hs1, hv1⟩ := fields_store_valid fields 0 ⟨elt, offset⟩ hv (by omega)
        obtain ⟨f2, hs2, hv2⟩ := fields_store_valid f1 (0 + 1)
          ⟨elt, offset + (GET_MODE_SIZE (TYPE_MODE elt) : Int)⟩ hv1 (by omega)
        simp only [zero_add] at hs2
        simp only [hs1, hs2, Option.some_bind, Option.some.injEq] at h
        rw [← h]
        exact Or.inr ⟨by omega, hv2⟩
      · simp only [Option.some.injEq] at h
        exact Or.inl (by rw [← h])
  | .other_type code common, fields, n, offset, r, hv, h => by
      simp only [loongarch_flatten_aggregate_field, Option.bind_eq_bind, Option.pure_def] at h
      split_ifs at h with hc
      · have hn : n < 2 := by
          simp only [Bool.and_eq_true, decide_eq_true_eq] at hc
          exact hc.1
        obtain ⟨f1, hs1, hv1⟩ := fields_store_valid fields n ⟨.other_type code common, offset⟩
          hv hn
        simp only [hs1, Option.some_bind, Option.some.injEq] at h
        rw [← h]
        exact Or.inr ⟨by omega, hv1⟩
      · simp only [Option.some.injEq] at h
        exact Or.inl (by rw [← h])
theorem flatten_record_valid (cfg : target) (abi : abi) :
    ∀ (chain : field_chain) (fields : fields_array) (n offset : Int) (r : Int × fields_array),
      fields_valid n fields = true →
      flatten_record_fields cfg abi chain fields n offset = some r →
      r.1 = -1 ∨ (n ≤ r.1 ∧ fields_valid r.1 r.2 = true)
  | .null, fields, n, offset, r, hv, h => by
      simp only [flatten_record_fields, Option.some.injEq] at h
      rw [← h]
      exact Or.inr ⟨le_refl _, hv⟩
  | .other_decl next, fields, n, offset, r, hv, h => by
      simp only [flatten_record_fields] at h
      exact flatten_record_valid cfg abi next fields n offset r hv h
  | .FIELD_DECL_no_type next, fields, n, offset, r, hv, h => by
      simp only [flatten_record_fields, Option.some.injEq] at h
      exact Or.inl (by rw [← h])
  | .FIELD_DECL type size position next, fields, n, offset, r, hv, h => by
      simp only [flatten_record_fields, Option.bind_eq_bind] at h
      split_ifs at h with hc
      · exact flatten_record_valid cfg abi next fields n offset r hv h
      · cases hq : loongarch_flatten_aggregate_field cfg abi type fields n (offset + position) with
        | none => simp [hq] at h
        | some q =>
            simp only [hq, Option.some_bind] at h
            have ihq := flatten_field_valid cfg abi type fields n (offset + position) q hv hq
            split_ifs at h with hneg
            · simp only [Option.some.injEq] at h
              exact Or.inl (by rw [← h])
            · rcases ihq with ihq | ⟨ih1, ih2⟩
              · omega
              · rcases flatten_record_valid cfg abi next q.2 q.1 offset r ih2 h with g | ⟨g1, g2⟩
                · exact Or.inl g
                · exact Or.inr ⟨by omega, g2⟩
end

theorem flatten_argument_valid (cfg : target) (abi : abi) (type : Option tree)
    (fields : fields_array) (r : Int × fields_array)
    (h : loongarch_flatten_aggregate_argument cfg abi type fields = some r) :
    r.1 = -1 ∨ (0 ≤ r.1 ∧ fields_valid r.1 r.2 = true) := by
  unfold loongarch_flatten_aggregate_argument at h
  cases type with
  | none =>
      simp only [Option.some.injEq] at h
      exact Or.inl (by rw [← h])
  | some t =>
      cases t with
      | RECORD_TYPE common chain =>
          exact flatten_field_valid cfg abi (.RECORD_TYPE common chain) fields 0 0 r
            (by simp [fields_valid]) h
      | _ =>
          simp only [Option.some.injEq] at h
          exact Or.inl (by rw [← h])

theorem aggregate_num_fpr_loop_returns (fields : fields_array) (m : Int)
    (hv : fields_valid m fields = true) :
    ∀ count i : Nat, (i : Int) + count ≤ m →
      ∃ b, aggregate_num_fpr_loop fields count i = some b := by
  intro count
  induction count with
  | zero => intro i _; exact ⟨true, rfl⟩
  | succ c ih =>
      intro i hi
      obtain ⟨f, hf⟩ := fields_read_valid fields m i hv (by push_cast at hi; omega)
      obtain ⟨b, hb⟩ := ih (i + 1) (by push_cast at hi ⊢; omega)
      unfold aggregate_num_fpr_loop
      simp only [hf, Option.bind_eq_bind, Option.some_bind]
      split_ifs
      · exact ⟨false, rfl⟩
      · exact ⟨b, hb⟩

theorem aggregate_fpr_and_gpr_loop_returns (fields : fields_array) (m : Int)
    (hv : fields_valid m fields = true) :
    ∀ count i num_int num_float : Nat, (i : Int) + count ≤ m →
      ∃ c, aggregate_fpr_and_gpr_loop fields count i num_int num_float = some c
        ∧ c.1 + c.2 ≤ num_int + num_float + count := by
  intro count
  induction count with
  | zero => intro i a b _; exact ⟨(a, b), rfl, le_refl _⟩
  | succ c ih =>
      intro i a b hi
      obtain ⟨f, hf⟩ := fields_read_valid fields m i hv (by push_cast at hi; omega)
      obtain ⟨q, hq, hle⟩ := ih (i + 1) (a + (if INTEGRAL_TYPE_P f.type then 1 else 0))
        (b + (if SCALAR_FLOAT_TYPE_P f.type then 1 else 0)) (by push_cast at hi ⊢; omega)
      refine ⟨q, ?_, ?_⟩
      · unfold aggregate_fpr_and_gpr_loop
        simp only [hf, Option.bind_eq_bind, Option.some_bind]
        exact hq
      · have hex : (if INTEGRAL_TYPE_P f.type then 1 else 0)
            + (if SCALAR_FLOAT_TYPE_P f.type then 1 else 0) ≤ 1 := by
          cases hft : f.type with
          | other_type code common => cases code <;> simp [INTEGRAL_TYPE_P, SCALAR_FLOAT_TYPE_P]
          | _ => simp [INTEGRAL_TYPE_P, SCALAR_FLOAT_TYPE_P]
        omega

theorem pass_aggregate_num_fpr_returns (cfg : target) (abi : abi) (type : Option tree)
    (fields : fields_array)
    (hfl : ∃ r, loongarch_flatten_aggregate_argument cfg abi type fields = some r) :
    ∃ q, loongarch_pass_aggregate_num_fpr cfg abi type fields = some q
      ∧ (q.1 = 0 ∨ ((q.1 = 1 ∨ q.1 = 2) ∧ fields_valid q.1 q.2 = true)) := by
  obtain ⟨r, hr⟩ := hfl
  unfold loongarch_pass_aggregate_num_fpr
  simp only [hr, Option.bind_eq_bind, Option.some_bind, Option.pure_def]
  rcases flatten_argument_valid cfg abi type fields r hr with hneg | ⟨h0, hv⟩
  · have ht : r.1.toNat = 0 := by rw [hneg]; rfl
    rw [ht]
    simp only [aggregate_num_fpr_loop, Option.some_bind]
    refine ⟨_, rfl, Or.inl ?_⟩
    simp [hneg]
  · obtain ⟨b, hb⟩ := aggregate_num_fpr_loop_returns r.2 r.1 hv r.1.toNat 0 (by omega)
    simp only [hb, Option.some_bind]
    cases b with
    | false => exact ⟨_, rfl, Or.inl rfl⟩
    | true =>
        refine ⟨_, rfl, ?_⟩
        simp only [Bool.not_true, Bool.false_eq_true, if_false]
        have hv2 := (fields_valid_iff r.1 r.2).mp hv
        by_cases hp : r.1 > 0
        · simp only [hp, if_true]
          right
          have hcast : ((r.1.toNat : Nat) : Int) = r.1 := Int.toNat_of_nonneg h0
          refine ⟨by omega, ?_⟩
          rw [hcast]
          exact hv
        · simp only [hp, if_false]
          exact Or.inl trivial

theorem pass_aggregate_in_fpr_and_gpr_returns (cfg : target) (abi : abi) (type : Option tree)
    (fields : fields_array)
    (hfl : ∃ r, loongarch_flatten_aggregate_argument cfg abi type fields = some r) :
    ∃ q, loongarch_pass_aggregate_in_fpr_and_gpr_p cfg abi type fields = some q
      ∧ (q.1 = true → fields_valid 2 q.2 = true) := by
  obtain ⟨r, hr⟩ := hfl
  unfold loongarch_pass_aggregate_in_fpr_and_gpr_p
  simp only [hr, Option.bind_eq_bind, Option.some_bind, Option.pure_def]
  rcases flatten_argument_valid cfg abi type fields r hr with hneg | ⟨h0, hv⟩
  · have ht : r.1.toNat = 0 := by rw [hneg]; rfl
    rw [ht]
    simp only [aggregate_fpr_and_gpr_loop, Option.some_bind]
    exact ⟨_, rfl, by simp⟩
  · obtain ⟨c, hc, hle⟩ := aggregate_fpr_and_gpr_loop_returns r.2 r.1 hv r.1.toNat 0 0 0
      (by omega)
    simp only [hc, Option.some_bind]
    refine ⟨_, rfl, ?_⟩
    intro hb
    simp only [Bool.and_eq_true, decide_eq_true_eq] at hb
    have hv2 := (fields_valid_iff r.1 r.2).mp hv
    have h2 : r.1 = 2 := by omega
    simp only
    rw [← h2]
    exact hv

theorem get_arg_info_returns (cfg : target) (abi : abi) (cum : CUMULATIVE_ARGS)
    (mode : machine_mode) (type : Option tree) (named return_p : Bool)
    (hfl : ∀ fields, ∃ r, loongarch_flatten_aggregate_argument cfg abi type fields = some r) :
    ∃ r, loongarch_get_arg_info cfg abi cum mode type named return_p = some r := by
  unfold loongarch_get_arg_info
  cases named with
  | false => exact ⟨_, rfl⟩
  | true =>
      simp only [if_true, Option.bind_eq_bind, Option.pure_def]
      obtain ⟨q, hq, hk⟩ := pass_aggregate_num_fpr_returns cfg abi type fields_uninitialized
        (hfl _)
      simp only [hq, Option.some_bind]
      by_cases hc1 : (decide (q.1 ≠ 0)
          && decide ((cum.num_fprs + q.1) % 2 ^ 32 ≤ MAX_ARGS_IN_REGISTERS)) = true
      · simp only [hc1, if_true]
        have hne : q.1 ≠ 0 := by
          simp only [Bool.and_eq_true, decide_eq_true_eq] at hc1
          exact hc1.1
        rcases hk with hk | ⟨hk, hv⟩
        · exact absurd hk hne
        · rcases hk with hk | hk
          · obtain ⟨f0, hf0⟩ := fields_read_valid q.2 q.1 0 hv (by rw [hk]; norm_num)
            simp only [hk, if_true, hf0, Option.some_bind]
            exact ⟨_, rfl⟩
          · obtain ⟨f0, hf0⟩ := fields_read_valid q.2 q.1 0 hv (by rw [hk]; norm_num)
            obtain ⟨f1, hf1⟩ := fields_read_valid q.2 q.1 1 hv (by rw [hk]; norm_num)
            simp only [hk, hf0, hf1, Option.some_bind]
            exact ⟨_, rfl⟩
      · simp only [hc1, if_false, Bool.false_eq_true]
        by_cases hc2 : (decide (loongarch_pass_mode_in_fpr_p abi mode ≠ 0)
            && decide ((cum.num_fprs + loongarch_pass_mode_in_fpr_p abi mode) % 2 ^ 32
                ≤ MAX_ARGS_IN_REGISTERS)) = true
        · simp only [hc2, if_true]
          have hne : loongarch_pass_mode_in_fpr_p abi mode ≠ 0 := by
            simp only [Bool.and_eq_true, decide_eq_true_eq] at hc2
            exact hc2.1
          unfold loongarch_pass_mode_in_fpr_p at hne
          by_cases hfl1 : GET_MODE_CLASS mode = .MODE_FLOAT
          · simp only [hfl1]
            exact ⟨_, rfl⟩
          · by_cases hfl2 : GET_MODE_CLASS mode = .MODE_COMPLEX_FLOAT
            · simp only [hfl2]
              exact ⟨_, rfl⟩
            · simp [hfl1, hfl2] at hne
        · simp only [hc2, if_false, Bool.false_eq_true]
          obtain ⟨p, hp, hpv⟩ := pass_aggregate_in_fpr_and_gpr_returns cfg abi type q.2 (hfl _)
          simp only [hp, Option.some_bind]
          by_cases hc3 : (p.1 && decide (cum.num_gprs < MAX_ARGS_IN_REGISTERS)
              && decide (cum.num_fprs < MAX_ARGS_IN_REGISTERS)) = true
          · have hc3b := hc3
            simp only [Bool.and_eq_true] at hc3b
            have hv := hpv hc3b.1.1
            obtain ⟨f0, hf0⟩ := fields_read_valid p.2 2 0 hv (by norm_num)
            obtain ⟨f1, hf1⟩ := fields_read_valid p.2 2 1 hv (by norm_num)
            simp only [hc3, if_true, hf0, hf1, Option.some_bind]
            exact ⟨_, rfl⟩
          · simp only [hc3, if_false, Bool.false_eq_true]
            exact ⟨_, rfl⟩

theorem arg_num_words_lt (cfg : target) (mode : machine_mode) (type : Option tree) :
    arg_num_words cfg mode type < 2 ^ 32 := by
  unfold arg_num_words
  have h1 : (arg_num_bytes mode type + UNITS_PER_WORD cfg - 1) % 2 ^ 32 < 2 ^ 32 :=
    Nat.mod_lt _ (by norm_num)
  exact lt_of_le_of_lt (Nat.div_le_self _ _) h1

theorem get_arg_info_budget (cfg : target) (abi : abi) (cum : CUMULATIVE_ARGS)
    (mode : machine_mode) (type : Option tree) (named return_p : Bool)
    (info : loongarch_arg_info) (x : rtx)
    (hg : cum.num_gprs ≤ 8) (hf : cum.num_fprs ≤ 8)
    (h : loongarch_get_arg_info cfg abi cum mode type named return_p = some (info, x)) :
    info.gpr_offset + info.num_gprs ≤ 8 ∧ info.fpr_offset + info.num_fprs ≤ 8 := by
  rcases get_arg_info_cases cfg abi cum mode type named return_p info x h with
    ⟨-, k, hk, hfit, rfl⟩ | ⟨-, h1, h2, rfl⟩ | ⟨f, base, rfl⟩
  · simp only [MAX_ARGS_IN_REGISTERS] at hfit
    simp only
    rcases hk with hk | hk <;> subst hk <;> omega
  · simp only [MAX_ARGS_IN_REGISTERS] at h1 h2
    simp only
    omega
  · obtain ⟨g, hg1, -, hinfo⟩ := get_arg_info_gprs_info cfg abi
      ⟨false, 0, cum.num_gprs, f, cum.num_fprs⟩ mode type named return_p base
    rw [hinfo]
    simp only [MAX_ARGS_IN_REGISTERS] at hg1 ⊢
    have hg8 : g ≤ 8 := by
      rcases hg1 with hg1 | ⟨-, -, -, hg1⟩
      · rw [hg1]; exact hg
      · rw [hg1]; omega
    have hm : (8 + 2 ^ 32 - g) % 2 ^ 32 = 8 - g := by omega
    rw [hm]
    refine ⟨?_, by simpa using hf⟩
    have := Nat.min_le_right (arg_num_words cfg mode type) (8 - g)
    omega

theorem advance_all_budget (cfg : target) (abi : abi) (args : List function_arg_info) :
    ∀ cum0 cum : CUMULATIVE_ARGS, cum0.num_gprs ≤ 8 → cum0.num_fprs ≤ 8 →
      advance_all cfg abi cum0 args = some cum → cum.num_gprs ≤ 8 ∧ cum.num_fprs ≤ 8 := by
  induction args with
  | nil =>
      intro cum0 cum hg hf h
      simp only [advance_all, Option.some.injEq] at h
      subst h
      exact ⟨hg, hf⟩
  | cons arg args ih =>
      intro cum0 cum hg hf h
      simp only [advance_all, Option.bind_eq_bind] at h
      cases h1 : loongarch_function_arg_advance cfg abi cum0 arg with
      | none => simp [h1] at h
      | some cum1 =>
          simp only [h1, Option.some_bind] at h
          unfold loongarch_function_arg_advance at h1
          cases h2 : loongarch_get_arg_info cfg abi cum0 arg.mode arg.type arg.named false with
          | none => simp [h2] at h1
          | some r =>
              obtain ⟨info, x⟩ := r
              simp only [h2, Option.bind_eq_bind, Option.some_bind, Option.pure_def,
                Option.some.injEq] at h1
              have hb := get_arg_info_budget cfg abi cum0 arg.mode arg.type arg.named false
                info x hg hf h2
              apply ih cum1 cum _ _ h
              · rw [← h1]; simp only; omega
              · rw [← h1]; simp only; omega

theorem advance_all_returns (cfg : target) (abi : abi) (args : List function_arg_info) :
    ∀ cum0 : CUMULATIVE_ARGS,
      (∀ arg ∈ args, ∀ fields,
        ∃ r, loongarch_flatten_aggregate_argument cfg abi arg.type fields = some r) →
      ∃ cum, advance_all cfg abi cum0 args = some cum := by
  induction args with
  | nil => intro cum0 _; exact ⟨cum0, rfl⟩
  | cons arg args ih =>
      intro cum0 hfl
      obtain ⟨r, hr⟩ := get_arg_info_returns cfg abi cum0 arg.mode arg.type arg.named false
        (hfl arg (List.mem_cons_self _ _))
      obtain ⟨cum, hcum⟩ := ih
        ⟨(r.1.gpr_offset + r.1.num_gprs) % 2 ^ 32, (r.1.fpr_offset + r.1.num_fprs) % 2 ^ 32⟩
        (fun a ha => hfl a (List.mem_cons_of_mem _ ha))
      refine ⟨cum, ?_⟩
      simp only [advance_all, loongarch_function_arg_advance, hr, Option.bind_eq_bind,
        Option.some_bind, Option.pure_def]
      exact hcum

/-- C17: the argument counters stay within the budget of 8 registers.  For
every sequence of arguments that `loongarch_function_arg_advance` processes
from the zeroed cumulative state, the state reached has `num_gprs ≤ 8` and
`num_fprs ≤ 8`, and every record that `loongarch_get_arg_info` then fills for
a further argument has `gpr_offset + num_gprs ≤ 8` and
`fpr_offset + num_fprs ≤ 8`.  The sequence is processed to its end whenever
the flattening of the argument types does not abort. -/
theorem arg_counters_within_budget (cfg : target) (abi : abi)
    (args : List function_arg_info) :
    (∀ cum, advance_all cfg abi ⟨0, 0⟩ args = some cum →
      cum.num_gprs ≤ 8 ∧ cum.num_fprs ≤ 8
        ∧ ∀ mode type named return_p info x,
            loongarch_get_arg_info cfg abi cum mode type named return_p = some (info, x) →
            info.gpr_offset + info.num_gprs ≤ 8 ∧ info.fpr_offset + info.num_fprs ≤ 8)
    ∧ ((∀ arg ∈ args, ∀ fields,
          ∃ r, loongarch_flatten_aggregate_argument cfg abi arg.type fields = some r) →
        ∃ cum, advance_all cfg abi ⟨0, 0⟩ args = some cum) := by
  refine ⟨fun cum h => ?_, advance_all_returns cfg abi args ⟨0, 0⟩⟩
  have hb := advance_all_budget cfg abi args ⟨0, 0⟩ cum (by simp) (by simp) h
  exact ⟨hb.1, hb.2, fun mode type named return_p info x hi =>
    get_arg_info_budget cfg abi cum mode type named return_p info x hb.1 hb.2 hi⟩

/-- Witness of C17: seven named `long` arguments followed by a named
`struct { long a; long b; }` fill the eight general registers. -/
theorem arg_counters_within_budget_witness :
    (CUMULATIVE_ARGS.mk 8 0).num_gprs ≤ 8 ∧ (CUMULATIVE_ARGS.mk 8 0).num_fprs ≤ 8
      ∧ ∀ mode type named return_p info x,
          loongarch_get_arg_info example_target example_abi ⟨8, 0⟩ mode type named return_p
            = some (info, x) →
          info.gpr_offset + info.num_gprs ≤ 8 ∧ info.fpr_offset + info.num_fprs ≤ 8 :=
  (arg_counters_within_budget example_target example_abi
    (List.replicate 7 ⟨some example_long, E_DImode, true⟩
      ++ [⟨some example_two_longs, TImode, true⟩])).1 ⟨8, 0⟩ (by decide)

/-- C18, counterexample: with seven general registers taken, the 16-byte
`struct { long a; long b; }` is marked `stack_p` and still gets one general
register: its first word goes in `$r11`, its second on the stack, and
`loongarch_arg_partial_bytes` is 8. -/
theorem arg_split_between_gpr_and_stack :
    (loongarch_get_arg_info example_target example_abi ⟨7, 0⟩ TImode
        (some example_two_longs) true false).map (fun r => r.1)
      = some ⟨true, 1, 7, 0, 0⟩
    ∧ loongarch_arg_partial_bytes example_target example_abi ⟨7, 0⟩
        ⟨some example_two_longs, TImode, true⟩ = some 8 := by
  decide

/-- C18, amended: for every argument and every cumulative state with at most
8 general registers counted, if `loongarch_get_arg_info` marks the argument
`stack_p` then `num_fprs = 0` and `num_gprs = 8 - gpr_offset`, which is less
than the number of words of the argument: the first `num_gprs` words are in
general registers and only the other words on the stack.  So
`loongarch_arg_partial_bytes` is `num_gprs * UNITS_PER_WORD` when `stack_p`
holds, and 0 otherwise. -/
theorem stack_p_registers (cfg : target) (abi : abi) (cum : CUMULATIVE_ARGS)
    (arg : function_arg_info) (info : loongarch_arg_info) (x : rtx)
    (hg : cum.num_gprs ≤ 8)
    (h : loongarch_get_arg_info cfg abi cum arg.mode arg.type arg.named false
      = some (info, x)) :
    (info.stack_p = true →
      info.num_fprs = 0 ∧ info.gpr_offset ≤ 8 ∧ info.num_gprs = 8 - info.gpr_offset
        ∧ info.num_gprs < arg_num_words cfg arg.mode arg.type)
    ∧ loongarch_arg_partial_bytes cfg abi cum arg
        = some (if info.stack_p = true then info.num_gprs * UNITS_PER_WORD cfg else 0)
    ∧ (info.stack_p = false → loongarch_arg_partial_bytes cfg abi cum arg = some 0) := by
  have hp : loongarch_arg_partial_bytes cfg abi cum arg
      = some (if info.stack_p = true then info.num_gprs * UNITS_PER_WORD cfg else 0) := by
    simp [loongarch_arg_partial_bytes, h]
  refine ⟨?_, hp, fun hs => by rw [hp]; simp [hs]⟩
  intro hs
  rcases get_arg_info_cases cfg abi cum arg.mode arg.type arg.named false info x h with
    ⟨-, k, -, -, rfl⟩ | ⟨-, -, -, rfl⟩ | ⟨f, base, rfl⟩
  · simp at hs
  · simp at hs
  · obtain ⟨g, hg1, -, hinfo⟩ := get_arg_info_gprs_info cfg abi
      ⟨false, 0, cum.num_gprs, f, cum.num_fprs⟩ arg.mode arg.type arg.named false base
    rw [hinfo] at hs ⊢
    simp only [MAX_ARGS_IN_REGISTERS] at hg1 hs ⊢
    have hg8 : g ≤ 8 := by
      rcases hg1 with hg1 | ⟨-, -, -, hg1⟩
      · rw [hg1]; exact hg
      · rw [hg1]; omega
    have hm : (8 + 2 ^ 32 - g) % 2 ^ 32 = 8 - g := by omega
    have hw := arg_num_words_lt cfg arg.mode arg.type
    simp only [hm, decide_eq_true_eq] at hs ⊢
    by_cases hle : arg_num_words cfg arg.mode arg.type ≤ 8 - g
    · simp only [min_eq_left hle] at hs
      omega
    · have hle2 : 8 - g ≤ arg_num_words cfg arg.mode arg.type := by omega
      simp only [min_eq_right hle2]
      exact ⟨trivial, hg8, trivial, by omega⟩

/-- Witness of C18 (amended): the 16-byte record with seven general registers
taken. -/
theorem stack_p_registers_witness :
    loongarch_arg_partial_bytes example_target example_abi ⟨7, 0⟩
        ⟨some example_two_longs, TImode, true⟩
      = some (if (true : Bool) = true then 1 * UNITS_PER_WORD example_target else 0) :=
  (stack_p_registers example_target example_abi ⟨7, 0⟩ ⟨some example_two_longs, TImode, true⟩
    ⟨true, 1, 7, 0, 0⟩ (.REG TImode 11) (by decide) rfl).2.1

/-- C19: passing by reference.  On a 64-bit target, where two general
registers hold 16 bytes, whenever `loongarch_get_arg_info` returns for the
argument, `loongarch_pass_by_reference` returns true exactly when the argument
got no floating-point register (`num_fprs = 0`) and its size in bytes lies
outside [0, 16].  And `loongarch_return_in_memory (type)` is
`loongarch_pass_by_reference` on `type` as a named argument, in the mode of
the type, with the zeroed cumulative state. -/
theorem pass_by_reference_iff (cfg : target) (abi : abi) (cum : CUMULATIVE_ARGS)
    (arg : function_arg_info) (info : loongarch_arg_info) (x : rtx) (type : tree)
    (h64 : cfg.TARGET_64BIT = true)
    (h : loongarch_get_arg_info cfg abi cum arg.mode arg.type arg.named false
      = some (info, x)) :
    (∃ b, loongarch_pass_by_reference cfg abi (some cum) arg = some b
      ∧ (b = true ↔ info.num_fprs = 0
          ∧ ¬ (0 ≤ arg.type_size_in_bytes ∧ arg.type_size_in_bytes ≤ 16)))
    ∧ loongarch_return_in_memory cfg abi type
        = loongarch_pass_by_reference cfg abi (some ⟨0, 0⟩) ⟨some type, TYPE_MODE type, true⟩ := by
  refine ⟨?_, rfl⟩
  have hw : UNITS_PER_WORD cfg = 8 := by simp [UNITS_PER_WORD, h64]
  unfold loongarch_pass_by_reference
  simp only [h, Option.bind_eq_bind, Option.some_bind, Option.pure_def, IN_RANGE, hw]
  by_cases hf : info.num_fprs = 0
  · simp [hf]
    constructor
    · intro h1 h2
      omega
    · intro h1
      by_cases h0 : 0 ≤ arg.type_size_in_bytes
      · exact Or.inr (h1 h0)
      · exact Or.inl (by omega)
  · simp [hf]

/-- Witness of C19: the 24-byte record `struct { long a[3]; }` as first named
argument is passed by reference and returned in memory. -/
theorem pass_by_reference_iff_witness :
    (∃ b, loongarch_pass_by_reference example_target example_abi (some ⟨0, 0⟩)
        ⟨some example_three_longs, BLKmode, true⟩ = some b
      ∧ (b = true ↔ (0 : Nat) = 0
          ∧ ¬ (0 ≤ function_arg_info.type_size_in_bytes
                  ⟨some example_three_longs, BLKmode, true⟩
                ∧ function_arg_info.type_size_in_bytes
                  ⟨some example_three_longs, BLKmode, true⟩ ≤ 16)))
    ∧ loongarch_return_in_memory example_target example_abi example_three_longs
        = loongarch_pass_by_reference example_target example_abi (some ⟨0, 0⟩)
            ⟨some example_three_longs, TYPE_MODE example_three_longs, true⟩ :=
  pass_by_reference_iff example_target example_abi ⟨0, 0⟩
    ⟨some example_three_longs, BLKmode, true⟩ ⟨false, 3, 0, 0, 0⟩ (.REG BLKmode 4)
    example_three_longs rfl rfl

/-- C20: the even-register rule for variadic arguments.  On a 64-bit target,
with the incoming count `cum.num_gprs` below `2 ^ 32 - 1`, whenever
`loongarch_get_arg_info` returns: for an unnamed argument of non-zero size
`num_bytes` whose alignment (the boundary of
`loongarch_function_arg_boundary`) exceeds 64 bits, `gpr_offset` is the
incoming count rounded up to the next even number, so it is even; for every
other argument `gpr_offset` is the incoming count. -/
theorem unnamed_aligned_gpr_offset (cfg : target) (abi : abi) (cum : CUMULATIVE_ARGS)
    (mode : machine_mode) (type : Option tree) (named return_p : Bool)
    (info : loongarch_arg_info) (x : rtx)
    (h64 : cfg.TARGET_64BIT = true) (hcum : cum.num_gprs < 2 ^ 32 - 1)
    (h : loongarch_get_arg_info cfg abi cum mode type named return_p = some (info, x)) :
    (named = false ∧ arg_num_bytes mode type ≠ 0
        ∧ loongarch_function_arg_boundary cfg abi mode type > 64 →
      info.gpr_offset = cum.num_gprs + cum.num_gprs % 2 ∧ info.gpr_offset % 2 = 0)
    ∧ (¬ (named = false ∧ arg_num_bytes mode type ≠ 0
        ∧ loongarch_function_arg_boundary cfg abi mode type > 64) →
      info.gpr_offset = cum.num_gprs) := by
  have hw : BITS_PER_WORD cfg = 64 := by simp [BITS_PER_WORD, UNITS_PER_WORD, h64]
  rcases get_arg_info_cases cfg abi cum mode type named return_p info x h with
    ⟨hn, k, -, -, rfl⟩ | ⟨hn, -, -, rfl⟩ | ⟨f, base, rfl⟩
  · exact ⟨fun hc => by rw [hn] at hc; exact absurd hc.1 (by simp), fun _ => rfl⟩
  · exact ⟨fun hc => by rw [hn] at hc; exact absurd hc.1 (by simp), fun _ => rfl⟩
  · obtain ⟨g, hg1, hg2, hinfo⟩ := get_arg_info_gprs_info cfg abi
      ⟨false, 0, cum.num_gprs, f, cum.num_fprs⟩ mode type named return_p base
    rw [hinfo]
    rw [hw] at hg1 hg2
    simp only at hg1 hg2 ⊢
    constructor
    · intro hc
      have := hg2 hc
      omega
    · intro hc
      rcases hg1 with hg1 | ⟨a, b, c, -⟩
      · exact hg1
      · exact absurd ⟨a, b, c⟩ hc

/-- Witness of C20: an unnamed `__int128` with three general registers taken
starts at the even register offset 4. -/
theorem unnamed_aligned_gpr_offset_witness :
    (loongarch_get_arg_info example_target example_abi ⟨3, 0⟩ TImode (some example_int128)
        false false).map (fun r => r.1) = some ⟨false, 2, 4, 0, 0⟩
    ∧ (loongarch_arg_info.mk false 2 4 0 0).gpr_offset
        = (CUMULATIVE_ARGS.mk 3 0).num_gprs + (CUMULATIVE_ARGS.mk 3 0).num_gprs % 2
    ∧ (loongarch_arg_info.mk false 2 4 0 0).gpr_offset % 2 = 0 :=
  ⟨by decide,
   (unnamed_aligned_gpr_offset example_target example_abi ⟨3, 0⟩ TImode (some example_int128)
      false false ⟨false, 2, 4, 0, 0⟩ (.REG TImode 8) rfl (by decide) rfl).1
      ⟨rfl, by decide, by decide⟩⟩

/-! ## Immediate ranges: the claim -/

theorem to_signed_dvd (x k : Nat) (hk : k ≤ 64) :
    ((2 : Int) ^ k ∣ to_signed x) ↔ (2 ^ k ∣ x) := by
  have h64 : (2 : Int) ^ k ∣ 2 ^ 64 := pow_dvd_pow 2 hk
  have hc : ((2 ^ k : Nat) : Int) = (2 : Int) ^ k := by push_cast; rfl
  unfold to_signed
  split_ifs
  · rw [← hc]; exact Int.natCast_dvd_natCast
  · rw [dvd_sub_left h64, ← hc]; exact Int.natCast_dvd_natCast

/-- C30: the immediate tests.  For every 64-bit pattern `x`, every `bits ≥ 1`
and every `shift` with `bits + shift ≤ 31`:
`loongarch_signed_immediate_p (x, bits, shift)` is true exactly when `x`, read
as a signed 64-bit number, is a multiple of `2 ^ shift` and lies in
`[-2 ^ (bits + shift - 1), 2 ^ (bits + shift - 1))`; and
`loongarch_unsigned_immediate_p (x, bits, shift)` is true exactly when `x` is a
multiple of `2 ^ shift` and `x < 2 ^ (bits + shift)`. -/
theorem immediate_p_iff (x bits shift : Nat) (hx : x < 2 ^ 64) (hb : 1 ≤ bits)
    (hbs : bits + shift ≤ 31) :
    (loongarch_signed_immediate_p x bits shift = true
      ↔ to_signed x % (2 : Int) ^ shift = 0
        ∧ -(2 : Int) ^ (bits + shift - 1) ≤ to_signed x
        ∧ to_signed x < (2 : Int) ^ (bits + shift - 1))
    ∧ (loongarch_unsigned_immediate_p x bits shift = true
      ↔ x % 2 ^ shift = 0 ∧ x < 2 ^ (bits + shift)) := by
  constructor
  · rw [signed_immediate_p_unfold]
    simp only [Bool.and_eq_true, decide_eq_true_eq]
    have hS64 : 2 ^ shift ∣ 2 ^ 64 := pow_dvd_pow 2 (by omega)
    have hSP : 2 ^ shift ∣ 2 ^ (bits + shift - 1) := pow_dvd_pow 2 (by omega)
    have hmod : (x + 2 ^ (bits + shift - 1)) % 2 ^ 64 % 2 ^ shift = x % 2 ^ shift := by
      rw [Nat.mod_mod_of_dvd _ hS64]
      obtain ⟨q, hq⟩ := hSP
      rw [hq, Nat.add_mul_mod_self_left]
    have hdiv : to_signed x % (2 : Int) ^ shift = 0 ↔ x % 2 ^ shift = 0 := by
      rw [← Int.dvd_iff_emod_eq_zero, ← Nat.dvd_iff_mod_eq_zero]
      exact to_signed_dvd x shift (by omega)
    have hP30 : 2 ^ (bits + shift - 1) ≤ 2 ^ 30 := Nat.pow_le_pow_right (by norm_num) (by omega)
    have hP2 : 2 ^ (shift + bits) = 2 * 2 ^ (bits + shift - 1) := by
      have : shift + bits = (bits + shift - 1) + 1 := by omega
      rw [this, pow_succ]
      omega
    have hc : ((2 ^ (bits + shift - 1) : Nat) : Int) = (2 : Int) ^ (bits + shift - 1) := by
      push_cast; rfl
    rw [hmod, hdiv, hP2, ← hc]
    generalize 2 ^ (bits + shift - 1) = P at hP30 ⊢
    simp only [Nat.reducePow] at hP30 hx ⊢
    unfold to_signed
    split_ifs with h63 <;> simp only [Nat.reducePow] at h63 <;> constructor <;>
      (intro h; refine ⟨h.1, ?_⟩; omega)
  · unfold loongarch_unsigned_immediate_p
    simp only [Nat.one_shiftLeft, Nat.and_pow_two_sub_one_eq_mod, Bool.and_eq_true,
      decide_eq_true_eq]
    rw [Nat.add_comm shift bits]

/-- Witness of C30: the pattern of -512 passes the signed 10-bit test without
shift, and 1024 passes the unsigned 10-bit test shifted by 2 exactly because
it is a multiple of 4 below 4096. -/
theorem immediate_p_iff_witness :
    loongarch_signed_immediate_p (2 ^ 64 - 512) 10 0 = true
    ∧ (loongarch_unsigned_immediate_p 1024 10 2 = true
        ↔ 1024 % 2 ^ 2 = 0 ∧ 1024 < 2 ^ (10 + 2)) :=
  ⟨(immediate_p_iff (2 ^ 64 - 512) 10 0 (by decide) (by decide) (by decide)).1.2
      (by decide),
   (immediate_p_iff 1024 10 2 (by decide) (by decide) (by decide)).2⟩

/-! ## Constant synthesis: the running values -/

/-- C25: the recorded running values.  On a 64-bit target, for every 64-bit
value `v`, `loongarch_build_integer` returns a count `n` and an array such
that for every step index `i < n` the field `codes[i].curr_value` is the value
obtained by replaying the steps 0 to `i` the way `loongarch_move_integer`
does; and `curr_value` of the last step is `v`. -/
theorem build_integer_curr_value (codes : codes_array) (v : Nat) (hv : v < 2 ^ 64) :
    ∃ codes1 n, loongarch_build_integer true codes v = some (codes1, n)
      ∧ 1 ≤ n
      ∧ (∀ i, i < n → replay_codes true codes1 (i + 1) = some (codes1 i).curr_value)
      ∧ (codes1 (n - 1)).curr_value = v := by
  have hlp := int32_cast_eq v
  have hdec := hwi_fields v hv
  have o12 := fun a b => mul_or_mod a b 12
  have o32 := fun x => or_lu32i x (v / 2 ^ 32 % 2 ^ 20) (v / 2 ^ 51 % 2)
  have o52 := fun a b => or_mod_mul a b 52
  simp only [Nat.reducePow, Nat.reduceSub] at o12 o32 o52 hlp hv hdec
  have hb : loongarch_build_integer true codes v
      = (build_integer_low codes (int32_cast v)).bind
          (fun p => build_integer_high p.1 p.2 v) := rfl
  rw [hb]
  have hlt : int32_cast v < 18446744073709551616 := by omega
  rcases build_low_cases codes (int32_cast v) with ⟨h, -⟩ | ⟨h, -, h0⟩ | ⟨h, -, -⟩ <;> rw [h]
  · rcases build_high_cases (Function.update codes 0
        ⟨.UNKNOWN, int32_cast v, int32_cast v, .METHOD_NORMAL⟩) 1 v (by omega)
      with ⟨g, hA, hB⟩ | ⟨g, hA, hB⟩ | ⟨g, hA, hB⟩ | ⟨g, hA, hB⟩ <;>
      simp only [Nat.reducePow, Nat.reduceSub] at hA hB g ⊢ <;>
      simp only [Option.some_bind, g] <;>
      refine ⟨_, _, rfl, by omega, ?_, ?_⟩ <;>
      first
        | (intro i hi
           interval_cases i <;>
             simp [replay_codes, move_integer_loop, move_integer_step, gcc_assert, eval_fmt_ee,
               and_low52, o32, o52] <;>
             omega)
        | (simp <;> omega)
  · simp only [Nat.reducePow] at h0
    have hx0 : int32_cast v / 4096 % 4503599627370496 * 4096 = int32_cast v := by omega
    rcases build_high_cases (Function.update codes 0
        ⟨.UNKNOWN, (int32_cast v / 2 ^ 12 % 2 ^ 52) * 2 ^ 12,
          (int32_cast v / 2 ^ 12 % 2 ^ 52) * 2 ^ 12, .METHOD_NORMAL⟩) 1 v (by omega)
      with ⟨g, hA, hB⟩ | ⟨g, hA, hB⟩ | ⟨g, hA, hB⟩ | ⟨g, hA, hB⟩ <;>
      simp only [Nat.reducePow, Nat.reduceSub, hx0] at hA hB g ⊢ <;>
      simp only [Option.some_bind, g] <;>
      refine ⟨_, _, rfl, by omega, ?_, ?_⟩ <;>
      first
        | (intro i hi
           interval_cases i <;>
             simp [replay_codes, move_integer_loop, move_integer_step, gcc_assert, eval_fmt_ee,
               and_low52, o32, o52, hx0] <;>
             omega)
        | (simp [hx0] <;> omega)
  · have hx1 : int32_cast v % 4096 + int32_cast v / 4096 % 4503599627370496 * 4096
        = int32_cast v := by omega
    rcases build_high_cases (Function.update (Function.update codes 0
        ⟨.UNKNOWN, (int32_cast v / 2 ^ 12 % 2 ^ 52) * 2 ^ 12,
          (int32_cast v / 2 ^ 12 % 2 ^ 52) * 2 ^ 12, .METHOD_NORMAL⟩) 1
          ⟨.IOR, int32_cast v % 2 ^ 12, int32_cast v, .METHOD_NORMAL⟩) 2 v (by omega)
      with ⟨g, hA, hB⟩ | ⟨g, hA, hB⟩ | ⟨g, hA, hB⟩ | ⟨g, hA, hB⟩ <;>
      simp only [Nat.reducePow, Nat.reduceSub] at hA hB g ⊢ <;>
      simp only [Option.some_bind, g] <;>
      refine ⟨_, _, rfl, by omega, ?_, ?_⟩ <;>
      first
        | (intro i hi
           interval_cases i <;>
             simp [replay_codes, move_integer_loop, move_integer_step, gcc_assert, eval_fmt_ee,
               and_low52, o12, o32, o52, hx1] <;>
             omega)
        | (simp [hx1] <;> omega)

/-- Witness of C25 at the value `0x123456789abcdef0`, which needs four steps. -/
theorem build_integer_curr_value_witness :
    ∃ codes1 n, loongarch_build_integer true (fun _ => ⟨.UNKNOWN, 0, 0, .METHOD_NORMAL⟩)
        0x123456789abcdef0 = some (codes1, n)
      ∧ 1 ≤ n
      ∧ (∀ i, i < n → replay_codes true codes1 (i + 1) = some (codes1 i).curr_value)
      ∧ (codes1 (n - 1)).curr_value = 0x123456789abcdef0 :=
  build_integer_curr_value _ _ (by decide)

/-! ## Vector accesses and wide moves: the code at the failing inputs -/

/-- C29, the code at the failing input: in the 256-bit mode `V4DImode` the
address `$r5 + 1` is accepted by the non-strict `loongarch_classify_address`
as `ADDRESS_REG` (the offset passes the unscaled 10-bit test of
`loongarch_valid_offset_p`), yet `loongarch_address_insns` with `might_split_p`
false returns 0, because it tests the offset with the scale of the 8-byte
units. -/
theorem address_insns_lasx_accepted_cost_zero :
    LASX_SUPPORTED_MODE_P example_target V4DImode = true
    ∧ (loongarch_classify_address example_target example_info
        (.PLUS E_DImode (.REG E_DImode 5) (.CONST_INT 1)) V4DImode false).map
          (fun r => (r.1, r.2.type)) = some (true, .ADDRESS_REG)
    ∧ loongarch_valid_offset_p example_target (.CONST_INT 1) V4DImode = some true
    ∧ loongarch_ldst_scaled_shift V4DImode = some 3
    ∧ loongarch_signed_immediate_p (to_unsigned 1) 10 3 = false
    ∧ loongarch_address_insns example_target example_info
        (.PLUS E_DImode (.REG E_DImode 5) (.CONST_INT 1)) V4DImode false = some 0 := by
  decide

theorem float_not_integral (t : tree) (h : SCALAR_FLOAT_TYPE_P t = true) :
    INTEGRAL_TYPE_P t = false := by
  cases t with
  | other_type code common => cases code <;> simp_all [INTEGRAL_TYPE_P, SCALAR_FLOAT_TYPE_P]
  | _ => simp [INTEGRAL_TYPE_P]

theorem integral_not_float (t : tree) (h : INTEGRAL_TYPE_P t = true) :
    SCALAR_FLOAT_TYPE_P t = false := by
  cases t with
  | other_type code common => cases code <;> simp_all [INTEGRAL_TYPE_P, SCALAR_FLOAT_TYPE_P]
  | _ => simp [SCALAR_FLOAT_TYPE_P]

/-- C21: one float register and one general register.  For a named argument
whose type flattens to exactly two fields, one floating-point and one integral
(in either order), whose mode is no float mode that goes in float registers,
and with a general and a float argument register still free,
`loongarch_get_arg_info` sets `num_fprs = 1` and `num_gprs = 1` and returns the
pair in which the floating-point field is in the float register
`fpr_base + fpr_offset` and the integral field in the general register
`gpr_base + gpr_offset`, each with the mode and the offset of its field, in
the order of the fields. -/
theorem get_arg_info_fpr_and_gpr (cfg : target) (abi : abi) (cum : CUMULATIVE_ARGS)
    (mode : machine_mode) (type : tree) (return_p : Bool)
    (f0 f1 : loongarch_aggregate_field)
    (hfl : ∀ fields, ∃ fs, loongarch_flatten_aggregate_argument cfg abi (some type) fields
        = some (2, fs) ∧ fs 0 = some f0 ∧ fs 1 = some f1)
    (hkinds : (SCALAR_FLOAT_TYPE_P f0.type = true ∧ INTEGRAL_TYPE_P f1.type = true)
      ∨ (INTEGRAL_TYPE_P f0.type = true ∧ SCALAR_FLOAT_TYPE_P f1.type = true))
    (hmode : loongarch_pass_mode_in_fpr_p abi mode = 0)
    (hg : cum.num_gprs < MAX_ARGS_IN_REGISTERS) (hf : cum.num_fprs < MAX_ARGS_IN_REGISTERS) :
    loongarch_get_arg_info cfg abi cum mode (some type) true return_p
      = some (⟨false, 1, cum.num_gprs, 1, cum.num_fprs⟩,
          .PARALLEL mode
            [.EXPR_LIST VOIDmode
                (.REG (TYPE_MODE f0.type)
                  (if SCALAR_FLOAT_TYPE_P f0.type = true then
                    ((if return_p = true then abi.FP_RETURN else abi.FP_ARG_FIRST)
                      + cum.num_fprs) % 2 ^ 32
                   else
                    ((if return_p = true then abi.GP_RETURN else abi.GP_ARG_FIRST)
                      + cum.num_gprs) % 2 ^ 32))
                (.CONST_INT f0.offset),
             .EXPR_LIST VOIDmode
                (.REG (TYPE_MODE f1.type)
                  (if SCALAR_FLOAT_TYPE_P f1.type = true then
                    ((if return_p = true then abi.FP_RETURN else abi.FP_ARG_FIRST)
                      + cum.num_fprs) % 2 ^ 32
                   else
                    ((if return_p = true then abi.GP_RETURN else abi.GP_ARG_FIRST)
                      + cum.num_gprs) % 2 ^ 32))
                (.CONST_INT f1.offset)]) := by
  obtain ⟨fs1, h1, h10, h11⟩ := hfl fields_uninitialized
  obtain ⟨fs2, h2, h20, h21⟩ := hfl fs1
  have hfloat : (SCALAR_FLOAT_TYPE_P f0.type && SCALAR_FLOAT_TYPE_P f1.type) = false := by
    rcases hkinds with ⟨-, hb⟩ | ⟨ha, -⟩
    · simp [integral_not_float _ hb]
    · simp [integral_not_float _ ha]
  have hnum : loongarch_pass_aggregate_num_fpr cfg abi (some type) fields_uninitialized
      = some (0, fs1) := by
    unfold loongarch_pass_aggregate_num_fpr
    simp only [h1, Option.bind_eq_bind, Option.some_bind, Option.pure_def]
    have ht : (2 : Int).toNat = 2 := rfl
    rw [ht]
    simp only [aggregate_num_fpr_loop, fields_read, h10, h11, Option.bind_eq_bind,
      Option.some_bind, Nat.lt_irrefl, Nat.zero_lt_two, Nat.one_lt_two, if_true, zero_add]
    rcases hkinds with ⟨ha, hb⟩ | ⟨ha, hb⟩
    · simp [ha, integral_not_float _ hb]
    · simp [integral_not_float _ ha]
  have hmix : loongarch_pass_aggregate_in_fpr_and_gpr_p cfg abi (some type) fs1
      = some (true, fs2) := by
    unfold loongarch_pass_aggregate_in_fpr_and_gpr_p
    simp only [h2, Option.bind_eq_bind, Option.some_bind, Option.pure_def]
    have ht : (2 : Int).toNat = 2 := rfl
    rw [ht]
    simp only [aggregate_fpr_and_gpr_loop, fields_read, h20, h21, Option.bind_eq_bind,
      Option.some_bind, Nat.zero_lt_two, Nat.one_lt_two, if_true, zero_add]
    rcases hkinds with ⟨ha, hb⟩ | ⟨ha, hb⟩
    · simp [ha, hb, integral_not_float _ hb, float_not_integral _ ha]
    · simp [ha, hb, integral_not_float _ ha, float_not_integral _ hb]
  unfold loongarch_get_arg_info
  simp only [if_true, Option.bind_eq_bind, Option.pure_def, hnum, Option.some_bind, hmode,
    ne_eq, not_true_eq_false, decide_False, Bool.false_and, Bool.false_eq_true, if_false,
    hmix, hg, hf, decide_True, Bool.and_self, fields_read, h20, h21, Nat.zero_lt_two,
    Nat.one_lt_two, loongarch_pass_fpr_pair]
  rcases hkinds with ⟨ha, hb⟩ | ⟨ha, hb⟩
  · simp [ha, integral_not_float _ hb]
  · simp [hb, integral_not_float _ ha]

/-- Witness of C21: `struct { double d; long l; }` and, with the fields in the
other order, `struct { long l; double d; }`, with three general and two float
registers taken: the `double` goes in `$f2` (number 34) and the `long` in
`$r7` both times. -/
theorem get_arg_info_fpr_and_gpr_witness :
    loongarch_get_arg_info example_target example_abi ⟨3, 2⟩ TImode (some example_double_long)
        true false
      = some (⟨false, 1, 3, 1, 2⟩,
          .PARALLEL TImode
            [.EXPR_LIST VOIDmode (.REG DFmode 34) (.CONST_INT 0),
             .EXPR_LIST VOIDmode (.REG E_DImode 7) (.CONST_INT 8)])
    ∧ loongarch_get_arg_info example_target example_abi ⟨3, 2⟩ TImode (some example_long_double)
        true false
      = some (⟨false, 1, 3, 1, 2⟩,
          .PARALLEL TImode
            [.EXPR_LIST VOIDmode (.REG E_DImode 7) (.CONST_INT 0),
             .EXPR_LIST VOIDmode (.REG DFmode 34) (.CONST_INT 8)]) :=
  ⟨get_arg_info_fpr_and_gpr example_target example_abi ⟨3, 2⟩ TImode example_double_long false
      ⟨example_double, 0⟩ ⟨example_long, 8⟩ (fun _ => ⟨_, rfl, rfl, rfl⟩)
      (Or.inl ⟨rfl, rfl⟩) rfl (by decide) (by decide),
   get_arg_info_fpr_and_gpr example_target example_abi ⟨3, 2⟩ TImode example_long_double false
      ⟨example_long, 0⟩ ⟨example_double, 8⟩ (fun _ => ⟨_, rfl, rfl, rfl⟩)
      (Or.inr ⟨rfl, rfl⟩) rfl (by decide) (by decide)⟩

/-! ## Flattening of aggregates: the bound -/

theorem fields_store_count (fields : fields_array) (n : Int) (f : loongarch_aggregate_field) :
    (∀ fields1, fields_store fields n f = some fields1 →
        0 ≤ n ∧ n < 2 ∧ ∀ i : Nat, 2 ≤ i → fields1 i = fields i)
    ∧ (0 ≤ n → n < 2 → ∃ fields1, fields_store fields n f = some fields1) := by
  unfold fields_store
  constructor
  · intro fields1 h
    by_cases hc : 0 ≤ n ∧ n < 2
    · simp only [hc, and_self, if_true, Option.some.injEq] at h
      refine ⟨hc.1, hc.2, fun i hi => ?_⟩
      rw [← h]
      have : ¬ (i : Int) = n := by omega
      simp only [this, if_false]
    · simp [hc] at h
  · intro h0 h2
    exact ⟨_, if_pos ⟨h0, h2⟩⟩

theorem tree_to_uhwi_of_fits (t : Option size_tree) (h : tree_fits_uhwi_p t = true) :
    ∃ v, tree_to_uhwi t = some v := by
  unfold tree_fits_uhwi_p at h
  unfold tree_to_uhwi
  cases t with
  | none => simp at h
  | some s =>
      cases s with
      | INTEGER_CST v =>
          simp only [decide_eq_true_eq] at h
          exact ⟨v.toNat, if_pos h⟩
      | other_tree => simp at h

theorem flatten_array_inner_count (subfields : fields_array) (add : Nat) :
    ∀ (count j : Nat) (fields : fields_array) (n : Int), 0 ≤ n → n ≤ 2 →
      (∀ r, flatten_array_inner subfields add count j fields n = some r →
        ((r.1 = true ∧ r.2.1 = -1) ∨ (r.1 = false ∧ n ≤ r.2.1 ∧ r.2.1 ≤ 2))
          ∧ ∀ i : Nat, 2 ≤ i → r.2.2 i = fields i)
      ∧ (∀ ns, fields_valid ns subfields = true → (j : Int) + count ≤ ns →
          ∃ r, flatten_array_inner subfields add count j fields n = some r) := by
  intro count
  induction count with
  | zero =>
      intro j fields n h0 h2
      refine ⟨fun r h => ?_, fun _ _ _ => ⟨_, rfl⟩⟩
      simp only [flatten_array_inner, Option.some.injEq] at h
      rw [← h]
      exact ⟨Or.inr ⟨rfl, le_refl _, h2⟩, fun _ _ => rfl⟩
  | succ c ih =>
      intro j fields n h0 h2
      unfold flatten_array_inner
      by_cases hn : n ≥ 2
      · simp only [hn, if_true]
        refine ⟨fun r h => ?_, fun _ _ _ => ⟨_, rfl⟩⟩
        simp only [Option.some.injEq] at h
        rw [← h]
        exact ⟨Or.inl ⟨rfl, rfl⟩, fun _ _ => rfl⟩
      · simp only [hn, if_false, Option.bind_eq_bind]
        constructor
        · intro r h
          obtain ⟨sub, hsub, h⟩ := Option.bind_eq_some.1 h
          obtain ⟨fields1, hst, h⟩ := Option.bind_eq_some.1 h
          obtain ⟨-, -, hfr⟩ := (fields_store_count fields n _).1 fields1 hst
          obtain ⟨g, gfr⟩ := (ih (j + 1) fields1 (n + 1) (by omega) (by omega)).1 r h
          refine ⟨?_, fun i hi => by rw [gfr i hi, hfr i hi]⟩
          rcases g with g | ⟨g1, g2, g3⟩
          · exact Or.inl g
          · exact Or.inr ⟨g1, by omega, g3⟩
        · intro ns hs hj
          obtain ⟨sub, hsub⟩ := fields_read_valid subfields ns j hs (by push_cast at hj; omega)
          obtain ⟨fields1, hst⟩ := (fields_store_count fields n
            ⟨sub.type, to_signed ((to_unsigned sub.offset + add) % 2 ^ 64)⟩).2 h0 (by omega)
          obtain ⟨r, hr⟩ := (ih (j + 1) fields1 (n + 1) (by omega) (by omega)).2 ns hs
            (by push_cast at hj ⊢; omega)
          exact ⟨r, Option.bind_eq_some.2 ⟨sub, hsub, Option.bind_eq_some.2 ⟨fields1, hst, hr⟩⟩⟩

theorem flatten_array_outer_count (subfields : fields_array) (n_subfields elt_size : Nat) :
    ∀ (count i : Nat) (fields : fields_array) (n : Int), 0 ≤ n → n ≤ 2 →
      (∀ r, flatten_array_outer subfields n_subfields elt_size count i fields n = some r →
        ((r.1 = true ∧ r.2.1 = -1) ∨ (r.1 = false ∧ n ≤ r.2.1 ∧ r.2.1 ≤ 2))
          ∧ ∀ k : Nat, 2 ≤ k → r.2.2 k = fields k)
      ∧ (∀ ns, fields_valid ns subfields = true → (n_subfields : Int) ≤ ns →
          ∃ r, flatten_array_outer subfields n_subfields elt_size count i fields n = some r) := by
  intro count
  induction count with
  | zero =>
      intro i fields n h0 h2
      refine ⟨fun r h => ?_, fun _ _ _ => ⟨_, rfl⟩⟩
      simp only [flatten_array_outer, Option.some.injEq] at h
      rw [← h]
      exact ⟨Or.inr ⟨rfl, le_refl _, h2⟩, fun _ _ => rfl⟩
  | succ c ih =>
      intro i fields n h0 h2
      unfold flatten_array_outer
      have hin := flatten_array_inner_count subfields ((i * elt_size) % 2 ^ 64) n_subfields 0
        fields n h0 h2
      simp only [Option.bind_eq_bind]
      constructor
      · intro r h
        obtain ⟨q, hq, h⟩ := Option.bind_eq_some.1 h
        obtain ⟨g, gfr⟩ := hin.1 q hq
        rcases g with ⟨g1, g2⟩ | ⟨g1, g2, g3⟩
        · simp only [g1, if_true, Option.some.injEq] at h
          rw [← h]
          exact ⟨Or.inl ⟨g1, g2⟩, gfr⟩
        · simp only [g1, Bool.false_eq_true, if_false] at h
          obtain ⟨k, kfr⟩ := (ih (i + 1) q.2.2 q.2.1 (by omega) g3).1 r h
          refine ⟨?_, fun m hm => by rw [kfr m hm, gfr m hm]⟩
          rcases k with k | ⟨k1, k2, k3⟩
          · exact Or.inl k
          · exact Or.inr ⟨k1, by omega, k3⟩
      · intro ns hs hle
        obtain ⟨q, hq⟩ := hin.2 ns hs (by simpa using hle)
        obtain ⟨g, -⟩ := hin.1 q hq
        rcases g with ⟨g1, g2⟩ | ⟨g1, g2, g3⟩
        · exact ⟨q, Option.bind_eq_some.2 ⟨q, hq, by simp only [g1, if_true]⟩⟩
        · obtain ⟨r, hr⟩ := (ih (i + 1) q.2.2 q.2.1 (by omega) g3).2 ns hs hle
          exact ⟨r, Option.bind_eq_some.2 ⟨q, hq, by
            simp only [g1, Bool.false_eq_true, if_false]; exact hr⟩⟩

mutual
theorem flatten_field_count (cfg : target) (abi : abi) :
    ∀ (type : tree) (fields : fields_array) (n offset : Int) (r : Int × fields_array),
      0 ≤ n → n ≤ 2 →
      loongarch_flatten_aggregate_field cfg abi type fields n offset = some r →
      (r.1 = -1 ∨ (n ≤ r.1 ∧ r.1 ≤ 2)) ∧ ∀ i : Nat, 2 ≤ i → r.2 i = fields i
  | .RECORD_TYPE common chain, fields, n, offset, r, h0, h2, h => by
      simp only [loongarch_flatten_aggregate_field] at h
      split_ifs at h with hc
      · simp only [Option.some.injEq] at h
        rw [← h]
        exact ⟨Or.inl rfl, fun _ _ => rfl⟩
      · exact flatten_record_count cfg abi chain fields n offset r h0 h2 h
  | .ARRAY_TYPE common elt index, fields, n, offset, r, h0, h2, h => by
      simp only [loongarch_flatten_aggregate_field, Option.bind_eq_bind, Option.pure_def] at h
      obtain ⟨sub, hsub, h⟩ := Option.bind_eq_some.1 h
      cases index with
      | none =>
          simp only [Option.some.injEq] at h
          rw [← h]
          exact ⟨Or.inl rfl, fun _ _ => rfl⟩
      | some idx =>
          simp only at h
          split_ifs at h with hc
          · simp only [Option.some.injEq] at h
            rw [← h]
            exact ⟨Or.inl rfl, fun _ _ => rfl⟩
          · obtain ⟨vmax, -, h⟩ := Option.bind_eq_some.1 h
            obtain ⟨vmin, -, h⟩ := Option.bind_eq_some.1 h
            obtain ⟨u, -, h⟩ := Option.bind_eq_some.1 h
            obtain ⟨size, -, h⟩ := Option.bind_eq_some.1 h
            obtain ⟨q, hq, h⟩ := Option.bind_eq_some.1 h
            simp only [Option.some.injEq] at h
            obtain ⟨g, gfr⟩ := (flatten_array_outer_count sub.2 sub.1.toNat size _ 0 fields n
              h0 h2).1 q hq
            rw [← h]
            refine ⟨?_, gfr⟩
            rcases g with ⟨-, g2⟩ | ⟨-, g2, g3⟩
            · exact Or.inl g2
            · exact Or.inr ⟨g2, g3⟩
  | .COMPLEX_TYPE common elt, fields, n, offset, r, h0, h2, h => by
      simp only [loongarch_flatten_aggregate_field, Option.bind_eq_bind, Option.pure_def] at h
      split_ifs at h with hc1 hc2
      · simp only [Option.some.injEq] at h
        rw [← h]
        exact ⟨Or.inl rfl, fun _ _ => rfl⟩
      · obtain ⟨f1, hs1, h⟩ := Option.bind_eq_some.1 h
        obtain ⟨f2, hs2, h⟩ := Option.bind_eq_some.1 h
        simp only [Option.some.injEq] at h
        obtain ⟨-, -, fr1⟩ := (fields_store_count fields 0 _).1 f1 hs1
        obtain ⟨-, -, fr2⟩ := (fields_store_count f1 1 _).1 f2 hs2
        rw [← h]
        exact ⟨Or.inr ⟨by simp only; omega, le_refl _⟩, fun i hi => by
          simp only; rw [fr2 i hi, fr1 i hi]⟩
      · simp only [Option.some.injEq] at h
        rw [← h]
        exact ⟨Or.inl rfl, fun _ _ => rfl⟩
  | .other_type code common, fields, n, offset, r, h0, h2, h => by
      simp only [loongarch_flatten_aggregate_field, Option.bind_eq_bind, Option.pure_def] at h
      split_ifs at h with hc
      · obtain ⟨f1, hs1, h⟩ := Option.bind_eq_some.1 h
        simp only [Option.some.injEq] at h
        obtain ⟨-, hn, fr1⟩ := (fields_store_count fields n _).1 f1 hs1
        rw [← h]
        exact ⟨Or.inr ⟨by simp only; omega, by simp only; omega⟩, fr1⟩
      · simp only [Option.some.injEq] at h
        rw [← h]
        exact ⟨Or.inl rfl, fun _ _ => rfl⟩
theorem flatten_record_count (cfg : target) (abi : abi) :
    ∀ (chain : field_chain) (fields : fields_array) (n offset : Int) (r : Int × fields_array),
      0 ≤ n → n ≤ 2 →
      flatten_record_fields cfg abi chain fields n offset = some r →
      (r.1 = -1 ∨ (n ≤ r.1 ∧ r.1 ≤ 2)) ∧ ∀ i : Nat, 2 ≤ i → r.2 i = fields i
  | .null, fields, n, offset, r, h0, h2, h => by
      simp only [flatten_record_fields, Option.some.injEq] at h
      rw [← h]
      exact ⟨Or.inr ⟨le_refl _, h2⟩, fun _ _ => rfl⟩
  | .other_decl next, fields, n, offset, r, h0, h2, h => by
      simp only [flatten_record_fields] at h
      exact flatten_record_count cfg abi next fields n offset r h0 h2 h
  | .FIELD_DECL_no_type next, fields, n, offset, r, h0, h2, h => by
      simp only [flatten_record_fields, Option.some.injEq] at h
      rw [← h]
      exact ⟨Or.inl rfl, fun _ _ => rfl⟩
  | .FIELD_DECL type size position next, fields, n, offset, r, h0, h2, h => by
      simp only [flatten_record_fields, Option.bind_eq_bind] at h
      split_ifs at h with hc
      · exact flatten_record_count cfg abi next fields n offset r h0 h2 h
      · obtain ⟨q, hq, h⟩ := Option.bind_eq_some.1 h
        obtain ⟨g, gfr⟩ := flatten_field_count cfg abi type fields n (offset + position) q
          h0 h2 hq
        split_ifs at h with hneg
        · simp only [Option.some.injEq] at h
          rw [← h]
          exact ⟨Or.inl rfl, gfr⟩
        · rcases g with g | ⟨g1, g2⟩
          · omega
          · obtain ⟨k, kfr⟩ := flatten_record_count cfg abi next q.2 q.1 offset r
              (by omega) g2 h
            refine ⟨?_, fun i hi => by rw [kfr i hi, gfr i hi]⟩
            rcases k with k | ⟨k1, k2⟩
            · exact Or.inl k
            · exact Or.inr ⟨by omega, k2⟩
end

mutual
theorem flatten_field_returns (cfg : target) (abi : abi) :
    ∀ (type : tree) (fields : fields_array) (n offset : Int),
      0 ≤ n → n ≤ 2 → tree_arrays_nonnegative type = true →
      ∃ r, loongarch_flatten_aggregate_field cfg abi type fields n offset = some r
  | .RECORD_TYPE common chain, fields, n, offset, h0, h2, ha => by
      simp only [tree_arrays_nonnegative] at ha
      simp only [loongarch_flatten_aggregate_field]
      split_ifs with hc
      · exact ⟨_, rfl⟩
      · exact flatten_record_returns cfg abi chain fields n offset h0 h2 ha
  | .ARRAY_TYPE common elt index, fields, n, offset, h0, h2, ha => by
      simp only [tree_arrays_nonnegative, Bool.and_eq_true] at ha
      obtain ⟨sub, hsub⟩ := flatten_field_returns cfg abi elt fields_uninitialized 0 offset
        (le_refl _) (by omega) ha.1
      have hsv := flatten_field_valid cfg abi elt fields_uninitialized 0 offset sub
        (by decide) hsub
      simp only [loongarch_flatten_aggregate_field, Option.bind_eq_bind, Option.pure_def, hsub,
        Option.some_bind]
      cases index with
      | none => exact ⟨_, rfl⟩
      | some idx =>
          simp only
          split_ifs with hc
          · exact ⟨_, rfl⟩
          · simp only [Bool.or_eq_true, decide_eq_true_eq, not_or, Bool.not_eq_true,
              Bool.not_eq_false_eq_eq_true, Bool.not_eq_true'] at hc
            obtain ⟨⟨⟨⟨⟨⟨⟨hpos, -⟩, -⟩, -⟩, hfmax⟩, -⟩, hfmin⟩, hfsz⟩ := hc
            simp only [Bool.not_eq_false] at hfmax hfmin hfsz
            obtain ⟨vmax, hmax⟩ := tree_to_uhwi_of_fits _ hfmax
            obtain ⟨vmin, hmin⟩ := tree_to_uhwi_of_fits _ hfmin
            obtain ⟨size, hsz⟩ := tree_to_uhwi_of_fits _ hfsz
            have hnn := ha.2
            simp only [hmax, hmin, decide_eq_true_eq] at hnn
            rcases hsv with hsv | ⟨-, hsv⟩
            · omega
            · obtain ⟨q, hq⟩ := (flatten_array_outer_count sub.2 sub.1.toNat size
                (to_signed ((1 + vmax + (2 ^ 64 - vmin)) % 2 ^ 64)).toNat 0 fields n
                h0 h2).2 sub.1 hsv (by omega)
              refine ⟨q.2, ?_⟩
              simp only [hmax, hmin, hsz, Option.some_bind, gcc_assert, Nat.reducePow]
              simp only [Nat.reducePow] at hq hnn
              simp only [hnn, decide_True, if_true, Option.some_bind, hq]
  | .COMPLEX_TYPE common elt, fields, n, offset, h0, h2, ha => by
      simp only [loongarch_flatten_aggregate_field, Option.bind_eq_bind, Option.pure_def]
      split_ifs with hc1 hc2
      · exact ⟨_, rfl⟩
      · obtain ⟨f1, hs1⟩ := (fields_store_count fields 0 ⟨elt, offset⟩).2 (le_refl _) (by omega)
        obtain ⟨f2, hs2⟩ := (fields_store_count f1 1
          ⟨elt, offset + (GET_MODE_SIZE (TYPE_MODE elt) : Int)⟩).2 (by omega) (by omega)
        exact ⟨_, Option.bind_eq_some.2 ⟨f1, hs1, Option.bind_eq_some.2 ⟨f2, hs2, rfl⟩⟩⟩
      · exact ⟨_, rfl⟩
  | .other_type code common, fields, n, offset, h0, h2, ha => by
      simp only [loongarch_flatten_aggregate_field, Option.bind_eq_bind, Option.pure_def]
      split_ifs with hc
      · have hn : n < 2 := by
          simp only [Bool.and_eq_true, decide_eq_true_eq] at hc
          exact hc.1
        obtain ⟨f1, hs1⟩ := (fields_store_count fields n ⟨.other_type code common, offset⟩).2
          h0 hn
        exact ⟨_, Option.bind_eq_some.2 ⟨f1, hs1, rfl⟩⟩
      · exact ⟨_, rfl⟩
theorem flatten_record_returns (cfg : target) (abi : abi) :
    ∀ (chain : field_chain) (fields : fields_array) (n offset : Int),
      0 ≤ n → n ≤ 2 → chain_arrays_nonnegative chain = true →
      ∃ r, flatten_record_fields cfg abi chain fields n offset = some r
  | .null, fields, n, offset, h0, h2, ha => ⟨_, rfl⟩
  | .other_decl next, fields, n, offset, h0, h2, ha => by
      simp only [chain_arrays_nonnegative] at ha
      simp only [flatten_record_fields]
      exact flatten_record_returns cfg abi next fields n offset h0 h2 ha
  | .FIELD_DECL_no_type next, fields, n, offset, h0, h2, ha => ⟨_, rfl⟩
  | .FIELD_DECL type size position next, fields, n, offset, h0, h2, ha => by
      simp only [chain_arrays_nonnegative, Bool.and_eq_true] at ha
      simp only [flatten_record_fields, Option.bind_eq_bind]
      split_ifs with hc
      · exact flatten_record_returns cfg abi next fields n offset h0 h2 ha.2
      · obtain ⟨q, hq⟩ := flatten_field_returns cfg abi type fields n (offset + position)
          h0 h2 ha.1
        obtain ⟨g, -⟩ := flatten_field_count cfg abi type fields n (offset + position) q
          h0 h2 hq
        by_cases hneg : q.1 < 0
        · exact ⟨_, Option.bind_eq_some.2 ⟨q, hq, if_pos hneg⟩⟩
        · rcases g with g | ⟨g1, g2⟩
          · omega
          · obtain ⟨r, hr⟩ := flatten_record_returns cfg abi next q.2 q.1 offset
              (by omega) g2 ha.2
            exact ⟨r, Option.bind_eq_some.2 ⟨q, hq, by rw [if_neg hneg]; exact hr⟩⟩
end

/-! ## Flattening of aggregates: the exact count -/

theorem flatten_array_inner_exact (subfields : fields_array) (add : Nat) :
    ∀ (count j : Nat) (fields : fields_array) (n : Int) (r : Bool × Int × fields_array),
      flatten_array_inner subfields add count j fields n = some r →
      (r.1 = true ∧ r.2.1 = -1) ∨ (r.1 = false ∧ r.2.1 = n + count) := by
  intro count
  induction count with
  | zero =>
      intro j fields n r h
      simp only [flatten_array_inner, Option.some.injEq] at h
      rw [← h]
      exact Or.inr ⟨rfl, by simp⟩
  | succ c ih =>
      intro j fields n r h
      unfold flatten_array_inner at h
      by_cases hn : n ≥ 2
      · simp only [hn, if_true, Option.some.injEq] at h
        rw [← h]
        exact Or.inl ⟨rfl, rfl⟩
      · simp only [hn, if_false, Option.bind_eq_bind] at h
        obtain ⟨sub, -, h⟩ := Option.bind_eq_some.1 h
        obtain ⟨fields1, -, h⟩ := Option.bind_eq_some.1 h
        rcases ih (j + 1) fields1 (n + 1) r h with g | ⟨g1, g2⟩
        · exact Or.inl g
        · exact Or.inr ⟨g1, by rw [g2]; push_cast; ring⟩

theorem flatten_array_outer_exact (subfields : fields_array) (n_subfields elt_size : Nat) :
    ∀ (count i : Nat) (fields : fields_array) (n : Int) (r : Bool × Int × fields_array),
      flatten_array_outer subfields n_subfields elt_size count i fields n = some r →
      (r.1 = true ∧ r.2.1 = -1) ∨ (r.1 = false ∧ r.2.1 = n + count * n_subfields) := by
  intro count
  induction count with
  | zero =>
      intro i fields n r h
      simp only [flatten_array_outer, Option.some.injEq] at h
      rw [← h]
      exact Or.inr ⟨rfl, by simp⟩
  | succ c ih =>
      intro i fields n r h
      unfold flatten_array_outer at h
      simp only [Option.bind_eq_bind] at h
      obtain ⟨q, hq, h⟩ := Option.bind_eq_some.1 h
      rcases flatten_array_inner_exact subfields _ n_subfields 0 fields n q hq with
        ⟨g1, g2⟩ | ⟨g1, g2⟩
      · simp only [g1, if_true, Option.some.injEq] at h
        rw [← h]
        exact Or.inl ⟨g1, g2⟩
      · simp only [g1, Bool.false_eq_true, if_false] at h
        rcases ih (i + 1) q.2.2 q.2.1 r h with k | ⟨k1, k2⟩
        · exact Or.inl k
        · exact Or.inr ⟨k1, by rw [k2, g2]; push_cast; ring⟩

mutual
theorem flatten_field_exact (cfg : target) (abi : abi) :
    ∀ (type : tree) (fields : fields_array) (n offset : Int) (r : Int × fields_array),
      loongarch_flatten_aggregate_field cfg abi type fields n offset = some r →
      r.1 = -1 ∨ r.1 = n + scalar_field_count type
  | .RECORD_TYPE common chain, fields, n, offset, r, h => by
      simp only [loongarch_flatten_aggregate_field] at h
      split_ifs at h with hc
      · simp only [Option.some.injEq] at h
        exact Or.inl (by rw [← h])
      · simp only [scalar_field_count]
        exact flatten_record_exact cfg abi chain fields n offset r h
  | .ARRAY_TYPE common elt index, fields, n, offset, r, h => by
      simp only [loongarch_flatten_aggregate_field, Option.bind_eq_bind, Option.pure_def] at h
      obtain ⟨sub, hsub, h⟩ := Option.bind_eq_some.1 h
      have ihs := flatten_field_exact cfg abi elt fields_uninitialized 0 offset sub hsub
      cases index with
      | none =>
          simp only [Option.some.injEq] at h
          exact Or.inl (by rw [← h])
      | some idx =>
          simp only at h
          split_ifs at h with hc
          · simp only [Option.some.injEq] at h
            exact Or.inl (by rw [← h])
          · simp only [Bool.or_eq_true, decide_eq_true_eq, not_or] at hc
            have hpos : ¬ sub.1 ≤ 0 := hc.1.1.1.1.1.1.1
            obtain ⟨vmax, hmax, h⟩ := Option.bind_eq_some.1 h
            obtain ⟨vmin, hmin, h⟩ := Option.bind_eq_some.1 h
            obtain ⟨u, -, h⟩ := Option.bind_eq_some.1 h
            obtain ⟨size, -, h⟩ := Option.bind_eq_some.1 h
            obtain ⟨q, hq, h⟩ := Option.bind_eq_some.1 h
            simp only [Option.some.injEq] at h
            have hcount : sub.1 = scalar_field_count elt := by
              rcases ihs with ihs | ihs
              · omega
              · simpa using ihs
            have hne : array_n_elts (some idx)
                = (to_signed ((1 + vmax + (2 ^ 64 - vmin)) % 2 ^ 64)).toNat := by
              simp only [array_n_elts, hmax, hmin]
            rw [← h]
            rcases flatten_array_outer_exact sub.2 sub.1.toNat size _ 0 fields n q hq with
              ⟨-, g2⟩ | ⟨-, g2⟩
            · exact Or.inl g2
            · right
              rw [g2]
              simp only [scalar_field_count]
              simp only [Nat.reducePow] at hne
              rw [hne, hcount]
              simp
  | .COMPLEX_TYPE common elt, fields, n, offset, r, h => by
      simp only [loongarch_flatten_aggregate_field, Option.bind_eq_bind, Option.pure_def] at h
      split_ifs at h with hc1 hc2
      · simp only [Option.some.injEq] at h
        exact Or.inl (by rw [← h])
      · have hn : n = 0 := by simpa using hc1
        obtain ⟨f1, -, h⟩ := Option.bind_eq_some.1 h
        obtain ⟨f2, -, h⟩ := Option.bind_eq_some.1 h
        simp only [Option.some.injEq] at h
        rw [← h, hn]
        exact Or.inr (by simp [scalar_field_count])
      · simp only [Option.some.injEq] at h
        exact Or.inl (by rw [← h])
  | .other_type code common, fields, n, offset, r, h => by
      simp only [loongarch_flatten_aggregate_field, Option.bind_eq_bind, Option.pure_def] at h
      split_ifs at h with hc
      · obtain ⟨f1, -, h⟩ := Option.bind_eq_some.1 h
        simp only [Option.some.injEq] at h
        rw [← h]
        exact Or.inr (by simp [scalar_field_count])
      · simp only [Option.some.injEq] at h
        exact Or.inl (by rw [← h])
theorem flatten_record_exact (cfg : target) (abi : abi) :
    ∀ (chain : field_chain) (fields : fields_array) (n offset : Int) (r : Int × fields_array),
      flatten_record_fields cfg abi chain fields n offset = some r →
      r.1 = -1 ∨ r.1 = n + chain_scalar_field_count chain
  | .null, fields, n, offset, r, h => by
      simp only [flatten_record_fields, Option.some.injEq] at h
      rw [← h]
      exact Or.inr (by simp [chain_scalar_field_count])
  | .other_decl next, fields, n, offset, r, h => by
      simp only [flatten_record_fields] at h
      simp only [chain_scalar_field_count]
      exact flatten_record_exact cfg abi next fields n offset r h
  | .FIELD_DECL_no_type next, fields, n, offset, r, h => by
      simp only [flatten_record_fields, Option.some.injEq] at h
      exact Or.inl (by rw [← h])
  | .FIELD_DECL type size position next, fields, n, offset, r, h => by
      simp only [flatten_record_fields, Option.bind_eq_bind] at h
      simp only [chain_scalar_field_count]
      split_ifs at h with hc
      · simp only [hc, if_true]
        exact flatten_record_exact cfg abi next fields n offset r h
      · simp only [hc, if_false]
        obtain ⟨q, hq, h⟩ := Option.bind_eq_some.1 h
        have ihq := flatten_field_exact cfg abi type fields n (offset + position) q hq
        split_ifs at h with hneg
        · simp only [Option.some.injEq] at h
          exact Or.inl (by rw [← h])
        · rcases ihq with ihq | ihq
          · omega
          · rcases flatten_record_exact cfg abi next q.2 q.1 offset r h with g | g
            · exact Or.inl g
            · exact Or.inr (by rw [g, ihq]; push_cast; ring)
end

/-! ## C26: flattening returns at most two fields -/

/-- C26: for every type tree whose array types satisfy the assertion
`n_elts >= 0` of the code, every array `fields` and every starting count `n`
with `0 ≤ n ≤ 2`, `loongarch_flatten_aggregate_field` returns; the result is -1
or a count between `n` and 2, and `fields` is unchanged at every index from 2
on.  `loongarch_flatten_aggregate_argument` therefore returns -1 or a count of
at most 2, it returns -1 for a type that is incomplete or whose size is not a
constant, and a scalar field that arrives when two fields are already there
makes the result -1.  A count that is returned is the starting count plus the
number of scalar fields of the type, so every aggregate that would need a
third field, whatever its shape, is rejected with -1. -/
theorem flatten_aggregate_field_bounded (cfg : target) (abi : abi) (type : tree)
    (fields : fields_array) (n offset : Int) (h0 : 0 ≤ n) (h2 : n ≤ 2)
    (ha : tree_arrays_nonnegative type = true) :
    (∃ r, loongarch_flatten_aggregate_field cfg abi type fields n offset = some r
        ∧ (r.1 = -1 ∨ (n ≤ r.1 ∧ r.1 ≤ 2)) ∧ ∀ i : Nat, 2 ≤ i → r.2 i = fields i)
    ∧ (∃ r, loongarch_flatten_aggregate_argument cfg abi (some type) fields = some r
        ∧ (r.1 = -1 ∨ (0 ≤ r.1 ∧ r.1 ≤ 2)) ∧ ∀ i : Nat, 2 ≤ i → r.2 i = fields i)
    ∧ ((COMPLETE_TYPE_P type = false ∨ TYPE_SIZE_is_INTEGER_CST type = false) →
        loongarch_flatten_aggregate_argument cfg abi (some type) fields = some (-1, fields))
    ∧ (∀ code common, loongarch_flatten_aggregate_field cfg abi (.other_type code common)
        fields 2 offset = some (-1, fields))
    ∧ (∀ r, loongarch_flatten_aggregate_field cfg abi type fields n offset = some r →
        r.1 = -1 ∨ r.1 = n + scalar_field_count type)
    ∧ (2 < n + scalar_field_count type →
        ∃ fs, loongarch_flatten_aggregate_field cfg abi type fields n offset = some (-1, fs))
    ∧ (∀ r, loongarch_flatten_aggregate_argument cfg abi (some type) fields = some r →
        r.1 = -1 ∨ r.1 = scalar_field_count type)
    ∧ (2 < scalar_field_count type →
        ∃ fs, loongarch_flatten_aggregate_argument cfg abi (some type) fields
          = some (-1, fs)) := by
  have harg : ∀ r, loongarch_flatten_aggregate_argument cfg abi (some type) fields = some r →
      r.1 = -1 ∨ r.1 = scalar_field_count type := by
    intro r hr
    cases type with
    | RECORD_TYPE common chain =>
        have := flatten_field_exact cfg abi (.RECORD_TYPE common chain) fields 0 0 r hr
        simpa using this
    | ARRAY_TYPE common elt index =>
        simp only [loongarch_flatten_aggregate_argument, Option.some.injEq] at hr
        exact Or.inl (by rw [← hr])
    | COMPLEX_TYPE common elt =>
        simp only [loongarch_flatten_aggregate_argument, Option.some.injEq] at hr
        exact Or.inl (by rw [← hr])
    | other_type code common =>
        simp only [loongarch_flatten_aggregate_argument, Option.some.injEq] at hr
        exact Or.inl (by rw [← hr])
  have harg2 : ∃ r, loongarch_flatten_aggregate_argument cfg abi (some type) fields = some r
      ∧ (r.1 = -1 ∨ (0 ≤ r.1 ∧ r.1 ≤ 2)) ∧ ∀ i : Nat, 2 ≤ i → r.2 i = fields i := by
    cases type with
    | RECORD_TYPE common chain =>
        obtain ⟨r, hr⟩ := flatten_field_returns cfg abi (.RECORD_TYPE common chain) fields 0 0
          (le_refl _) (by omega) ha
        exact ⟨r, hr, flatten_field_count cfg abi (.RECORD_TYPE common chain) fields 0 0 r
          (le_refl _) (by omega) hr⟩
    | ARRAY_TYPE common elt index => exact ⟨(-1, fields), rfl, Or.inl rfl, fun _ _ => rfl⟩
    | COMPLEX_TYPE common elt => exact ⟨(-1, fields), rfl, Or.inl rfl, fun _ _ => rfl⟩
    | other_type code common => exact ⟨(-1, fields), rfl, Or.inl rfl, fun _ _ => rfl⟩
  refine ⟨?_, harg2, ?_, ?_, ?_, ?_, harg, ?_⟩
  · obtain ⟨r, hr⟩ := flatten_field_returns cfg abi type fields n offset h0 h2 ha
    exact ⟨r, hr, flatten_field_count cfg abi type fields n offset r h0 h2 hr⟩
  · intro hs
    cases type with
    | RECORD_TYPE common chain =>
        simp only [loongarch_flatten_aggregate_argument, loongarch_flatten_aggregate_field]
        rcases hs with hs | hs <;> simp [hs]
    | ARRAY_TYPE common elt index => rfl
    | COMPLEX_TYPE common elt => rfl
    | other_type code common => rfl
  · intro code common
    simp [loongarch_flatten_aggregate_field]
  · exact fun r hr => flatten_field_exact cfg abi type fields n offset r hr
  · intro hmany
    obtain ⟨r, hr⟩ := flatten_field_returns cfg abi type fields n offset h0 h2 ha
    obtain ⟨hb, -⟩ := flatten_field_count cfg abi type fields n offset r h0 h2 hr
    have he := flatten_field_exact cfg abi type fields n offset r hr
    have hm1 : r.1 = -1 := by
      rcases he with he | he
      · exact he
      · rcases hb with hb | hb
        · exact hb
        · omega
    exact ⟨r.2, by rw [hr, ← hm1]⟩
  · intro hmany
    obtain ⟨r, hr, hb, -⟩ := harg2
    have hm1 : r.1 = -1 := by
      rcases harg r hr with he | he
      · exact he
      · rcases hb with hb | hb
        · exact hb
        · omega
    exact ⟨r.2, by rw [hr, ← hm1]⟩

theorem flatten_aggregate_field_bounded_witness :
    tree_arrays_nonnegative example_three_longs = true
    ∧ ((∃ r, loongarch_flatten_aggregate_field example_target example_abi example_three_longs
          fields_uninitialized 0 0 = some r
        ∧ (r.1 = -1 ∨ ((0 : Int) ≤ r.1 ∧ r.1 ≤ 2))
        ∧ ∀ i : Nat, 2 ≤ i → r.2 i = fields_uninitialized i)
      ∧ (∃ r, loongarch_flatten_aggregate_argument example_target example_abi
          (some example_three_longs) fields_uninitialized = some r
        ∧ (r.1 = -1 ∨ (0 ≤ r.1 ∧ r.1 ≤ 2))
        ∧ ∀ i : Nat, 2 ≤ i → r.2 i = fields_uninitialized i)
      ∧ ((COMPLETE_TYPE_P example_three_longs = false
          ∨ TYPE_SIZE_is_INTEGER_CST example_three_longs = false) →
        loongarch_flatten_aggregate_argument example_target example_abi
          (some example_three_longs) fields_uninitialized = some (-1, fields_uninitialized))
      ∧ (∀ code common, loongarch_flatten_aggregate_field example_target example_abi
          (.other_type code common) fields_uninitialized 2 0 = some (-1, fields_uninitialized))
      ∧ (∀ r, loongarch_flatten_aggregate_field example_target example_abi example_three_longs
          fields_uninitialized 0 0 = some r →
          r.1 = -1 ∨ r.1 = 0 + scalar_field_count example_three_longs)
      ∧ (2 < (0 : Int) + scalar_field_count example_three_longs →
          ∃ fs, loongarch_flatten_aggregate_field example_target example_abi
            example_three_longs fields_uninitialized 0 0 = some (-1, fs))
      ∧ (∀ r, loongarch_flatten_aggregate_argument example_target example_abi
          (some example_three_longs) fields_uninitialized = some r →
          r.1 = -1 ∨ r.1 = scalar_field_count example_three_longs)
      ∧ (2 < scalar_field_count example_three_longs →
          ∃ fs, loongarch_flatten_aggregate_argument example_target example_abi
            (some example_three_longs) fields_uninitialized = some (-1, fs)))
    ∧ (loongarch_flatten_aggregate_argument example_target example_abi
        (some example_three_longs) fields_uninitialized).map Prod.fst = some (-1)
    ∧ (loongarch_flatten_aggregate_argument example_target example_abi
        (some example_two_longs) fields_uninitialized).map Prod.fst = some 2
    ∧ scalar_field_count example_three_longs = 3
    ∧ scalar_field_count example_double_complex = 3
    ∧ (loongarch_flatten_aggregate_argument example_target example_abi
        (some example_double_complex) fields_uninitialized).map Prod.fst = some (-1) :=
  ⟨by decide,
   flatten_aggregate_field_bounded example_target example_abi example_three_longs
     fields_uninitialized 0 0 (by decide) (by decide) (by decide),
   by decide, by decide, by decide, by decide, by decide⟩

/-! ## C27: overlapping register ranges -/

theorem exec_moves_two (m1 m2 m3 m4 : machine_mode) (d1 s1 d2 s2 : Nat) (regs : register_file) :
    exec_moves [.move (.REG m1 d1) (.REG m2 s1), .move (.REG m3 d2) (.REG m4 s2)] regs
      = some (fun r => if r = d2 then (if s2 = d1 then regs s1 else regs s2)
                       else if r = d1 then regs s1 else regs r) := rfl

theorem exec_moves_cons_reg (m1 m2 : machine_mode) (d s : Nat) (rest : List emitted_insn)
    (regs : register_file) :
    exec_moves (.move (.REG m1 d) (.REG m2 s) :: rest) regs
      = exec_moves rest (move_word regs d s) := rfl

theorem move_word_eq (regs : register_file) (d s r : Nat) (h : r = d) :
    move_word regs d s r = regs s := by
  simp only [move_word, h, if_true]

theorem move_word_ne (regs : register_file) (d s r : Nat) (h : r ≠ d) :
    move_word regs d s r = regs r := by
  simp only [move_word, h, if_false]

theorem loop_up_64 : loop_up 16 8 = [0, 1] := rfl

theorem loop_down_64 : loop_down 16 8 = [8, 0] := rfl

theorem loop_up_32 : loop_up 16 4 = [0, 1, 2, 3] := rfl

theorem loop_down_32 : loop_down 16 4 = [12, 8, 4, 0] := rfl

/-- C27: on hard registers (a subword of a register is the register of that
word, and `reg_overlap_mentioned_p` of two registers tells whether their
register ranges meet), for general registers `d` and `s` in any position: the
two moves that `loongarch_split_move` emits for a two-word scalar mode, and the
word moves that the register branch of `loongarch_split_128bit_move` emits,
executed in order, leave in every word of the destination the value that the
matching word of the source held before, and change no other register. -/
theorem split_move_overlap_safe (cfg : target) (rtl : middle_end) (stream : insn_stream)
    (m : machine_mode) (d s : Nat) (regs : register_file)
    (hsub : ∀ outer inner inner1 r byte,
      rtl.simplify_gen_subreg outer (.REG inner r) inner1 byte
        = .REG outer (r + byte / UNITS_PER_WORD cfg))
    (hov : ∀ m1 r1 m2 r2,
      rtl.reg_overlap_mentioned_p (.REG m1 r1) (.REG m2 r2)
        = decide (r2 < r1 + example_nregs cfg m1 ∧ r1 < r2 + example_nregs cfg m2))
    (hd : FP_REG_P d = false) (hs : FP_REG_P s = false) :
    (GET_MODE_SIZE m = 2 * UNITS_PER_WORD cfg → LSX_SUPPORTED_MODE_P cfg m = false →
      LASX_SUPPORTED_MODE_P cfg m = false →
      ∃ res regs1, loongarch_split_move cfg rtl (.REG m d) (.REG m s) stream = some res
        ∧ exec_moves res.emitted regs = some regs1
        ∧ regs1 d = regs s ∧ regs1 (d + 1) = regs (s + 1)
        ∧ ∀ r, r ≠ d → r ≠ d + 1 → regs1 r = regs r)
    ∧ (∃ insns regs1, loongarch_split_128bit_move cfg rtl (.REG m d) (.REG m s) = some insns
        ∧ exec_moves insns regs = some regs1
        ∧ (∀ k, k < GET_MODE_SIZE TImode / UNITS_PER_WORD cfg → regs1 (d + k) = regs (s + k))
        ∧ ∀ r, (r < d ∨ d + GET_MODE_SIZE TImode / UNITS_PER_WORD cfg ≤ r) →
            regs1 r = regs r) := by
  constructor
  · intro hsize hlsx hlasx
    have hw : 0 < UNITS_PER_WORD cfg := by unfold UNITS_PER_WORD; split_ifs <;> omega
    have hn : example_nregs cfg m = 2 := by
      unfold example_nregs
      rw [hsize]
      have : 2 * UNITS_PER_WORD cfg + UNITS_PER_WORD cfg - 1
          = (UNITS_PER_WORD cfg - 1) + UNITS_PER_WORD cfg * 2 := by omega
      rw [this, Nat.add_mul_div_left _ _ hw, Nat.div_eq_of_lt (by omega)]
    have hn1 : example_nregs cfg (word_mode cfg) = 1 := by
      unfold example_nregs word_mode UNITS_PER_WORD
      cases cfg.TARGET_64BIT <;> rfl
    have hp : loongarch_split_move_p cfg (.REG m d) (.REG m s) = true := by
      simp only [loongarch_split_move_p, GET_MODE, FP_REG_RTX_P, hd, hs, hlsx, hlasx,
        Bool.and_false, Bool.false_and, Bool.false_eq_true, if_false, decide_eq_true_eq]
      omega
    have hlow : loongarch_subword cfg rtl (.REG m d) false = .REG (word_mode cfg) d := by
      simp only [loongarch_subword, hd, Bool.false_eq_true, if_false, hsub, Nat.zero_div,
        Nat.add_zero]
    have hlows : loongarch_subword cfg rtl (.REG m s) false = .REG (word_mode cfg) s := by
      simp only [loongarch_subword, hs, Bool.false_eq_true, if_false, hsub, Nat.zero_div,
        Nat.add_zero]
    have hhigh : loongarch_subword cfg rtl (.REG m d) true = .REG (word_mode cfg) (d + 1) := by
      simp only [loongarch_subword, hd, Bool.false_eq_true, if_false, if_true, hsub,
        Nat.div_self hw]
    have hhighs : loongarch_subword cfg rtl (.REG m s) true = .REG (word_mode cfg) (s + 1) := by
      simp only [loongarch_subword, hs, Bool.false_eq_true, if_false, if_true, hsub,
        Nat.div_self hw]
    by_cases hc : s ≤ d ∧ d < s + 2
    · refine ⟨⟨[.move (.REG (word_mode cfg) (d + 1)) (.REG (word_mode cfg) (s + 1)),
          .move (.REG (word_mode cfg) d) (.REG (word_mode cfg) s)],
          if stream.insn && stream.next && stream.set && stream.set_src_is_dest
          then some (.REG m s) else none⟩, _, ?_, exec_moves_two _ _ _ _ _ _ _ _ regs, ?_, ?_, ?_⟩
      · have hov1 : rtl.reg_overlap_mentioned_p (.REG (word_mode cfg) d) (.REG m s) = true := by
          rw [hov, hn, hn1]
          simp only [decide_eq_true_eq]
          omega
        simp only [loongarch_split_move, hp, gcc_assert, if_true, GET_MODE, hlsx, hlasx,
          FP_REG_RTX_P, hd, hs, Bool.or_self, Bool.false_eq_true, if_false, hlow, hlows, hhigh,
          hhighs, REG_P, hov1, Bool.and_self, loongarch_emit_move, Option.bind_eq_bind,
          Option.some_bind, Option.pure_def]
        split_ifs <;> rfl
      · have h1 : ¬ s = d + 1 := by omega
        simp only [if_true, h1, if_false]
      · have h1 : ¬ d + 1 = d := by omega
        simp only [h1, if_false, if_true]
      · intro r hr1 hr2
        simp only [hr1, hr2, if_false]
    · refine ⟨⟨[.move (.REG (word_mode cfg) d) (.REG (word_mode cfg) s),
          .move (.REG (word_mode cfg) (d + 1)) (.REG (word_mode cfg) (s + 1))],
          if stream.insn && stream.next && stream.set && stream.set_src_is_dest
          then some (.REG m s) else none⟩, _, ?_, exec_moves_two _ _ _ _ _ _ _ _ regs, ?_, ?_, ?_⟩
      · have hov1 : rtl.reg_overlap_mentioned_p (.REG (word_mode cfg) d) (.REG m s) = false := by
          rw [hov, hn, hn1]
          simp only [decide_eq_false_iff_not]
          omega
        simp only [loongarch_split_move, hp, gcc_assert, if_true, GET_MODE, hlsx, hlasx,
          FP_REG_RTX_P, hd, hs, Bool.or_self, Bool.false_eq_true, if_false, hlow, hlows, hhigh,
          hhighs, REG_P, hov1, Bool.and_false, loongarch_emit_move, Option.bind_eq_bind,
          Option.some_bind, Option.pure_def]
        split_ifs <;> rfl
      · have h1 : ¬ d = d + 1 := by omega
        simp only [h1, if_false, if_true]
      · have h1 : ¬ s + 1 = d := by omega
        simp only [if_true, h1, if_false]
      · intro r hr1 hr2
        simp only [hr1, hr2, if_false]
  · have hsb : ∀ (x byte : Nat), FP_REG_P x = false →
        loongarch_subword_at_byte cfg rtl (.REG m x) byte
          = some (.REG (word_mode cfg) (x + byte / UNITS_PER_WORD cfg)) := by
      intro x byte hx
      simp only [loongarch_subword_at_byte, FP_REG_RTX_P, hx, Bool.not_false, gcc_assert,
        if_true, MEM_P, Bool.false_eq_true, if_false, hsub, Option.bind_eq_bind,
        Option.some_bind, Option.pure_def]
    have hT : GET_MODE_SIZE TImode = 16 := rfl
    cases h64 : cfg.TARGET_64BIT
    · have hu : UNITS_PER_WORD cfg = 4 := by
        simp only [UNITS_PER_WORD, h64, Bool.false_eq_true, if_false]
      by_cases hle : d ≤ s
      · have hins : loongarch_split_128bit_move cfg rtl (.REG m d) (.REG m s)
            = some [.move (.REG (word_mode cfg) d) (.REG (word_mode cfg) s),
                    .move (.REG (word_mode cfg) (d + 1)) (.REG (word_mode cfg) (s + 1)),
                    .move (.REG (word_mode cfg) (d + 2)) (.REG (word_mode cfg) (s + 2)),
                    .move (.REG (word_mode cfg) (d + 3)) (.REG (word_mode cfg) (s + 3))] := by
          simp [loongarch_split_128bit_move, FP_REG_RTX_P, hd, hs, hsb, hu, hT, hle, loop_up_32,
            emit_loop, loongarch_emit_move]
        refine ⟨_, move_word (move_word (move_word (move_word regs d s) (d + 1) (s + 1))
          (d + 2) (s + 2)) (d + 3) (s + 3), hins, rfl, ?_, ?_⟩
        · intro k hk
          rw [hT, hu] at hk
          have hk4 : k < 4 := hk
          interval_cases k <;>
            simp (disch := omega) only [move_word_eq, move_word_ne, Nat.add_zero]
        · intro r hr
          rw [hT, hu] at hr
          have hr4 : r < d ∨ d + 4 ≤ r := hr
          simp (disch := omega) only [move_word_eq, move_word_ne]
      · have hins : loongarch_split_128bit_move cfg rtl (.REG m d) (.REG m s)
            = some [.move (.REG (word_mode cfg) (d + 3)) (.REG (word_mode cfg) (s + 3)),
                    .move (.REG (word_mode cfg) (d + 2)) (.REG (word_mode cfg) (s + 2)),
                    .move (.REG (word_mode cfg) (d + 1)) (.REG (word_mode cfg) (s + 1)),
                    .move (.REG (word_mode cfg) d) (.REG (word_mode cfg) s)] := by
          simp [loongarch_split_128bit_move, FP_REG_RTX_P, hd, hs, hsb, hu, hT, hle,
            loop_down_32, emit_loop, loongarch_emit_move]
        refine ⟨_, move_word (move_word (move_word (move_word regs (d + 3) (s + 3)) (d + 2) (s + 2))
          (d + 1) (s + 1)) d s, hins, rfl, ?_, ?_⟩
        · intro k hk
          rw [hT, hu] at hk
          have hk4 : k < 4 := hk
          interval_cases k <;>
            simp (disch := omega) only [move_word_eq, move_word_ne, Nat.add_zero]
        · intro r hr
          rw [hT, hu] at hr
          have hr4 : r < d ∨ d + 4 ≤ r := hr
          simp (disch := omega) only [move_word_eq, move_word_ne]
    · have hu : UNITS_PER_WORD cfg = 8 := by simp only [UNITS_PER_WORD, h64, if_true]
      by_cases hle : d ≤ s
      · have hins : loongarch_split_128bit_move cfg rtl (.REG m d) (.REG m s)
            = some [.move (.REG (word_mode cfg) d) (.REG (word_mode cfg) s),
                    .move (.REG (word_mode cfg) (d + 1)) (.REG (word_mode cfg) (s + 1))] := by
          simp [loongarch_split_128bit_move, FP_REG_RTX_P, hd, hs, hsb, hu, hT, hle, loop_up_64,
            emit_loop, loongarch_emit_move]
        refine ⟨_, move_word (move_word regs d s) (d + 1) (s + 1), hins, rfl, ?_, ?_⟩
        · intro k hk
          rw [hT, hu] at hk
          have hk2 : k < 2 := hk
          interval_cases k <;>
            simp (disch := omega) only [move_word_eq, move_word_ne, Nat.add_zero]
        · intro r hr
          rw [hT, hu] at hr
          have hr2 : r < d ∨ d + 2 ≤ r := hr
          simp (disch := omega) only [move_word_eq, move_word_ne]
      · have hins : loongarch_split_128bit_move cfg rtl (.REG m d) (.REG m s)
            = some [.move (.REG (word_mode cfg) (d + 1)) (.REG (word_mode cfg) (s + 1)),
                    .move (.REG (word_mode cfg) d) (.REG (word_mode cfg) s)] := by
          simp [loongarch_split_128bit_move, FP_REG_RTX_P, hd, hs, hsb, hu, hT, hle,
            loop_down_64, emit_loop, loongarch_emit_move]
        refine ⟨_, move_word (move_word regs (d + 1) (s + 1)) d s, hins, rfl, ?_, ?_⟩
        · intro k hk
          rw [hT, hu] at hk
          have hk2 : k < 2 := hk
          interval_cases k <;>
            simp (disch := omega) only [move_word_eq, move_word_ne, Nat.add_zero]
        · intro r hr
          rw [hT, hu] at hr
          have hr2 : r < d ∨ d + 2 ≤ r := hr
          simp (disch := omega) only [move_word_eq, move_word_ne]

theorem split_move_overlap_safe_witness :
    (∃ res regs1, loongarch_split_move example_target (example_middle_end example_target)
          (.REG TImode 6) (.REG TImode 5) example_stream = some res
        ∧ exec_moves res.emitted (fun r => 100 + r) = some regs1
        ∧ regs1 6 = 105 ∧ regs1 7 = 106
        ∧ ∀ r, r ≠ 6 → r ≠ 7 → regs1 r = 100 + r)
    ∧ (∃ insns regs1, loongarch_split_128bit_move example_target
          (example_middle_end example_target) (.REG TImode 6) (.REG TImode 5) = some insns
        ∧ exec_moves insns (fun r => 100 + r) = some regs1
        ∧ (∀ k, k < GET_MODE_SIZE TImode / UNITS_PER_WORD example_target →
            regs1 (6 + k) = 100 + (5 + k))
        ∧ ∀ r, (r < 6 ∨ 6 + GET_MODE_SIZE TImode / UNITS_PER_WORD example_target ≤ r) →
            regs1 r = 100 + r) :=
  ⟨(split_move_overlap_safe example_target (example_middle_end example_target) example_stream
      TImode 6 5 (fun r => 100 + r) (fun _ _ _ _ _ => rfl) (fun _ _ _ _ => rfl)
      (by decide) (by decide)).1 (by decide) (by decide) (by decide),
   (split_move_overlap_safe example_target (example_middle_end example_target) example_stream
      TImode 6 5 (fun r => 100 + r) (fun _ _ _ _ _ => rfl) (fun _ _ _ _ => rfl)
      (by decide) (by decide)).2⟩

/-! ## C22: the testing mode of the permutation expander -/

theorem vshuf_rperm_loop_returns (d : expand_vec_perm_d) :
    ∀ (count i : Nat) (rperm : Nat → rtx), i + count ≤ MAX_VECT_LEN →
      ∃ r, vshuf_rperm_loop d count i rperm = some r := by
  intro count
  induction count with
  | zero => intro i rperm _; exact ⟨_, rfl⟩
  | succ c ih =>
      intro i rperm h
      unfold vshuf_rperm_loop
      have hi : i < MAX_VECT_LEN := by omega
      simp only [hi, if_true]
      exact ih (i + 1) _ (by omega)

/-- C22: for every permutation descriptor whose `nelt` is at most the length
`MAX_VECT_LEN` of its arrays, `loongarch_expand_vec_perm_const_2` returns, and
it returns the same flag with `testing_p` set as with `testing_p` clear on the
otherwise identical descriptor; with `testing_p` set it emits no
instruction. -/
theorem expand_vec_perm_const_2_testing (d : expand_vec_perm_d)
    (hn : d.nelt ≤ MAX_VECT_LEN) :
    ∃ b insns,
      loongarch_expand_vec_perm_const_2 { d with testing_p := false } = some (b, insns)
      ∧ loongarch_expand_vec_perm_const_2 { d with testing_p := true } = some (b, []) := by
  obtain ⟨r, hr⟩ := vshuf_rperm_loop_returns { d with testing_p := false } d.nelt 0
    (fun _ => .NULL_RTX) (by omega)
  unfold loongarch_expand_vec_perm_const_2
  by_cases h16 : GET_MODE_SIZE d.vmode = 16
  · simp only [h16, if_true]
    unfold loongarch_try_expand_lsx_vshuf_const
    by_cases hm : d.vmode = V2DImode ∨ d.vmode = V2DFmode ∨ d.vmode = V4SImode
        ∨ d.vmode = V4SFmode ∨ d.vmode = V8HImode ∨ d.vmode = V16QImode
    · simp only [hm, if_true]
      by_cases hg : GET_MODE d.op0 ≠ GET_MODE (if d.one_vector_p then d.op0 else d.op1)
          ∨ GET_MODE d.op0 ≠ GET_MODE d.target
      · exact ⟨false, [], by simp only [hg, if_true], by simp only [hg, if_true]⟩
      · simp only [hg, if_false, Bool.false_eq_true, if_true, hr, Option.bind_eq_bind,
          Option.some_bind, Option.pure_def]
        exact ⟨true, _, rfl, rfl⟩
    · simp only [hm, if_false]
      exact ⟨false, [], rfl, rfl⟩
  · simp only [h16, if_false]
    exact ⟨false, [], rfl, rfl⟩

theorem expand_vec_perm_const_2_testing_witness :
    ∃ b insns,
      loongarch_expand_vec_perm_const_2 { example_vshuf_d with testing_p := false }
        = some (b, insns)
      ∧ loongarch_expand_vec_perm_const_2 { example_vshuf_d with testing_p := true }
        = some (b, []) :=
  expand_vec_perm_const_2_testing example_vshuf_d (by decide)

/-! ## C23: 256-bit modes -/

/-- C23, counterexample: the selector `{ 0, 4, 1, 5 }` on two
registers in the 256-bit mode `V4DImode` is a lowpart interleave for
`loongarch_is_lasx_lowpart_interleave`, and
`loongarch_expand_vec_perm_const_2` returns false for it, with `testing_p`
clear and with `testing_p` set, and emits nothing. -/
theorem expand_vec_perm_const_2_rejects_lowpart_interleave :
    loongarch_is_lasx_lowpart_interleave example_interleave_d = true
    ∧ GET_MODE_SIZE example_interleave_d.vmode = 32
    ∧ loongarch_expand_vec_perm_const_2 example_interleave_d = some (false, [])
    ∧ loongarch_expand_vec_perm_const_2 { example_interleave_d with testing_p := true }
        = some (false, []) :=
  ⟨by decide, rfl, rfl, rfl⟩

/-- C23, amended: for a vector mode that is not 16 bytes long, so for every
256-bit mode, `loongarch_expand_vec_perm_const_2` returns false for every
descriptor, whether or not its selector is one of the idioms, and emits no
instruction. -/
theorem expand_vec_perm_const_2_not_lsx (d : expand_vec_perm_d)
    (h : GET_MODE_SIZE d.vmode ≠ 16) :
    loongarch_expand_vec_perm_const_2 d = some (false, []) := by
  unfold loongarch_expand_vec_perm_const_2
  simp only [h, if_false]

theorem expand_vec_perm_const_2_not_lsx_witness :
    GET_MODE_SIZE example_interleave_d.vmode = 32
    ∧ loongarch_expand_vec_perm_const_2 example_interleave_d = some (false, [])
    ∧ loongarch_expand_vec_perm_interleave example_target example_interleave_d = some true
    ∧ loongarch_expand_vec_perm_interleave example_target
        { example_interleave_d with testing_p := true } = some true :=
  ⟨rfl, expand_vec_perm_const_2_not_lsx example_interleave_d (by decide), by decide, by decide⟩

/-! ## C24: the descriptor of a constant permutation -/

theorem perm_store_some (perm : Nat → Nat) (i v : Nat) (hi : i < MAX_VECT_LEN) :
    perm_store perm i v = some (fun k => if k = i then v % 256 else perm k) :=
  if_pos hi

theorem which_or_cases (which c : Nat) (hw : which ≤ 3) (hc : c = 1 ∨ c = 2) :
    (which ||| c) ≤ 3 ∧ (which ||| c) ≠ 0 ∧ ((which ||| c) ≤ 1 → which ≤ 1 ∧ c = 1) := by
  interval_cases which <;> rcases hc with rfl | rfl <;> decide

theorem vec_perm_which_loop_spec (sel : Nat → Int) (nelt : Nat) (hn : 1 ≤ nelt) :
    ∀ (count i which : Nat) (orig : Nat → Nat), i + count ≤ MAX_VECT_LEN → which ≤ 3 →
      (0 < i → which ≠ 0) → (∀ k, k < i → orig k < 2 * nelt) →
      (which ≤ 1 → ∀ k, k < i → orig k < nelt) →
      ∃ w p, vec_perm_which_loop sel nelt count i which orig = some (w, p)
        ∧ w ≤ 3 ∧ (0 < i + count → w ≠ 0) ∧ (∀ k, k < i + count → p k < 2 * nelt)
        ∧ (w ≤ 1 → ∀ k, k < i + count → p k < nelt) := by
  intro count
  induction count with
  | zero =>
      intro i which orig _ hw h0 h2 h1
      exact ⟨which, orig, rfl, hw, h0, h2, h1⟩
  | succ c ih =>
      intro i which orig hle hw h0 h2 h1
      have hei : to_unsigned (sel i) &&& (2 * nelt - 1) ≤ 2 * nelt - 1 := Nat.and_le_right
      have hmod : (to_unsigned (sel i) &&& (2 * nelt - 1)) % 256
          ≤ to_unsigned (sel i) &&& (2 * nelt - 1) := Nat.mod_le _ _
      have hc : (if to_unsigned (sel i) &&& (2 * nelt - 1) < nelt then 1 else 2) = 1
          ∨ (if to_unsigned (sel i) &&& (2 * nelt - 1) < nelt then 1 else 2) = 2 := by
        split_ifs
        · exact Or.inl rfl
        · exact Or.inr rfl
      obtain ⟨g1, g2, g3⟩ := which_or_cases which _ hw hc
      obtain ⟨w, p, hp, q1, q2, q3, q4⟩ := ih (i + 1)
        (which ||| (if to_unsigned (sel i) &&& (2 * nelt - 1) < nelt then 1 else 2))
        (fun k => if k = i then (to_unsigned (sel i) &&& (2 * nelt - 1)) % 256 else orig k)
        (by omega) g1 (fun _ => g2)
        (fun k hk => by
          by_cases hki : k = i
          · simp only [hki, if_true]
            omega
          · simp only [hki, if_false]
            exact h2 k (by omega))
        (fun hle1 k hk => by
          obtain ⟨g4, g5⟩ := g3 hle1
          by_cases hki : k = i
          · simp only [hki, if_true]
            split_ifs at g5 with hlt <;> omega
          · simp only [hki, if_false]
            exact h1 g4 k (by omega))
      refine ⟨w, p, ?_, q1, fun _ => q2 (by omega), fun k hk => q3 k (by omega),
        fun hw1 k hk => q4 hw1 k (by omega)⟩
      unfold vec_perm_which_loop
      simp only [perm_store_some _ _ _ (show i < MAX_VECT_LEN by omega), Option.bind_eq_bind,
        Option.some_bind]
      exact hp

theorem perm_update_loop_spec (f : Nat → Nat) :
    ∀ (count i : Nat) (perm : Nat → Nat), i + count ≤ MAX_VECT_LEN →
      ∃ p, perm_update_loop f count i perm = some p
        ∧ ∀ k, p k = if i ≤ k ∧ k < i + count then f (perm k) % 256 else perm k := by
  intro count
  induction count with
  | zero =>
      intro i perm _
      refine ⟨perm, rfl, fun k => ?_⟩
      have : ¬ (i ≤ k ∧ k < i + 0) := by omega
      simp only [this, if_false]
  | succ c ih =>
      intro i perm hle
      obtain ⟨p, hp, hk⟩ := ih (i + 1)
        (fun k => if k = i then f (perm i) % 256 else perm k) (by omega)
      refine ⟨p, ?_, fun k => ?_⟩
      · unfold perm_update_loop
        simp only [perm_store_some _ _ _ (show i < MAX_VECT_LEN by omega), Option.bind_eq_bind,
          Option.some_bind]
        exact hp
      · rw [hk k]
        by_cases hki : k = i
        · subst hki
          have a1 : ¬ (k + 1 ≤ k ∧ k < k + 1 + c) := by omega
          have a2 : k ≤ k ∧ k < k + (c + 1) := by omega
          simp only [a1, a2, if_false, if_true, and_self]
        · by_cases hr : i + 1 ≤ k ∧ k < i + 1 + c
          · have a2 : i ≤ k ∧ k < i + (c + 1) := by omega
            simp only [hr, a2, hki, and_self, if_true, if_false]
          · have a2 : ¬ (i ≤ k ∧ k < i + (c + 1)) := by omega
            simp only [hr, a2, hki, if_false]

theorem vec_perm_switch_spec (env : perm_middle_end) (nelt : Nat) (testing_p : Bool)
    (which : Nat) (op0 op1 : rtx) (orig : Nat → Nat) (h1 : 1 ≤ nelt)
    (h32 : nelt ≤ MAX_VECT_LEN) (hw : which ≤ 3) (hw0 : which ≠ 0)
    (h2 : ∀ k, k < nelt → orig k < 2 * nelt) (hone : which ≤ 1 → ∀ k, k < nelt → orig k < nelt) :
    ∃ sw, vec_perm_switch env nelt testing_p which op0 op1 orig = some sw
      ∧ (∀ k, k < nelt → sw.2.2.2 k < 2 * nelt)
      ∧ (sw.2.2.1 = true → sw.1 = sw.2.1 ∧ ∀ k, k < nelt → sw.2.2.2 k < nelt) := by
  obtain ⟨p, hp, hk⟩ := perm_update_loop_spec (fun p => p &&& (nelt - 1)) nelt 0 orig
    (by omega)
  have hpk : ∀ k, k < nelt → p k < nelt := by
    intro k hlt
    rw [hk k]
    have a : 0 ≤ k ∧ k < 0 + nelt := by omega
    simp only [a, and_self, if_true]
    have b : orig k &&& (nelt - 1) ≤ nelt - 1 := Nat.and_le_right
    have c : (orig k &&& (nelt - 1)) % 256 ≤ orig k &&& (nelt - 1) := Nat.mod_le _ _
    omega
  have hcase2 : ∃ sw, (do
        let perm ← perm_update_loop (fun p => p &&& (nelt - 1)) nelt 0 orig
        pure (op1, op1, true, perm) : Option (rtx × rtx × Bool × (Nat → Nat))) = some sw
      ∧ (∀ k, k < nelt → sw.2.2.2 k < 2 * nelt)
      ∧ (sw.2.2.1 = true → sw.1 = sw.2.1 ∧ ∀ k, k < nelt → sw.2.2.2 k < nelt) := by
    refine ⟨(op1, op1, true, p), ?_, fun k hlt => ?_, fun _ => ⟨rfl, hpk⟩⟩
    · simp only [hp, Option.bind_eq_bind, Option.some_bind, Option.pure_def]
    · have := hpk k hlt
      show p k < 2 * nelt
      omega
  unfold vec_perm_switch
  have hcs : which = 1 ∨ which = 2 ∨ which = 3 := by omega
  rcases hcs with rfl | rfl | rfl
  · refine ⟨(op0, op0, true, orig), by simp, h2, fun _ => ⟨rfl, hone (by omega)⟩⟩
  · simp only [show ¬ (2 = 3) by omega, if_false, if_true]
    exact hcase2
  · simp only [if_true]
    by_cases hb : (testing_p || !env.rtx_equal_p op0 op1) = true
    · simp only [hb, if_true]
      exact ⟨(op0, op1, false, orig), rfl, h2, fun h => by simp at h⟩
    · simp only [hb, if_false]
      exact hcase2

/-- C24: for every vector mode with at least one and at most `MAX_VECT_LEN`
elements (so for every element count that is a power of two up to 32) and every
selector, `loongarch_vectorize_vec_perm_const` builds a descriptor; in the
descriptor it passes to `loongarch_expand_vec_perm_const_2` every `perm[i]`
with `i < nelt` is below `2 * nelt`, and if `one_vector_p` is set then `op0`
and `op1` are the same value and every such `perm[i]` is below `nelt`.  The
descriptor of the second try with the original permutation has
`one_vector_p` clear and every `perm[i]` below `2 * nelt`. -/
theorem vec_perm_const_descriptor_invariant (env : perm_middle_end) (vmode : machine_mode)
    (target op0 op1 : rtx) (op0_is_op1 : Bool) (sel : Nat → Int)
    (hv : VECTOR_MODE_P vmode = true) (h1 : 1 ≤ GET_MODE_NUNITS vmode)
    (h32 : GET_MODE_NUNITS vmode ≤ MAX_VECT_LEN) :
    ∃ st, loongarch_vectorize_vec_perm_const_descriptor env vmode vmode target op0 op1
        op0_is_op1 sel = some (some st)
      ∧ st.d.nelt = GET_MODE_NUNITS vmode
      ∧ (∀ i, i < st.d.nelt → st.d.perm i < 2 * st.d.nelt)
      ∧ (st.d.one_vector_p = true →
          st.d.op0 = st.d.op1 ∧ ∀ i, i < st.d.nelt → st.d.perm i < st.d.nelt)
      ∧ (∀ i, i < st.d.nelt →
          (vec_perm_const_retry st).perm i < 2 * (vec_perm_const_retry st).nelt)
      ∧ (vec_perm_const_retry st).one_vector_p = false := by
  generalize hnelt : GET_MODE_NUNITS vmode = nelt at h1 h32
  have hM : MAX_VECT_LEN = 32 := rfl
  have hd : nelt % 256 = nelt := Nat.mod_eq_of_lt (by omega)
  obtain ⟨w, orig, hloop, hw3, hw0, hlt2, hlt1⟩ := vec_perm_which_loop_spec sel nelt h1 nelt 0 0
    (fun _ => 0) (by omega) (by omega) (fun h => by omega) (fun k hk => by omega)
    (fun _ k hk => by omega)
  simp only [Nat.zero_add] at hw0 hlt2 hlt1
  generalize hop1 : (if (!NULL_P (if (!NULL_P op0 && op0_is_op1) = true
      then env.force_reg vmode op0 else op1)) = true
    then env.force_reg vmode (if (!NULL_P op0 && op0_is_op1) = true
      then env.force_reg vmode op0 else op1)
    else (if (!NULL_P op0 && op0_is_op1) = true then env.force_reg vmode op0 else op1)) = fop1
  generalize hop0 : (if (!NULL_P op0) = true then env.force_reg vmode op0 else op0) = fop0
  obtain ⟨sw, hsw, s2, s1⟩ := vec_perm_switch_spec env nelt (NULL_P target) w fop0 fop1 orig h1
    h32 hw3 (hw0 (by omega)) hlt2 hlt1
  obtain ⟨p, hp, hk⟩ := perm_update_loop_spec (fun p => p % (nelt * 2)) nelt 0 sw.2.2.2
    (by omega)
  have hpk : ∀ k, k < nelt → p k = sw.2.2.2 k % (nelt * 2) % 256 := by
    intro k hlt
    rw [hk k]
    have a : 0 ≤ k ∧ k < 0 + nelt := by omega
    simp only [a, and_self, if_true]
  have hpk2 : ∀ k, k < nelt → p k < 2 * nelt := by
    intro k hlt
    rw [hpk k hlt]
    have a : sw.2.2.2 k % (nelt * 2) < nelt * 2 := Nat.mod_lt _ (by omega)
    have b : sw.2.2.2 k % (nelt * 2) % 256 ≤ sw.2.2.2 k % (nelt * 2) := Nat.mod_le _ _
    omega
  have hpk1 : sw.2.2.1 = true → ∀ k, k < nelt → p k < nelt := by
    intro hone k hlt
    rw [hpk k hlt]
    have a := (s1 hone).2 k hlt
    have b : sw.2.2.2 k % (nelt * 2) ≤ sw.2.2.2 k := Nat.mod_le _ _
    have c : sw.2.2.2 k % (nelt * 2) % 256 ≤ sw.2.2.2 k % (nelt * 2) := Nat.mod_le _ _
    omega
  unfold loongarch_vectorize_vec_perm_const_descriptor
  simp only [ne_eq, not_true_eq_false, if_false, hv, gcc_assert, if_true, hnelt, hd, hloop,
    hop0, hop1, hsw, hp, Option.bind_eq_bind, Option.some_bind, Option.pure_def]
  by_cases ht : NULL_P target = true
  · simp only [ht, if_true]
    refine ⟨_, rfl, rfl, hpk2, fun hone => ⟨?_, hpk1 hone⟩, fun k hlt => hlt2 k hlt, rfl⟩
    simp only at hone
    simp only [hone, Bool.not_true, Bool.false_eq_true, if_false]
  · simp only [ht, if_false]
    exact ⟨_, rfl, rfl, hpk2, fun hone => ⟨(s1 hone).1, hpk1 hone⟩,
      fun k hlt => hlt2 k hlt, rfl⟩

theorem vec_perm_const_descriptor_invariant_witness :
    ∃ st, loongarch_vectorize_vec_perm_const_descriptor example_perm_middle_end V4DImode
        V4DImode (.REG V4DImode 80) (.REG V4DImode 81) (.REG V4DImode 82) false
        example_selector = some (some st)
      ∧ st.d.nelt = GET_MODE_NUNITS V4DImode
      ∧ (∀ i, i < st.d.nelt → st.d.perm i < 2 * st.d.nelt)
      ∧ (st.d.one_vector_p = true →
          st.d.op0 = st.d.op1 ∧ ∀ i, i < st.d.nelt → st.d.perm i < st.d.nelt)
      ∧ (∀ i, i < st.d.nelt →
          (vec_perm_const_retry st).perm i < 2 * (vec_perm_const_retry st).nelt)
      ∧ (vec_perm_const_retry st).one_vector_p = false :=
  vec_perm_const_descriptor_invariant example_perm_middle_end V4DImode (.REG V4DImode 80)
    (.REG V4DImode 81) (.REG V4DImode 82) false example_selector (by decide) (by decide)
    (by decide)

end LoongArch
